import Mathlib

/-!
# ModelLoader (OBJ parser): a shallow embedding and its checked properties

Source: `src/ModelLoader.h`, `src/ModelLoader.cpp` (`ModelLoader::LoadModel`).

Conventions of the embedding.

* A C++ `std::string` is a `List Char`; a file is the list of its characters.
* An input stream is the list of characters not yet extracted.  The program
  never clears a stream's failbit, and a failed stream and a stream at end of
  input answer every later extraction in the same way (nothing is read, the
  target variable keeps its value), so a failed stream is the empty list.
* `unsigned int` is a `Nat` below `2 ^ 32`; arithmetic on it is reduced
  modulo `2 ^ 32` where the source can wrap.
* `float` is a type parameter `F`.  The extraction of a float from a stream
  is library code; it enters as a `FloatReader`.
* `Option` results: `none` stands for a run that executes an operation to
  which C++ gives no defined behaviour (use of a never written local, or
  `operator[]` outside a vector).  The source has no error channel of its
  own: it returns a `Model` or does one of these.
* The iteration order of `std::unordered_map` is not fixed by the language;
  it enters as the field `order` of the environment.
-/

namespace ModelLoader

/-! ## Data model (`ModelLoader.h`) -/

/-- A `std::string`. -/
abbrev Str := List Char

/-- The struct `vec3`. -/
structure vec3 (F : Type) where
  x : F
  y : F
  z : F
deriving DecidableEq, Repr

/-- The struct `vec2`. -/
structure vec2 (F : Type) where
  x : F
  y : F
deriving DecidableEq, Repr

/-- The struct `Vertex`. -/
structure Vertex (F : Type) where
  x : F
  y : F
  z : F
  texW : F
  texH : F
  nX : F
  nY : F
  nZ : F
deriving DecidableEq, Repr

/-- The struct `TriangleIndex`: `std::string indices[3]`. -/
structure TriangleIndex where
  i0 : Str
  i1 : Str
  i2 : Str
deriving DecidableEq, Repr

/-- The array `indices` of a `TriangleIndex`, in index order. -/
def TriangleIndex.indices (t : TriangleIndex) : List Str := [t.i0, t.i1, t.i2]

/-- The class `Mesh`.  The member `m_Material` is never assigned by the
loader and is left out. -/
structure Mesh (F : Type) where
  m_Vertices : List (Vertex F)
  m_Indices : List Nat
deriving DecidableEq, Repr

/-- The class `Model`. -/
structure Model (F : Type) where
  meshes : List (Mesh F)
deriving DecidableEq, Repr

/-- The class `Material`. -/
structure Material where
  texFile : Str
deriving DecidableEq, Repr

/-! ## Library primitives used by `LoadModel` -/

/-- The modulus of `unsigned int`. -/
def UINT : Nat := 2 ^ 32

/-- The predicate `isspace` of the classic locale: the blank and the
characters with codes 9 to 13 (tab, newline, vertical tab, form feed,
carriage return). -/
def isspace (c : Char) : Bool :=
  c.toNat == 32 || (decide (9 ≤ c.toNat) && decide (c.toNat ≤ 13))

/-- The decimal digits. -/
def isdigit (c : Char) : Bool :=
  decide (48 ≤ c.toNat) && decide (c.toNat ≤ 57)

/-- The test `s.find(pat) != std::string::npos`. -/
def contains : Str → Str → Bool
  | [], pat => pat.isEmpty
  | c :: s, pat => pat.isPrefixOf (c :: s) || contains s pat

/-- The extraction `stream >> str` for a `std::string`: leading whitespace is
skipped and the characters up to the next whitespace are taken.  `none` when
no character is left (the stream fails; the target string is not changed). -/
def readToken (r : List Char) : Option (Str × List Char) :=
  match r.dropWhile isspace with
  | [] => none
  | c :: cs => some ((c :: cs).takeWhile (fun a => !isspace a),
                     (c :: cs).dropWhile (fun a => !isspace a))

/-- An extraction `stream >> var` into a string variable holding `old`:
the new value of the variable and the stream afterwards. -/
def readInto (old : Str) (r : List Char) : Str × List Char :=
  match readToken r with
  | some (t, r1) => (t, r1)
  | none => (old, [])

/-- The call `ignore(n, delim)` with `delim` a newline: characters are
discarded until `n` of them are gone, the input ends, or a newline has been
discarded. -/
def ignoreN : Nat → List Char → List Char
  | 0, r => r
  | _ + 1, [] => []
  | n + 1, c :: r => if c = '\n' then r else ignoreN n r

/-- The call `ignore(256, '\n')`. -/
def ignoreLine (r : List Char) : List Char := ignoreN 256 r

/-- The library extraction of a `float`.  `get r`, for `r` non-empty and
without leading whitespace, is `none` when no float can be read, and
otherwise the value read together with the number of characters consumed
less one (an extraction that succeeds consumes at least one character).
`zero` is the value `0`, which a failed conversion stores. -/
structure FloatReader (F : Type) where
  zero : F
  get : List Char → Option (F × Nat)

/-- The extraction `stream >> f` for a `float` local that was never written.
The first component is `none` when the local stays unwritten (the stream
had already failed or ended); a conversion failure stores zero and fails the
stream. -/
def readFloat {F : Type} (rd : FloatReader F) (r : List Char) : Option F × List Char :=
  match r.dropWhile isspace with
  | [] => (none, [])
  | c :: cs =>
    match rd.get (c :: cs) with
    | some (v, n) => (some v, (c :: cs).drop (n + 1))
    | none => (some rd.zero, [])

/-- The value of a decimal digit character. -/
def digitVal (c : Char) : Nat := c.toNat - 48

/-- The value of a string of decimal digits, most significant first. -/
def decimalVal (ds : List Char) : Nat := ds.foldl (fun a c => 10 * a + digitVal c) 0

/-- The conversion of the characters accumulated for an `unsigned int`, after
an optional sign.  Without a digit the conversion stores `0` and fails the
stream; a value above the largest `unsigned int` stores that largest value
and fails the stream; after a minus sign the value is negated modulo
`2 ^ 32`.  The result is the value stored and the stream afterwards. -/
def readDigits (neg : Bool) (body : List Char) : Option Nat × List Char :=
  if (body.takeWhile isdigit).isEmpty then (some 0, [])
  else if UINT ≤ decimalVal (body.takeWhile isdigit) then (some (UINT - 1), [])
  else (some (if neg then (UINT - decimalVal (body.takeWhile isdigit)) % UINT
              else decimalVal (body.takeWhile isdigit)),
        body.dropWhile isdigit)

/-- The extraction `ss >> u` for an `unsigned int` local that was never
written.  The first component is `none` when the local stays unwritten (no
character left); otherwise leading whitespace is skipped and the number is
converted as in `readDigits`. -/
def readUnsigned (r : List Char) : Option Nat × List Char :=
  match r.dropWhile isspace with
  | [] => (none, [])
  | c :: cs => readDigits (c == '-') (if c == '-' || c == '+' then cs else c :: cs)

/-- A lookup `map.find(key)` in a map kept as a list of entries. -/
def find {V : Type} (key : Str) : List (Str × V) → Option V
  | [] => none
  | (k, v) :: m => if k = key then some v else find key m

/-- The calls `map.insert(pair)` and `map.emplace(pair)`: the entry is added
unless the key is present already, in which case the map is left as it is. -/
def insert {V : Type} (m : List (Str × V)) (key : Str) (v : V) : List (Str × V) :=
  match find key m with
  | some _ => m
  | none => m ++ [(key, v)]

/-! ## The conversion phase of `LoadModel` (lines 185 to 255) -/

/-- The three `vertexAttributes` read from an index string: every slash is
replaced by a blank and three `unsigned int` are extracted.  `none` when one
of the three stays unwritten. -/
def vertexAttributes (index : Str) : Option (Nat × Nat × Nat) :=
  let vertexData := index.map (fun c => if c = '/' then ' ' else c)
  let a0 := readUnsigned vertexData
  let a1 := readUnsigned a0.2
  let a2 := readUnsigned a1.2
  match a0.1, a1.1, a2.1 with
  | some p, some t, some n => some (p, t, n)
  | _, _, _ => none

/-- The index expression `attribute - 1` in `unsigned int` arithmetic. -/
def minusOne (a : Nat) : Nat := (a + (UINT - 1)) % UINT

/-- The `Vertex` pushed for a new index string; `none` when an attribute is
unwritten or an `operator[]` falls outside its vector. -/
def makeVertex {F : Type} (VertexPositions : List (vec3 F))
    (TextureCoordinates : List (vec2 F)) (Normals : List (vec3 F)) (index : Str) :
    Option (Vertex F) :=
  match vertexAttributes index with
  | none => none
  | some (p, t, n) =>
    match VertexPositions[minusOne p]?, TextureCoordinates[minusOne t]?,
          Normals[minusOne n]? with
    | some vp, some vt, some vn => some ⟨vp.x, vp.y, vp.z, vt.x, vt.y, vn.x, vn.y, vn.z⟩
    | _, _, _ => none

/-- The locals `vertices`, `indices` and `vertexNum` shared by all meshes. -/
structure ConvState (F : Type) where
  vertices : List (Vertex F)
  indices : List (Str × Nat)
  vertexNum : Nat
deriving DecidableEq, Repr

/-- The body of the innermost loop for one index string: the state after
it and the value pushed on `meshConvertedIndices`. -/
def convertIndex {F : Type} (VertexPositions : List (vec3 F))
    (TextureCoordinates : List (vec2 F)) (Normals : List (vec3 F))
    (st : ConvState F) (index : Str) : Option (ConvState F × Nat) :=
  match find index st.indices with
  | some k => some (st, k)
  | none =>
    match makeVertex VertexPositions TextureCoordinates Normals index with
    | none => none
    | some v =>
      some (⟨st.vertices ++ [v], st.indices ++ [(index, st.vertexNum)],
             (st.vertexNum + 1) % UINT⟩, st.vertexNum)

/-- The innermost loop over a list of index strings, appending to
`meshConvertedIndices`. -/
def convertIndices {F : Type} (VertexPositions : List (vec3 F))
    (TextureCoordinates : List (vec2 F)) (Normals : List (vec3 F)) :
    ConvState F → List Nat → List Str → Option (ConvState F × List Nat)
  | st, conv, [] => some (st, conv)
  | st, conv, index :: rest =>
    match convertIndex VertexPositions TextureCoordinates Normals st index with
    | none => none
    | some (st1, k) =>
      convertIndices VertexPositions TextureCoordinates Normals st1 (conv ++ [k]) rest

/-- The loop over the triangles of one mesh. -/
def convertTriangles {F : Type} (VertexPositions : List (vec3 F))
    (TextureCoordinates : List (vec2 F)) (Normals : List (vec3 F)) :
    ConvState F → List Nat → List TriangleIndex → Option (ConvState F × List Nat)
  | st, conv, [] => some (st, conv)
  | st, conv, triangle :: rest =>
    match convertIndices VertexPositions TextureCoordinates Normals st conv triangle.indices with
    | none => none
    | some (st1, conv1) =>
      convertTriangles VertexPositions TextureCoordinates Normals st1 conv1 rest

/-- The loop over `meshIndices`, visited in the given order: the final state
and the `m_Indices` of the meshes pushed, in order. -/
def convertMeshes {F : Type} (VertexPositions : List (vec3 F))
    (TextureCoordinates : List (vec2 F)) (Normals : List (vec3 F)) :
    ConvState F → List (List Nat) → List (Str × List TriangleIndex) →
    Option (ConvState F × List (List Nat))
  | st, meshes, [] => some (st, meshes)
  | st, meshes, mesh :: rest =>
    match convertTriangles VertexPositions TextureCoordinates Normals st [] mesh.2 with
    | none => none
    | some (st1, meshConvertedIndices) =>
      convertMeshes VertexPositions TextureCoordinates Normals st1
        (meshes ++ [meshConvertedIndices]) rest

/-- The conversion phase: the meshes are built in the given order and every
mesh then receives the completed vertex buffer. -/
def buildModel {F : Type} (VertexPositions : List (vec3 F))
    (TextureCoordinates : List (vec2 F)) (Normals : List (vec3 F))
    (meshIndices : List (Str × List TriangleIndex)) : Option (Model F) :=
  match convertMeshes VertexPositions TextureCoordinates Normals ⟨[], [], 0⟩ [] meshIndices with
  | none => none
  | some (st, meshes) => some ⟨meshes.map (fun idx => ⟨st.vertices, idx⟩)⟩

/-! ## The scan of the material file (lines 98 to 121) -/

/-- The text `newmtl`. -/
def kwNewmtl : Str := ['n', 'e', 'w', 'm', 't', 'l']

/-- The text `map_Kd`. -/
def kwMapKd : Str := ['m', 'a', 'p', '_', 'K', 'd']

/-- The text `mtllib`. -/
def kwMtllib : Str := ['m', 't', 'l', 'l', 'i', 'b']

/-- The text `usemtl`. -/
def kwUsemtl : Str := ['u', 's', 'e', 'm', 't', 'l']

/-- The inner loop of the material scan (lines 106 to 119), entered with the
current `materialName`: the map `materials` and the stream when it is left. -/
def mtlInnerAux (texDir materialName : Str) :
    Nat → List Char → List (Str × Material) → List (Str × Material) × List Char
  | 0, r, materials => (materials, r)
  | fuel + 1, r, materials =>
    match readToken r with
    | none => (materials, [])
    | some (input, r1) =>
      if contains input kwNewmtl then mtlInnerAux texDir materialName fuel r1 materials
      else if contains input kwMapKd then
        let (input2, r2) := readInto input r1
        (insert materials materialName ⟨texDir ++ input2⟩, r2)
      else mtlInnerAux texDir materialName fuel (ignoreLine r1) materials

/-- The inner loop of the material scan, run to its end. -/
def mtlInner (texDir materialName : Str) (r : List Char) (materials : List (Str × Material)) :
    List (Str × Material) × List Char :=
  mtlInnerAux texDir materialName (r.length + 1) r materials

/-- The outer loop of the material scan (lines 98 to 121). -/
def scanMtlAux (texDir : Str) : Nat → List Char → List (Str × Material) → List (Str × Material)
  | 0, _, materials => materials
  | fuel + 1, r, materials =>
    match readToken r with
    | none => materials
    | some (input, r1) =>
      if !contains input kwNewmtl then scanMtlAux texDir fuel (ignoreLine r1) materials
      else
        let (materialName, r2) := readInto [] r1
        let (materials1, r3) := mtlInner texDir materialName r2 materials
        scanMtlAux texDir fuel r3 materials1

/-- The scan of a whole material file into the map `materials`. -/
def scanMtl (texDir : Str) (mtfile : List Char) (materials : List (Str × Material)) :
    List (Str × Material) :=
  scanMtlAux texDir (mtfile.length + 1) mtfile materials

/-! ## The scan of the geometry file (lines 56 to 176) -/

/-- What the loader is run in: the float extraction, the files that can be
opened (a path is mapped to the content of its file), and the order in which
an `unordered_map` of meshes is iterated, some arrangement of its entries. -/
structure Env (F : Type) where
  reader : FloatReader F
  files : Str → Option (List Char)
  order : List (Str × List TriangleIndex) → List (Str × List TriangleIndex)
  order_perm : ∀ l, (order l).Perm l

/-- The containers filled by the scan of the geometry file. -/
structure ObjData (F : Type) where
  VertexPositions : List (vec3 F)
  Normals : List (vec3 F)
  TextureCoordinates : List (vec2 F)
  materials : List (Str × Material)
  meshIndices : List (Str × List TriangleIndex)
deriving DecidableEq, Repr

/-- How the scan of the geometry file ends: at the end of the input with the
containers filled, by the early `return Model()` of line 96, or in the use
of a float local that was never written. -/
inductive ScanResult (F : Type) where
  | finished (d : ObjData F)
  | aborted
  | undefined
deriving DecidableEq, Repr

/-- The loop collecting the faces of one mesh (lines 64 to 76, and the same
loop again at lines 129 to 145): the triangles collected, the value of
`newMesh` and the stream when the loop is left. -/
def faceLoopAux : Nat → List Char → List TriangleIndex → List TriangleIndex × Bool × List Char
  | 0, r, triIndices => (triIndices, false, r)
  | fuel + 1, r, triIndices =>
    match readToken r with
    | none => (triIndices, false, [])
    | some (input, r1) =>
      if contains input kwUsemtl then (triIndices, true, r1)
      else if input = ['f'] then
        let (i0, r2) := readInto [] r1
        let (i1, r3) := readInto [] r2
        let (i2, r4) := readInto [] r3
        faceLoopAux fuel r4 (triIndices ++ [⟨i0, i1, i2⟩])
      else faceLoopAux fuel r1 triIndices

/-- The face loop, run to its end. -/
def faceLoop (r : List Char) : List TriangleIndex × Bool × List Char :=
  faceLoopAux (r.length + 1) r []

/-- The tokens skipped with the rest of their line (lines 80 to 88). -/
def isSkipTag (input : Str) : Bool :=
  input = ['#'] || input = ['o'] || input = ['s'] || input = ['g']

/-- One pass through the main loop starts from the value of `newMesh`, the
stream and the containers.  It either hands these on to the next pass or
ends the scan. -/
inductive Step (F : Type) where
  | next (newMesh : Bool) (r : List Char) (d : ObjData F)
  | stop (res : ScanResult F)
deriving DecidableEq, Repr

/-- One pass through the main loop over the geometry file (lines 58 to 175):
the extraction `objFile >> input` of the loop condition and the loop body. -/
def scanStep {F : Type} (env : Env F) (matDir texDir : Str)
    (newMesh : Bool) (r : List Char) (d : ObjData F) : Step F :=
  match readToken r with
  | none => .stop (.finished d)
  | some (input, r1) =>
    if newMesh then
      let (triIndices, newMesh1, r2) := faceLoop r1
      .next newMesh1 r2 { d with meshIndices := insert d.meshIndices input triIndices }
    else if isSkipTag input then
      .next false (ignoreLine r1) d
    else if contains input kwMtllib then
      let (materialFile, r2) := readInto [] r1
      match env.files (matDir ++ materialFile) with
      | none => .stop .aborted
      | some mtfile => .next false r2 { d with materials := scanMtl texDir mtfile d.materials }
    else if contains input kwUsemtl then
      let (matName, r2) := readInto [] r1
      let (triIndices, newMesh1, r3) := faceLoop r2
      .next newMesh1 r3 { d with meshIndices := insert d.meshIndices matName triIndices }
    else if contains input ['v', 't'] then
      let (x, r2) := readFloat env.reader r1
      let (y, r3) := readFloat env.reader r2
      match x, y with
      | some x, some y =>
        .next false r3 { d with TextureCoordinates := d.TextureCoordinates ++ [⟨x, y⟩] }
      | _, _ => .stop .undefined
    else if contains input ['v', 'n'] then
      let (x, r2) := readFloat env.reader r1
      let (y, r3) := readFloat env.reader r2
      let (z, r4) := readFloat env.reader r3
      match x, y, z with
      | some x, some y, some z =>
        .next false r4 { d with Normals := d.Normals ++ [⟨x, y, z⟩] }
      | _, _, _ => .stop .undefined
    else if contains input ['v'] then
      let (x, r2) := readFloat env.reader r1
      let (y, r3) := readFloat env.reader r2
      let (z, r4) := readFloat env.reader r3
      match x, y, z with
      | some x, some y, some z =>
        .next false r4 { d with VertexPositions := d.VertexPositions ++ [⟨x, y, z⟩] }
      | _, _, _ => .stop .undefined
    else .next false r1 d

/-- The main loop, bounded by a number of passes. -/
def scanObjAux {F : Type} (env : Env F) (matDir texDir : Str) :
    Nat → Bool → List Char → ObjData F → ScanResult F
  | 0, _, _, d => .finished d
  | fuel + 1, newMesh, r, d =>
    match scanStep env matDir texDir newMesh r d with
    | .stop res => res
    | .next newMesh1 r1 d1 => scanObjAux env matDir texDir fuel newMesh1 r1 d1

/-- The main loop from a given point of the run on, run to its end: every
pass extracts a character, so one pass more than characters left suffices. -/
def scanFrom {F : Type} (env : Env F) (matDir texDir : Str) (newMesh : Bool)
    (r : List Char) (d : ObjData F) : ScanResult F :=
  scanObjAux env matDir texDir (r.length + 1) newMesh r d

/-- The point of the run reached after `k` passes through the main loop, if
the loop has not ended before. -/
def runSteps {F : Type} (env : Env F) (matDir texDir : Str) :
    Nat → Bool → List Char → ObjData F → Option (Bool × List Char × ObjData F)
  | 0, newMesh, r, d => some (newMesh, r, d)
  | k + 1, newMesh, r, d =>
    match scanStep env matDir texDir newMesh r d with
    | .stop _ => none
    | .next newMesh1 r1 d1 => runSteps env matDir texDir k newMesh1 r1 d1

/-- The containers before the scan: all empty. -/
def ObjData.empty {F : Type} : ObjData F := ⟨[], [], [], [], []⟩

/-- The scan of a whole geometry file. -/
def scanObj {F : Type} (env : Env F) (matDir texDir : Str) (objFile : List Char) :
    ScanResult F :=
  scanFrom env matDir texDir false objFile ObjData.empty

/-! ## `ModelLoader::LoadModel` -/

/-- The function `LoadModel`.  A geometry file that cannot be opened gives
`Model()` (line 7), and so does a material file that cannot be opened
(line 96). -/
def LoadModel {F : Type} (env : Env F) (modelFile matDir texDir : Str) : Option (Model F) :=
  match env.files modelFile with
  | none => some ⟨[]⟩
  | some objFile =>
    match scanObj env matDir texDir objFile with
    | .aborted => some ⟨[]⟩
    | .undefined => none
    | .finished d =>
      buildModel d.VertexPositions d.TextureCoordinates d.Normals (env.order d.meshIndices)

/-! ## A concrete environment, for running the embedding -/

/-- A float reader for integer literals: an optional minus sign and decimal
digits, followed by whitespace or the end of the input, are read as that
integer (the library extraction reads the same characters there, with the
same value).  It stands for the library extraction on files whose numbers
are all written in this way, as in the sample inputs below; on any other
input it reports a failed conversion, where the library may read more. -/
def intReader : FloatReader Int where
  zero := 0
  get := fun r =>
    let neg := r.head? == some '-'
    let body := if neg then r.drop 1 else r
    let ds := body.takeWhile isdigit
    let after := body.dropWhile isdigit
    if ds.isEmpty then none
    else if (after.head?.map isspace).getD true then
      some (if neg then -(decimalVal ds : Int) else (decimalVal ds : Int),
            ds.length - 1 + (if neg then 1 else 0))
    else none

/-- An environment over the integer reader in which exactly the listed files
can be opened and meshes are iterated in insertion order. -/
def envOf (files : List (Str × List Char)) : Env Int where
  reader := intReader
  files := fun path => find path files
  order := fun l => l
  order_perm := fun l => List.Perm.refl l

/-! ## Sample inputs -/

/-- The path under which the sample geometry files are opened. -/
def samplePath : Str := String.toList "model.obj"

/-- The environment in which `samplePath` opens the given geometry file and
no other file exists. -/
def envWith (objFile : List Char) : Env Int := envOf [(samplePath, objFile)]

/-- A geometry file: four positions, one texture coordinate, one normal, one
`usemtl mat` and two triangles sharing an edge. -/
def quadObj : List Char := String.toList
  "v 0 0 0\nv 1 0 0\nv 1 1 0\nv 0 1 0\nvt 0 0\nvn 0 0 1\nusemtl mat\nf 1/1/1 2/1/1 3/1/1\nf 1/1/1 3/1/1 4/1/1\n"

/-- The two faces of `quadObj`. -/
def quadFaces : List TriangleIndex :=
  [⟨String.toList "1/1/1", String.toList "2/1/1", String.toList "3/1/1"⟩,
   ⟨String.toList "1/1/1", String.toList "3/1/1", String.toList "4/1/1"⟩]

/-- The vertex resolved from a position, a texture coordinate and a normal. -/
def vertexOf {F : Type} (p : vec3 F) (t : vec2 F) (n : vec3 F) : Vertex F :=
  ⟨p.x, p.y, p.z, t.x, t.y, n.x, n.y, n.z⟩

/-- The model that `LoadModel` returns for `quadObj`. -/
def quadModel : Model Int :=
  ⟨[⟨[⟨0, 0, 0, 0, 0, 0, 0, 1⟩, ⟨1, 0, 0, 0, 0, 0, 0, 1⟩, ⟨1, 1, 0, 0, 0, 0, 0, 1⟩,
      ⟨0, 1, 0, 0, 0, 0, 0, 1⟩], [0, 1, 2, 0, 2, 3]⟩]⟩

/-- A geometry file in which the material `a` is used by two blocks, with
a block of material `b` in between. -/
def dupObj : List Char := String.toList
  "v 0 0 0\nv 1 0 0\nvt 0 0\nvn 0 0 1\nusemtl a\nf 1/1/1 1/1/1 1/1/1\nusemtl b\nf 1/1/1 2/1/1 1/1/1\nusemtl a\nf 2/1/1 2/1/1 2/1/1\n"

/-- A geometry file whose `mtllib` directive names a file that does not
exist, followed by geometry. -/
def noMtlObj : List Char := String.toList
  "v 0 0 0\nmtllib missing.mtl\nvt 0 0\nvn 0 0 1\nusemtl a\nf 1/1/1 1/1/1 1/1/1\n"

/-- A geometry file that defines attributes and no material group. -/
def noGroupObj : List Char := String.toList "v 0 0 0\nvt 0 0\nvn 0 0 1\nf 1/1/1 1/1/1 1/1/1\n"

/-! ## Inputs for the counter `vertexNum` and for deduplication -/

/-- The character of a decimal digit. -/
def digitChar (d : Nat) : Char := Char.ofNat (48 + d)

/-- The index string `1/1/1/` followed by the decimal digits of `k`, least
significant first: a fourth part that makes the strings differ. -/
def wrapKey (k : Nat) : Str := String.toList "1/1/1/" ++ (Nat.digits 10 k).map digitChar

/-- The triangle number `k` of `wrapFaces`. -/
def wrapTriangle (k : Nat) : TriangleIndex :=
  ⟨wrapKey (3 * k), wrapKey (3 * k + 1), wrapKey (3 * k + 2)⟩

/-- A face list with `1431655766` triangles whose `4294967298` index strings are all
different. -/
def wrapFaces : List TriangleIndex := (List.range 1431655766).map wrapTriangle


/-- Groups for two materials in which the string `1/1/1` occurs in both, and
`01/1/1` names the same attributes by another string. -/
def dedupGroups : List (Str × List TriangleIndex) :=
  [(['a'], [⟨String.toList "1/1/1", String.toList "2/1/1", String.toList "01/1/1"⟩]),
   (['b'], [⟨String.toList "2/1/1", String.toList "1/1/1", String.toList "1/1/1"⟩])]

/-- The model built from `dedupGroups` over two positions. -/
def dedupModel : Model Int :=
  ⟨[⟨[⟨0, 0, 0, 0, 0, 0, 0, 1⟩, ⟨1, 0, 0, 0, 0, 0, 0, 1⟩, ⟨0, 0, 0, 0, 0, 0, 0, 1⟩], [0, 1, 2]⟩,
    ⟨[⟨0, 0, 0, 0, 0, 0, 0, 1⟩, ⟨1, 0, 0, 0, 0, 0, 0, 1⟩, ⟨0, 0, 0, 0, 0, 0, 0, 1⟩], [1, 0, 0]⟩]⟩

/-! ## Inputs with indices outside the attribute sequences -/

/-- A geometry file with one position whose face refers to position `2`. -/
def badIndexObj : List Char := String.toList
  "v 0 0 0\nvt 0 0\nvn 0 0 1\nusemtl a\nf 1/1/1 2/1/1 1/1/1\n"

/-- As many positions as an `unsigned int` has values. -/
def manyPositions : List (vec3 Int) := List.replicate 4294967296 ⟨7, 7, 7⟩

/-- One triangle whose corners all carry the index string `0/1/1`. -/
def zeroGroups : List (Str × List TriangleIndex) :=
  [(['m'], [⟨String.toList "0/1/1", String.toList "0/1/1", String.toList "0/1/1"⟩])]

/-- A geometry file whose face has two index strings with a fourth part. -/
def fourPartObj : List Char := String.toList
  "v 0 0 0\nvt 0 0\nvn 0 0 1\nusemtl a\nf 1/1/1/7 1/1/1 1/1/1/7\n"

/-! ## Inputs for the dispatch on the leading token -/

/-- A mesh block followed by a comment line that holds a face record. -/
def commentInBlockObj : List Char := String.toList "usemtl m\n# f 1/1/1 1/1/1 1/1/1\n"

/-- The file `commentInBlockObj` without its comment line. -/
def commentInBlockDeleted : List Char := String.toList "usemtl m\n"

/-- A comment line of more than 256 characters that ends in a position
record. -/
def longCommentObj : List Char :=
  '#' :: ' ' :: (List.replicate 300 'x' ++ String.toList " v 1 2 3\n")

/-- A file-open failure of `LoadModel`: the geometry file cannot be opened,
or the main loop arrives, outside a mesh, at a token that contains `mtllib`
and the material file it names (`matDir` followed by the next token) cannot
be opened. -/
def OpenFailure {F : Type} (env : Env F) (modelFile matDir texDir : Str) : Prop :=
  env.files modelFile = none ∨
  ∃ objFile k r d input r1,
    env.files modelFile = some objFile ∧
    runSteps env matDir texDir k false objFile ObjData.empty = some (false, r, d) ∧
    readToken r = some (input, r1) ∧ contains input kwMtllib = true ∧
    env.files (matDir ++ (readInto [] r1).1) = none

/-- A geometry file that opens, is scanned to its end and defines no
material group. -/
def DefinesNoGroup {F : Type} (env : Env F) (modelFile matDir texDir : Str) : Prop :=
  ∃ objFile d, env.files modelFile = some objFile ∧
    scanObj env matDir texDir objFile = .finished d ∧ d.meshIndices = []


/-- The index strings of the retained faces, in the order in which the
conversion phase visits them: mesh by mesh, triangle by triangle, corner by
corner. -/
def refsOf (groups : List (Str × List TriangleIndex)) : List Str :=
  groups.flatMap (fun g => g.2.flatMap TriangleIndex.indices)

/-- The index sequences of all meshes of a model, one after the other. -/
def slotsOf {F : Type} (m : Model F) : List Nat :=
  m.meshes.flatMap (fun mesh => mesh.m_Indices)

/-- Every index of every mesh lies below the length of the vertex buffer of
that mesh. -/
def IndicesInRange {F : Type} (m : Model F) : Prop :=
  ∀ mesh ∈ m.meshes, ∀ i ∈ mesh.m_Indices, i < mesh.m_Vertices.length

/-- An index string whose three attributes are read and lie within the
attribute sequences, counted from one. -/
def inRangeRef {F : Type} (P : List (vec3 F)) (T : List (vec2 F)) (N : List (vec3 F))
    (s : Str) : Bool :=
  match vertexAttributes s with
  | none => false
  | some (p, t, n) =>
    decide (1 ≤ p ∧ p ≤ P.length) && decide (1 ≤ t ∧ t ≤ T.length) &&
      decide (1 ≤ n ∧ n ≤ N.length)

/-- What holds of the locals of the conversion phase between two index
strings: the keys of `indices` are distinct, the entry inserted as number `j`
carries the counter value `j % 2 ^ 32`, `vertices` has one vertex per entry,
which is the one its key resolves to, and `vertexNum` is the number of
entries modulo `2 ^ 32`. -/
structure ConvInv {F : Type} (P : List (vec3 F)) (T : List (vec2 F)) (N : List (vec3 F))
    (st : ConvState F) : Prop where
  keys_nodup : (st.indices.map Prod.fst).Nodup
  vals : st.indices.map Prod.snd = (List.range st.indices.length).map (fun j => j % UINT)
  len : st.vertices.length = st.indices.length
  num : st.vertexNum = st.indices.length % UINT
  resolved : st.indices.map (fun e => makeVertex P T N e.1) = st.vertices.map some

/-- A numeral: a non-empty string of decimal digits whose value fits an
`unsigned int`. -/
def IsNumeral (ds : Str) : Prop :=
  ds ≠ [] ∧ (∀ c ∈ ds, isdigit c = true) ∧ decimalVal ds < UINT

/-- A string of whitespace. -/
def isBlank (ws : List Char) : Bool := ws.all isspace

/-- A token: a non-empty string without whitespace. -/
def isToken (tok : Str) : Bool := !tok.isEmpty && tok.all (fun c => !isspace c)

/-- A remainder of a stream at which a token ends: the end of the input or a
whitespace character. -/
def endsToken : List Char → Bool
  | [] => true
  | c :: _ => isspace c

/-- A material file with one material and its texture. -/
def sampleMtl : List Char := String.toList "# materials\nnewmtl mat\nKd 1 1 1\nmap_Kd tex.png\n"

/-- The strings of `l` that are not in `seen`, appended to `seen` in the
order of their first occurrence. -/
def distinctFrom : List Str → List Str → List Str
  | seen, [] => seen
  | seen, s :: l => if s ∈ seen then distinctFrom seen l else distinctFrom (seen ++ [s]) l

/-- The distinct strings of a list, in first-encounter order. -/
def distinctStrings (l : List Str) : List Str := distinctFrom [] l

/-- The rank of a string in a list: the position of its first occurrence
(the length of the list when it does not occur). -/
def rankOf : List Str → Str → Nat
  | [], _ => 0
  | k :: keys, s => if k = s then 0 else rankOf keys s + 1

/-- The value that the conversion phase writes for a string, given the
distinct strings in first-encounter order: the rank of the string, in
`unsigned int` arithmetic. -/
def slotOfString (keys : List Str) (s : Str) : Nat := rankOf keys s % UINT

/-- The vertex found at `vertexBuffer[indices[k]]` in the mesh number `g` of
a model. -/
def resolvedAt {F : Type} (m : Model F) (g k : Nat) : Option (Vertex F) :=
  (m.meshes[g]?).bind (fun mesh => (mesh.m_Indices[k]?).bind (fun i => mesh.m_Vertices[i]?))

/-- In a sequence of indices, every first occurrence of a value equals the
number of distinct values before it. -/
def FirstOccurrencesCount (O : List Nat) : Prop :=
  ∀ i (h : i < O.length), O[i] ∉ O.take i → O[i] = (O.take i).dedup.length

/-- The values written so far are the counter values of the `n` entries made
so far. -/
def SeenValues (n : Nat) (O : List Nat) : Prop :=
  ∀ v, v ∈ O ↔ ∃ j, j < n ∧ v = j % UINT

/-- The face whose three corners carry the index string `2/1/1`. -/
def secondFace : TriangleIndex :=
  ⟨String.toList "2/1/1", String.toList "2/1/1", String.toList "2/1/1"⟩

/-- Two positions. -/
def twoPositions : List (vec3 Int) := [⟨0, 0, 0⟩, ⟨1, 0, 0⟩]

/-- The group of `wrapFaces` followed by a group with the face `secondFace`. -/
def wrapFirstGroups : List (Str × List TriangleIndex) :=
  [(['a'], wrapFaces), (['b'], [secondFace])]

/-- The groups of `wrapFirstGroups` in the other order. -/
def wrapLastGroups : List (Str × List TriangleIndex) :=
  [(['b'], [secondFace]), (['a'], wrapFaces)]

/-- The groups of `dedupGroups` in the other order. -/
def dedupGroupsSwapped : List (Str × List TriangleIndex) :=
  [(['b'], [⟨String.toList "2/1/1", String.toList "1/1/1", String.toList "1/1/1"⟩]),
   (['a'], [⟨String.toList "1/1/1", String.toList "2/1/1", String.toList "01/1/1"⟩])]

/-- The model built from `dedupGroupsSwapped` over two positions. -/
def dedupModelSwapped : Model Int :=
  ⟨[⟨[⟨1, 0, 0, 0, 0, 0, 0, 1⟩, ⟨0, 0, 0, 0, 0, 0, 0, 1⟩, ⟨0, 0, 0, 0, 0, 0, 0, 1⟩], [0, 1, 1]⟩,
    ⟨[⟨1, 0, 0, 0, 0, 0, 0, 1⟩, ⟨0, 0, 0, 0, 0, 0, 0, 1⟩, ⟨0, 0, 0, 0, 0, 0, 0, 1⟩], [1, 0, 2]⟩]⟩

/-- The name under which one pass of the main loop inserts a mesh: the token
read by the loop condition when `newMesh` is set (line 62), or the token
extracted after a token that contains `usemtl` (line 127).  The other
branches insert no mesh. -/
def stepName (newMesh : Bool) (r : List Char) : Option Str :=
  match readToken r with
  | none => none
  | some (input, r1) =>
    if newMesh then some input
    else if isSkipTag input then none
    else if contains input kwMtllib then none
    else if contains input kwUsemtl then some (readInto [] r1).1
    else none

/-- The names under which the passes of the main loop insert meshes, in the
order of the passes. -/
def namesRead {F : Type} (env : Env F) (matDir texDir : Str) :
    Nat → Bool → List Char → ObjData F → List Str
  | 0, _, _, _ => []
  | fuel + 1, newMesh, r, d =>
    match scanStep env matDir texDir newMesh r d with
    | .stop _ => []
    | .next newMesh1 r1 d1 =>
      (stepName newMesh r).toList ++ namesRead env matDir texDir fuel newMesh1 r1 d1

/-- The material names that the scan of a geometry file reads for a new
mesh, in the order in which it reads them. -/
def introducedNames {F : Type} (env : Env F) (matDir texDir : Str) (objFile : List Char) :
    List Str :=
  namesRead env matDir texDir (objFile.length + 1) false objFile ObjData.empty

/-- The containers of the scan with the map `materials` emptied: what the
conversion phase reads. -/
def ObjData.geometry {F : Type} (d : ObjData F) : ObjData F := { d with materials := [] }

/-- The end of a scan with the map `materials` emptied. -/
def ScanResult.geometry {F : Type} : ScanResult F → ScanResult F
  | .finished d => .finished d.geometry
  | .aborted => .aborted
  | .undefined => .undefined

/-- The outcome of one pass with the map `materials` emptied. -/
def Step.geometry {F : Type} : Step F → Step F
  | .next newMesh r d => .next newMesh r d.geometry
  | .stop res => .stop res.geometry

/-- A material file with two materials. -/
def otherMtl : List Char := String.toList "newmtl mat\nmap_Kd a.png\nnewmtl two\nmap_Kd b.png\n"

/-- A geometry file with a `mtllib` directive and one triangle. -/
def libObj : List Char := String.toList
  "mtllib m.mtl\nv 0 0 0\nvt 0 0\nvn 0 0 1\nusemtl mat\nf 1/1/1 1/1/1 1/1/1\n"

/-- A geometry file with a position record and a `mtllib` directive, naming a
file that does not exist, after the first `usemtl`. -/
def lateRecordsObj : List Char := String.toList
  "v 0 0 0\nvt 0 0\nvn 0 0 1\nusemtl a\nv 9 9 9\nmtllib missing.mtl\nf 1/1/1 1/1/1 1/1/1\n"

/-- The containers of the scan of `lateRecordsObj` when the loop stands
before the token `usemtl`. -/
def lateRecordsData : ObjData Int := ⟨[⟨0, 0, 0⟩], [⟨0, 0, 1⟩], [⟨0, 0⟩], [], []⟩

/-- An index string as the face records of a geometry file write it: digits,
slashes and minus signs, at least one character. -/
def isIndexString (tok : Str) : Bool :=
  !tok.isEmpty && tok.all (fun c => isdigit c || c == '/' || c == '-')

/-- The tokens of a stream, as successive extractions `stream >> str` yield
them, bounded by a number of extractions. -/
def tokensAux : Nat → List Char → List Str
  | 0, _ => []
  | fuel + 1, r =>
    match readToken r with
    | none => []
    | some (t, r1) => t :: tokensAux fuel r1

/-- The tokens of a file: its maximal pieces without whitespace. -/
def tokensOf (r : List Char) : List Str := tokensAux (r.length + 1) r

/-- A material file in which `newmtl B` follows `newmtl A` before any
`map_Kd`. -/
def crossMtl : List Char := String.toList "newmtl A\nnewmtl B\nmap_Kd f.png\n"

/-- A material file in which the name `A` gets two textures. -/
def twiceMtl : List Char := String.toList "newmtl A\nmap_Kd one.png\nnewmtl A\nmap_Kd two.png\n"

/-! ## Streams and the scans: lemmas -/

section Streams

theorem dropWhile_length_le (p : Char → Bool) (r : List Char) :
    (r.dropWhile p).length ≤ r.length := by
  induction r with
  | nil => simp
  | cons c r ih =>
    simp only [List.dropWhile_cons]
    split
    · exact Nat.le_succ_of_le ih
    · exact Nat.le_refl _

theorem dropWhile_head_false (p : Char → Bool) (r : List Char) (c : Char) (cs : List Char)
    (h : r.dropWhile p = c :: cs) : p c = false := by
  induction r with
  | nil => simp at h
  | cons a r ih =>
    simp only [List.dropWhile_cons] at h
    split at h
    · exact ih h
    · rename_i hp
      simp only [List.cons.injEq] at h
      rw [← h.1]
      simpa using hp

theorem readToken_lt (r r1 : List Char) (t : Str) (h : readToken r = some (t, r1)) :
    r1.length < r.length := by
  unfold readToken at h
  split at h
  · cases h
  · rename_i c cs hd
    simp only [Option.some.injEq, Prod.mk.injEq] at h
    have hc := dropWhile_head_false isspace r c cs hd
    have h1 : (c :: cs).dropWhile (fun a => !isspace a) = cs.dropWhile (fun a => !isspace a) := by
      simp [List.dropWhile_cons, hc]
    have h2 := dropWhile_length_le (fun a => !isspace a) cs
    have h3 := dropWhile_length_le isspace r
    rw [hd] at h3
    rw [← h.2, h1]
    simp only [List.length_cons] at h3
    omega

theorem readInto_le (old : Str) (r : List Char) : (readInto old r).2.length ≤ r.length := by
  unfold readInto
  cases h : readToken r with
  | none => simp
  | some p =>
    obtain ⟨t, r1⟩ := p
    exact Nat.le_of_lt (readToken_lt r r1 t h)

theorem ignoreN_le (n : Nat) (r : List Char) : (ignoreN n r).length ≤ r.length := by
  induction r generalizing n with
  | nil => cases n <;> simp [ignoreN]
  | cons c r ih =>
    cases n with
    | zero => simp [ignoreN]
    | succ n =>
      simp only [ignoreN]
      split
      · simp
      · exact Nat.le_succ_of_le (ih n)

theorem ignoreLine_le (r : List Char) : (ignoreLine r).length ≤ r.length :=
  ignoreN_le 256 r

theorem readFloat_le {F : Type} (rd : FloatReader F) (r : List Char) :
    (readFloat rd r).2.length ≤ r.length := by
  unfold readFloat
  split
  · simp
  · rename_i c cs hd
    have h3 := dropWhile_length_le isspace r
    rw [hd] at h3
    split
    · simp only [List.length_drop]
      omega
    · simp

theorem faceLoopAux_le (fuel : Nat) (r : List Char) (tris : List TriangleIndex) :
    (faceLoopAux fuel r tris).2.2.length ≤ r.length := by
  induction fuel generalizing r tris with
  | zero => simp [faceLoopAux]
  | succ fuel ih =>
    unfold faceLoopAux
    cases h : readToken r with
    | none => simp
    | some p =>
      obtain ⟨input, r1⟩ := p
      have h1 := readToken_lt r r1 input h
      simp only []
      split
      · exact Nat.le_of_lt h1
      · split
        · have a1 := readInto_le [] r1
          have a2 := readInto_le [] (readInto [] r1).2
          have a3 := readInto_le [] (readInto [] (readInto [] r1).2).2
          refine le_trans (ih _ _) ?_
          omega
        · exact le_trans (ih _ _) (Nat.le_of_lt h1)

theorem faceLoop_le (r : List Char) : (faceLoop r).2.2.length ≤ r.length :=
  faceLoopAux_le _ r []

theorem scanStep_lt {F : Type} (env : Env F) (matDir texDir : Str) (nm nm1 : Bool)
    (r r1 : List Char) (d d1 : ObjData F)
    (h : scanStep env matDir texDir nm r d = .next nm1 r1 d1) : r1.length < r.length := by
  unfold scanStep at h
  cases ht : readToken r with
  | none => simp [ht] at h
  | some p =>
    obtain ⟨input, r2⟩ := p
    have h1 := readToken_lt r r2 input ht
    simp only [ht] at h
    have f1 := faceLoop_le r2
    have f2 := faceLoop_le (readInto [] r2).2
    have i1 := readInto_le [] r2
    have g1 := ignoreLine_le r2
    have x1 := readFloat_le env.reader r2
    have x2 := readFloat_le env.reader (readFloat env.reader r2).2
    have x3 := readFloat_le env.reader (readFloat env.reader (readFloat env.reader r2).2).2
    repeat' split at h
    all_goals first
      | (simp only [Step.next.injEq] at h
         obtain ⟨_, rfl, _⟩ := h
         first
           | omega
           | exact lt_of_le_of_lt f1 h1
           | exact lt_of_le_of_lt (le_trans f2 i1) h1)
      | cases h

theorem scanObjAux_fuel {F : Type} (env : Env F) (matDir texDir : Str) (fuel fuel2 : Nat)
    (nm : Bool) (r : List Char) (d : ObjData F) (h1 : r.length < fuel) (h2 : r.length < fuel2) :
    scanObjAux env matDir texDir fuel nm r d = scanObjAux env matDir texDir fuel2 nm r d := by
  induction fuel generalizing fuel2 nm r d with
  | zero => omega
  | succ fuel ih =>
    cases fuel2 with
    | zero => omega
    | succ fuel2 =>
      simp only [scanObjAux]
      cases hs : scanStep env matDir texDir nm r d with
      | stop res => rfl
      | next nm1 r1 d1 =>
        have := scanStep_lt env matDir texDir nm nm1 r r1 d d1 hs
        exact ih fuel2 nm1 r1 d1 (by omega) (by omega)

theorem scanFrom_eq {F : Type} (env : Env F) (matDir texDir : Str)
    (nm : Bool) (r : List Char) (d : ObjData F) :
    scanFrom env matDir texDir nm r d =
      match scanStep env matDir texDir nm r d with
      | .stop res => res
      | .next nm1 r1 d1 => scanFrom env matDir texDir nm1 r1 d1 := by
  unfold scanFrom
  simp only [scanObjAux]
  cases hs : scanStep env matDir texDir nm r d with
  | stop res => rfl
  | next nm1 r1 d1 =>
    have := scanStep_lt env matDir texDir nm nm1 r r1 d d1 hs
    exact scanObjAux_fuel env matDir texDir r.length (r1.length + 1) nm1 r1 d1
      (by omega) (by omega)

theorem runSteps_scanFrom {F : Type} (env : Env F) (matDir texDir : Str) (k : Nat)
    (nm nm1 : Bool) (r r1 : List Char) (d d1 : ObjData F)
    (h : runSteps env matDir texDir k nm r d = some (nm1, r1, d1)) :
    scanFrom env matDir texDir nm r d = scanFrom env matDir texDir nm1 r1 d1 := by
  induction k generalizing nm r d with
  | zero =>
    simp only [runSteps, Option.some.injEq, Prod.mk.injEq] at h
    obtain ⟨rfl, rfl, rfl⟩ := h
    rfl
  | succ k ih =>
    simp only [runSteps] at h
    rw [scanFrom_eq]
    cases hs : scanStep env matDir texDir nm r d with
    | stop res => simp [hs] at h
    | next nm2 r2 d2 =>
      simp only [hs] at h
      exact ih nm2 r2 d2 h

end Streams

/-! ## The conversion phase: lemmas -/

section Conversion

variable {F : Type} (P : List (vec3 F)) (T : List (vec2 F)) (N : List (vec3 F))

theorem find_append {V : Type} (key : Str) (m m2 : List (Str × V)) :
    find key (m ++ m2) = (find key m).orElse (fun _ => find key m2) := by
  induction m with
  | nil => simp [find]
  | cons e m ih =>
    obtain ⟨k, v⟩ := e
    by_cases h : k = key <;> simp [find, h, ih]

theorem find_some_mem {V : Type} (key : Str) (m : List (Str × V)) (v : V)
    (h : find key m = some v) : (key, v) ∈ m := by
  induction m with
  | nil => simp [find] at h
  | cons e m ih =>
    obtain ⟨k, w⟩ := e
    by_cases hk : k = key
    · simp [find, hk] at h
      simp [hk, h]
    · simp [find, hk] at h
      exact List.mem_cons_of_mem _ (ih h)

theorem find_none_iff {V : Type} (key : Str) (m : List (Str × V)) :
    find key m = none ↔ key ∉ m.map Prod.fst := by
  induction m with
  | nil => simp [find]
  | cons e m ih =>
    obtain ⟨k, w⟩ := e
    by_cases hk : k = key
    · subst hk
      simp only [find, if_true, List.map_cons, List.mem_cons, true_or, not_true_eq_false,
        iff_false]
      exact fun h => by cases h
    · simp only [find, hk, if_false, ih, List.map_cons, List.mem_cons, not_or]
      constructor
      · intro h
        exact ⟨fun h2 => hk h2.symm, h⟩
      · intro h
        exact h.2

theorem convertIndices_acc (st : ConvState F) (conv : List Nat) (l : List Str) :
    convertIndices P T N st conv l
      = (convertIndices P T N st [] l).map (fun p => (p.1, conv ++ p.2)) := by
  induction l generalizing st conv with
  | nil => simp [convertIndices]
  | cons s l ih =>
    simp only [convertIndices]
    cases h : convertIndex P T N st s with
    | none => simp
    | some p =>
      obtain ⟨st1, k⟩ := p
      simp only []
      rw [ih st1 (conv ++ [k]), ih st1 ([] ++ [k])]
      cases convertIndices P T N st1 [] l <;> simp

theorem convertIndices_append (st : ConvState F) (conv : List Nat) (l l2 : List Str) :
    convertIndices P T N st conv (l ++ l2)
      = (convertIndices P T N st conv l).bind (fun p => convertIndices P T N p.1 p.2 l2) := by
  induction l generalizing st conv with
  | nil => simp [convertIndices]
  | cons s l ih =>
    simp only [convertIndices, List.cons_append]
    cases h : convertIndex P T N st s with
    | none => simp
    | some p =>
      obtain ⟨st1, k⟩ := p
      simp only []
      exact ih st1 (conv ++ [k])

theorem convertTriangles_eq (st : ConvState F) (conv : List Nat) (tris : List TriangleIndex) :
    convertTriangles P T N st conv tris
      = convertIndices P T N st conv (tris.flatMap TriangleIndex.indices) := by
  induction tris generalizing st conv with
  | nil => simp [convertTriangles, convertIndices]
  | cons t tris ih =>
    simp only [convertTriangles, List.flatMap_cons, convertIndices_append]
    cases h : convertIndices P T N st conv t.indices with
    | none => simp
    | some p =>
      obtain ⟨st1, c1⟩ := p
      simp only [Option.some_bind]
      exact ih st1 c1

theorem convertMeshes_eq (st : ConvState F) (meshes : List (List Nat))
    (groups : List (Str × List TriangleIndex)) :
    (convertMeshes P T N st meshes groups).map (fun p => (p.1, p.2.flatten))
      = (convertIndices P T N st [] (refsOf groups)).map
          (fun p => (p.1, meshes.flatten ++ p.2)) := by
  induction groups generalizing st meshes with
  | nil => simp [convertMeshes, convertIndices, refsOf]
  | cons g groups ih =>
    simp only [convertMeshes, refsOf, List.flatMap_cons, convertIndices_append,
      convertTriangles_eq]
    cases h : convertIndices P T N st [] (g.2.flatMap TriangleIndex.indices) with
    | none => simp
    | some p =>
      obtain ⟨st1, c1⟩ := p
      simp only [Option.some_bind]
      have := ih st1 (meshes ++ [c1])
      simp only [refsOf] at this
      rw [this, convertIndices_acc P T N st1 c1]
      cases convertIndices P T N st1 [] (groups.flatMap fun g => g.2.flatMap TriangleIndex.indices)
        <;> simp

theorem convInv_init : ConvInv P T N (⟨[], [], 0⟩ : ConvState F) :=
  ⟨by simp, by simp, by simp, by simp, by simp⟩

theorem convertIndex_spec (st st1 : ConvState F) (s : Str) (k : Nat)
    (h : convertIndex P T N st s = some (st1, k)) (inv : ConvInv P T N st) :
    ConvInv P T N st1 ∧ find s st1.indices = some k ∧
      ∃ ext, st1.indices = st.indices ++ ext ∧ ∀ e ∈ ext, e.1 = s := by
  unfold convertIndex at h
  cases hf : find s st.indices with
  | some k0 =>
    simp only [hf, Option.some.injEq, Prod.mk.injEq] at h
    obtain ⟨rfl, rfl⟩ := h
    exact ⟨inv, hf, [], by simp, by simp⟩
  | none =>
    simp only [hf] at h
    cases hv : makeVertex P T N s with
    | none => simp [hv] at h
    | some v =>
      simp only [hv, Option.some.injEq, Prod.mk.injEq] at h
      obtain ⟨rfl, rfl⟩ := h
      refine ⟨⟨?_, ?_, ?_, ?_, ?_⟩, ?_, [(s, st.vertexNum)], rfl, by simp⟩
      · have hs := (find_none_iff s st.indices).1 hf
        simp only [List.map_append, List.map_cons, List.map_nil]
        refine List.Nodup.append inv.keys_nodup (List.nodup_singleton s) ?_
        intro a ha hb
        rw [List.mem_singleton] at hb
        subst hb
        exact hs ha
      · simp only [List.map_append, List.map_cons, List.map_nil, List.length_append,
          List.length_singleton, List.range_succ, inv.vals, inv.num]
      · simp [inv.len]
      · simp only [List.length_append, List.length_singleton, inv.num]
        exact Nat.mod_add_mod _ _ _
      · simp [inv.resolved, hv]
      · simp [find_append, hf, find]

theorem convertIndices_cons (st : ConvState F) (s : Str) (l : List Str) :
    convertIndices P T N st [] (s :: l)
      = (convertIndex P T N st s).bind (fun p =>
          (convertIndices P T N p.1 [] l).map (fun q => (q.1, p.2 :: q.2))) := by
  simp only [convertIndices]
  cases h : convertIndex P T N st s with
  | none => simp
  | some p =>
    obtain ⟨st1, k⟩ := p
    simp only [Option.some_bind, List.nil_append]
    rw [convertIndices_acc]
    cases convertIndices P T N st1 [] l <;> simp

theorem convertIndices_spec (st st1 : ConvState F) (refs : List Str) (outs : List Nat)
    (h : convertIndices P T N st [] refs = some (st1, outs)) (inv : ConvInv P T N st) :
    ConvInv P T N st1 ∧ (∃ ext, st1.indices = st.indices ++ ext ∧ ∀ e ∈ ext, e.1 ∈ refs) ∧
      refs.map (fun s => find s st1.indices) = outs.map some := by
  induction refs generalizing st outs with
  | nil =>
    simp only [convertIndices, Option.some.injEq, Prod.mk.injEq] at h
    obtain ⟨rfl, rfl⟩ := h
    exact ⟨inv, ⟨[], by simp, by simp⟩, by simp⟩
  | cons s l ih =>
    rw [convertIndices_cons] at h
    cases hc : convertIndex P T N st s with
    | none => simp [hc] at h
    | some p =>
      obtain ⟨st2, k⟩ := p
      simp only [hc, Option.some_bind] at h
      cases hl : convertIndices P T N st2 [] l with
      | none => simp [hl] at h
      | some q =>
        obtain ⟨st3, outs2⟩ := q
        simp only [hl, Option.map_some', Option.some.injEq, Prod.mk.injEq] at h
        obtain ⟨rfl, rfl⟩ := h
        obtain ⟨inv2, hk, ext, hext, hmem⟩ := convertIndex_spec P T N st st2 s k hc inv
        obtain ⟨inv3, ⟨ext2, hext2, hmem2⟩, hmap⟩ := ih st2 outs2 hl inv2
        refine ⟨inv3, ⟨ext ++ ext2, ?_, ?_⟩, ?_⟩
        · rw [hext2, hext, List.append_assoc]
        · intro e he
          rcases List.mem_append.1 he with he | he
          · rw [hmem e he]
            exact List.mem_cons_self _ _
          · exact List.mem_cons_of_mem _ (hmem2 e he)
        · simp only [List.map_cons, hmap, List.cons.injEq, and_true]
          rw [hext2, find_append, hk]
          rfl

theorem convertIndices_complete (st : ConvState F) (conv : List Nat) (refs : List Str)
    (h : ∀ s ∈ refs, (makeVertex P T N s).isSome = true) :
    (convertIndices P T N st conv refs).isSome = true := by
  induction refs generalizing st conv with
  | nil => simp [convertIndices]
  | cons s l ih =>
    have hs := h s (List.mem_cons_self _ _)
    obtain ⟨v, hv⟩ := Option.isSome_iff_exists.1 hs
    simp only [convertIndices, convertIndex]
    cases hf : find s st.indices with
    | some k => exact ih _ _ (fun s hs => h s (List.mem_cons_of_mem _ hs))
    | none =>
      simp only [hv]
      exact ih _ _ (fun s hs => h s (List.mem_cons_of_mem _ hs))

theorem convInv_key_resolved (st : ConvState F) (inv : ConvInv P T N st) (s : Str)
    (hs : s ∈ st.indices.map Prod.fst) : (makeVertex P T N s).isSome = true := by
  obtain ⟨e, he, rfl⟩ := List.mem_map.1 hs
  have h1 : makeVertex P T N e.1 ∈ st.indices.map (fun e => makeVertex P T N e.1) :=
    List.mem_map.2 ⟨e, he, rfl⟩
  rw [inv.resolved] at h1
  obtain ⟨v, _, hv⟩ := List.mem_map.1 h1
  rw [← hv]
  rfl

theorem convertIndices_fails (st : ConvState F) (conv : List Nat) (refs : List Str)
    (inv : ConvInv P T N st) (s : Str) (hs : s ∈ refs) (hv : makeVertex P T N s = none) :
    convertIndices P T N st conv refs = none := by
  induction refs generalizing st conv with
  | nil => cases hs
  | cons a l ih =>
    simp only [convertIndices]
    cases hc : convertIndex P T N st a with
    | none => rfl
    | some p =>
      obtain ⟨st2, k⟩ := p
      simp only []
      obtain ⟨inv2, hk, _⟩ := convertIndex_spec P T N st st2 a k hc inv
      rcases List.mem_cons.1 hs with rfl | hs
      · exfalso
        have hmem : s ∈ st2.indices.map Prod.fst :=
          List.mem_map.2 ⟨(s, k), find_some_mem s _ k hk, rfl⟩
        have := convInv_key_resolved P T N st2 inv2 s hmem
        rw [hv] at this
        cases this
      · exact ih st2 _ inv2 hs

theorem slot_position (st : ConvState F) (inv : ConvInv P T N st) (s : Str) (i : Nat)
    (h : find s st.indices = some i) :
    ∃ a, a < st.indices.length ∧ st.indices[a]? = some (s, i) ∧ i = a % UINT := by
  obtain ⟨a, ha, hget⟩ := List.mem_iff_getElem.1 (find_some_mem s _ i h)
  refine ⟨a, ha, ?_, ?_⟩
  · rw [List.getElem?_eq_getElem ha, hget]
  · have h1 : (st.indices.map Prod.snd)[a]? = some i := by
      rw [List.getElem?_map, List.getElem?_eq_getElem ha, hget]
      rfl
    rw [inv.vals, List.getElem?_map, List.getElem?_range ha] at h1
    simpa using h1.symm

theorem slot_lt (st : ConvState F) (inv : ConvInv P T N st) (s : Str) (i : Nat)
    (h : find s st.indices = some i) : i < st.vertices.length := by
  obtain ⟨a, ha, _, rfl⟩ := slot_position P T N st inv s i h
  rw [inv.len]
  exact lt_of_le_of_lt (Nat.mod_le _ _) ha

theorem slot_inj (st : ConvState F) (inv : ConvInv P T N st) (hlen : st.indices.length ≤ UINT)
    (s s2 : Str) (i : Nat) (h : find s st.indices = some i) (h2 : find s2 st.indices = some i) :
    s = s2 := by
  obtain ⟨a, ha, hget, hi⟩ := slot_position P T N st inv s i h
  obtain ⟨b, hb, hget2, hi2⟩ := slot_position P T N st inv s2 i h2
  rw [Nat.mod_eq_of_lt (lt_of_lt_of_le ha hlen)] at hi
  rw [Nat.mod_eq_of_lt (lt_of_lt_of_le hb hlen)] at hi2
  subst hi
  subst hi2
  rw [hget] at hget2
  simpa using hget2

theorem slotsOf_mk (vs : List (Vertex F)) (meshes : List (List Nat)) :
    slotsOf (⟨meshes.map (fun idx => ⟨vs, idx⟩)⟩ : Model F) = meshes.flatten := by
  induction meshes with
  | nil => rfl
  | cons a l ih =>
    simp only [slotsOf, List.map_cons, List.flatMap_cons, List.flatten_cons] at ih ⊢
    rw [ih]

theorem convertMeshes_length (st st1 : ConvState F) (acc out : List (List Nat))
    (groups : List (Str × List TriangleIndex))
    (h : convertMeshes P T N st acc groups = some (st1, out)) :
    out.length = acc.length + groups.length := by
  induction groups generalizing st acc with
  | nil =>
    simp only [convertMeshes, Option.some.injEq, Prod.mk.injEq] at h
    simp [← h.2]
  | cons g groups ih =>
    simp only [convertMeshes] at h
    cases hc : convertTriangles P T N st [] g.2 with
    | none => simp [hc] at h
    | some p =>
      obtain ⟨st2, c⟩ := p
      simp only [hc] at h
      rw [ih st2 _ h]
      simp only [List.length_append, List.length_cons, List.length_nil]
      omega

theorem buildModel_spec (groups : List (Str × List TriangleIndex)) (m : Model F)
    (h : buildModel P T N groups = some m) :
    ∃ st : ConvState F, ConvInv P T N st ∧
      (∀ e ∈ st.indices, e.1 ∈ refsOf groups) ∧
      (refsOf groups).map (fun s => find s st.indices) = (slotsOf m).map some ∧
      (∀ mesh ∈ m.meshes, mesh.m_Vertices = st.vertices) ∧
      m.meshes.length = groups.length := by
  unfold buildModel at h
  cases hc : convertMeshes P T N ⟨[], [], 0⟩ [] groups with
  | none => simp [hc] at h
  | some p =>
    obtain ⟨st, meshes⟩ := p
    simp only [hc, Option.some.injEq] at h
    subst h
    have heq := convertMeshes_eq P T N ⟨[], [], 0⟩ [] groups
    rw [hc] at heq
    cases hi : convertIndices P T N ⟨[], [], 0⟩ [] (refsOf groups) with
    | none => simp [hi] at heq
    | some q =>
      obtain ⟨st2, outs⟩ := q
      simp only [hi, Option.map_some', Option.some.injEq, Prod.mk.injEq, List.flatten_nil,
        List.nil_append] at heq
      obtain ⟨rfl, rfl⟩ := heq
      obtain ⟨inv, ⟨ext, hext, hmem⟩, hmap⟩ :=
        convertIndices_spec P T N _ _ _ _ hi (convInv_init P T N)
      refine ⟨st, inv, ?_, ?_, ?_, ?_⟩
      · intro e he
        rw [hext] at he
        exact hmem e (by simpa using he)
      · rw [slotsOf_mk]
        exact hmap
      · intro mesh hmesh
        obtain ⟨idx, _, rfl⟩ := List.mem_map.1 hmesh
        rfl
      · rw [List.length_map, convertMeshes_length P T N _ _ _ _ _ hc]
        simp

end Conversion

/-! ## The conversion phase: properties of the model built -/

section Built

variable {F : Type} (P : List (vec3 F)) (T : List (vec2 F)) (N : List (vec3 F))

theorem minusOne_lt (a len : Nat) (h1 : 1 ≤ a) (h2 : a ≤ len) : minusOne a < len := by
  unfold minusOne
  have h : a + (UINT - 1) = (a - 1) + UINT := by
    have : 1 ≤ UINT := by decide
    omega
  rw [h, Nat.add_mod_right]
  exact lt_of_le_of_lt (Nat.mod_le _ _) (by omega)

theorem makeVertex_of_inRange (s : Str) (h : inRangeRef P T N s = true) :
    (makeVertex P T N s).isSome = true := by
  unfold inRangeRef at h
  cases ha : vertexAttributes s with
  | none => simp [ha] at h
  | some q =>
  obtain ⟨p, t, n⟩ := q
  simp only [ha, Bool.and_eq_true, decide_eq_true_eq] at h
  obtain ⟨⟨⟨hp1, hp2⟩, ht1, ht2⟩, hn1, hn2⟩ := h
  unfold makeVertex
  simp only [ha]
  obtain ⟨vp, hvp⟩ : ∃ vp, P[minusOne p]? = some vp :=
    ⟨_, List.getElem?_eq_getElem (minusOne_lt p _ hp1 hp2)⟩
  obtain ⟨vt, hvt⟩ : ∃ vt, T[minusOne t]? = some vt :=
    ⟨_, List.getElem?_eq_getElem (minusOne_lt t _ ht1 ht2)⟩
  obtain ⟨vn, hvn⟩ : ∃ vn, N[minusOne n]? = some vn :=
    ⟨_, List.getElem?_eq_getElem (minusOne_lt n _ hn1 hn2)⟩
  simp [hvp, hvt, hvn]

theorem buildModel_complete (groups : List (Str × List TriangleIndex))
    (h : ∀ s ∈ refsOf groups, (makeVertex P T N s).isSome = true) :
    (buildModel P T N groups).isSome = true := by
  have h1 := convertIndices_complete P T N ⟨[], [], 0⟩ [] (refsOf groups) h
  have heq := convertMeshes_eq P T N ⟨[], [], 0⟩ [] groups
  unfold buildModel
  cases hc : convertMeshes P T N ⟨[], [], 0⟩ [] groups with
  | some p => rfl
  | none =>
    rw [hc] at heq
    cases hi : convertIndices P T N ⟨[], [], 0⟩ [] (refsOf groups) with
    | none => simp [hi] at h1
    | some q => simp [hi] at heq

theorem buildModel_fails (groups : List (Str × List TriangleIndex)) (s : Str)
    (hs : s ∈ refsOf groups) (hv : makeVertex P T N s = none) :
    buildModel P T N groups = none := by
  have h1 := convertIndices_fails P T N ⟨[], [], 0⟩ [] (refsOf groups)
    (convInv_init P T N) s hs hv
  have heq := convertMeshes_eq P T N ⟨[], [], 0⟩ [] groups
  unfold buildModel
  cases hc : convertMeshes P T N ⟨[], [], 0⟩ [] groups with
  | none => rfl
  | some p => simp [hc, h1] at heq

theorem mem_slotsOf (m : Model F) (mesh : Mesh F) (hm : mesh ∈ m.meshes) (i : Nat)
    (hi : i ∈ mesh.m_Indices) : i ∈ slotsOf m :=
  List.mem_flatMap.2 ⟨mesh, hm, hi⟩

theorem buildModel_inRange (groups : List (Str × List TriangleIndex)) (m : Model F)
    (h : buildModel P T N groups = some m) : IndicesInRange m := by
  obtain ⟨st, inv, _, hmap, hvs, _⟩ := buildModel_spec P T N groups m h
  intro mesh hmesh i hi
  have h1 : some i ∈ (slotsOf m).map some :=
    List.mem_map.2 ⟨i, mem_slotsOf m mesh hmesh i hi, rfl⟩
  rw [← hmap] at h1
  obtain ⟨s, _, hs⟩ := List.mem_map.1 h1
  rw [hvs mesh hmesh]
  exact slot_lt P T N st inv s i hs

theorem refsOf_perm (l l2 : List (Str × List TriangleIndex)) (h : l.Perm l2) :
    (refsOf l).Perm (refsOf l2) :=
  List.Perm.flatMap_right _ h

end Built

/-! ## The number of indices of each mesh -/

section Lengths
variable {F : Type} (P : List (vec3 F)) (T : List (vec2 F)) (N : List (vec3 F))

theorem convertIndices_length (st st1 : ConvState F) (conv conv1 : List Nat) (l : List Str)
    (h : convertIndices P T N st conv l = some (st1, conv1)) :
    conv1.length = conv.length + l.length := by
  induction l generalizing st conv with
  | nil =>
    simp only [convertIndices, Option.some.injEq, Prod.mk.injEq] at h
    simp [← h.2]
  | cons s l ih =>
    simp only [convertIndices] at h
    cases hc : convertIndex P T N st s with
    | none => simp [hc] at h
    | some p =>
      obtain ⟨st2, k⟩ := p
      simp only [hc] at h
      rw [ih st2 _ h]
      simp only [List.length_append, List.length_cons, List.length_nil]
      omega

theorem convertTriangles_length (st st1 : ConvState F) (conv conv1 : List Nat)
    (tris : List TriangleIndex)
    (h : convertTriangles P T N st conv tris = some (st1, conv1)) :
    conv1.length = conv.length + 3 * tris.length := by
  rw [convertTriangles_eq] at h
  rw [convertIndices_length P T N st st1 conv conv1 _ h]
  congr 1
  clear h
  induction tris with
  | nil => rfl
  | cons t tris ih =>
    rw [List.flatMap_cons, List.length_append, ih]
    simp only [TriangleIndex.indices, List.length_cons, List.length_nil]
    omega

theorem convertMeshes_lengths (st st1 : ConvState F) (acc out : List (List Nat))
    (groups : List (Str × List TriangleIndex))
    (h : convertMeshes P T N st acc groups = some (st1, out)) :
    out.map List.length = acc.map List.length ++ groups.map (fun g => 3 * g.2.length) := by
  induction groups generalizing st acc with
  | nil =>
    simp only [convertMeshes, Option.some.injEq, Prod.mk.injEq] at h
    simp [← h.2]
  | cons g groups ih =>
    simp only [convertMeshes] at h
    cases hc : convertTriangles P T N st [] g.2 with
    | none => simp [hc] at h
    | some p =>
      obtain ⟨st2, c⟩ := p
      simp only [hc] at h
      rw [ih st2 _ h, List.map_append, List.append_assoc]
      have := convertTriangles_length P T N st st2 [] c g.2 hc
      simp [this]

theorem buildModel_lengths (groups : List (Str × List TriangleIndex)) (m : Model F)
    (h : buildModel P T N groups = some m) :
    m.meshes.map (fun mesh => mesh.m_Indices.length)
      = groups.map (fun g => 3 * g.2.length) := by
  unfold buildModel at h
  cases hc : convertMeshes P T N ⟨[], [], 0⟩ [] groups with
  | none => simp [hc] at h
  | some p =>
    obtain ⟨st, meshes⟩ := p
    simp only [hc, Option.some.injEq] at h
    subst h
    have := convertMeshes_lengths P T N _ _ _ _ _ hc
    simp only [List.map_nil, List.nil_append] at this
    rw [← this, List.map_map]
    rfl

end Lengths

/-! ## The conversion phase on index strings that are all new -/

section Wrap

variable {F : Type} (P : List (vec3 F)) (T : List (vec2 F)) (N : List (vec3 F))

theorem digitVal_digitChar : ∀ d, d < 10 → digitVal (digitChar d) = d := by decide

theorem wrapKey_injective : Function.Injective wrapKey := by
  intro a b h
  unfold wrapKey at h
  have h1 := List.append_cancel_left h
  have h2 := congrArg (List.map digitVal) h1
  have key : ∀ k, ((Nat.digits 10 k).map digitChar).map digitVal = Nat.digits 10 k := by
    intro k
    rw [List.map_map]
    conv_rhs => rw [← List.map_id (Nat.digits 10 k)]
    apply List.map_congr_left
    intro d hd
    exact digitVal_digitChar d (Nat.digits_lt_base (by decide) hd)
  rw [key, key] at h2
  exact Nat.digits_inj_iff.1 h2

theorem vertexAttributes_wrapKey (k : Nat) : vertexAttributes (wrapKey k) = some (1, 1, 1) := by
  unfold wrapKey
  generalize (Nat.digits 10 k).map digitChar = junk
  rfl

theorem makeVertex_eq (s : Str) (a b c : Nat) (vp : vec3 F) (vt : vec2 F) (vn : vec3 F)
    (h : vertexAttributes s = some (a, b, c)) (hp : P[minusOne a]? = some vp)
    (ht : T[minusOne b]? = some vt) (hn : N[minusOne c]? = some vn) :
    makeVertex P T N s = some (vertexOf vp vt vn) := by
  unfold makeVertex
  simp only [h, hp, ht, hn]
  rfl

theorem makeVertex_wrapKey (p : vec3 F) (t : vec2 F) (n : vec3 F) (k : Nat) :
    makeVertex [p] [t] [n] (wrapKey k) = some (vertexOf p t n) :=
  makeVertex_eq [p] [t] [n] (wrapKey k) 1 1 1 p t n (vertexAttributes_wrapKey k) rfl rfl rfl

theorem refsOf_wrap (name : Str) (n : Nat) :
    refsOf [(name, (List.range n).map wrapTriangle)] = (List.range (3 * n)).map wrapKey := by
  simp only [refsOf, List.flatMap_cons, List.flatMap_nil, List.append_nil]
  induction n with
  | zero => rfl
  | succ n ih =>
    have h3 : 3 * (n + 1) = 3 * n + 1 + 1 + 1 := by ring
    rw [List.range_succ, List.map_append, List.flatMap_append, ih, h3, List.range_succ,
      List.range_succ, List.range_succ]
    simp [wrapTriangle, TriangleIndex.indices]

theorem convertIndices_fresh (st : ConvState F) (refs : List Str) (hn : refs.Nodup)
    (hd : ∀ s ∈ refs, s ∉ st.indices.map Prod.fst)
    (hr : ∀ s ∈ refs, (makeVertex P T N s).isSome = true) (hnum : st.vertexNum < UINT) :
    (convertIndices P T N st [] refs).map (fun q => q.2)
      = some ((List.range refs.length).map (fun j => (st.vertexNum + j) % UINT)) := by
  induction refs generalizing st with
  | nil => simp [convertIndices]
  | cons s l ih =>
    rw [convertIndices_cons]
    have hf : find s st.indices = none :=
      (find_none_iff s st.indices).2 (hd s (List.mem_cons_self _ _))
    obtain ⟨v, hv⟩ := Option.isSome_iff_exists.1 (hr s (List.mem_cons_self _ _))
    simp only [convertIndex, hf, hv, Option.some_bind]
    have hn2 := List.nodup_cons.1 hn
    have := ih ⟨st.vertices ++ [v], st.indices ++ [(s, st.vertexNum)], (st.vertexNum + 1) % UINT⟩
      hn2.2
      (by
        intro a ha
        simp only [List.map_append, List.map_cons, List.map_nil, List.mem_append,
          List.mem_singleton, not_or]
        refine ⟨hd a (List.mem_cons_of_mem _ ha), ?_⟩
        rintro rfl
        exact hn2.1 ha)
      (fun a ha => hr a (List.mem_cons_of_mem _ ha))
      (Nat.mod_lt _ (by decide))
    simp only [] at this
    cases hc : convertIndices P T N
        ⟨st.vertices ++ [v], st.indices ++ [(s, st.vertexNum)], (st.vertexNum + 1) % UINT⟩ [] l with
    | none => simp [hc] at this
    | some q =>
      simp only [hc, Option.map_some', Option.some.injEq] at this ⊢
      rw [this, List.length_cons, List.range_succ_eq_map, List.map_cons, List.map_map]
      congr 1
      · simp [Nat.mod_eq_of_lt hnum]
      · apply List.map_congr_left
        intro j _
        simp only [Function.comp, Nat.mod_add_mod]
        congr 1
        omega

theorem buildModel_slots_fresh (groups : List (Str × List TriangleIndex))
    (hn : (refsOf groups).Nodup)
    (hr : ∀ s ∈ refsOf groups, (makeVertex P T N s).isSome = true) :
    (buildModel P T N groups).map slotsOf
      = some ((List.range (refsOf groups).length).map (fun j => j % UINT)) := by
  have h1 := convertIndices_fresh P T N ⟨[], [], 0⟩ (refsOf groups) hn (by simp) hr
    (show 0 < UINT by decide)
  have heq := convertMeshes_eq P T N ⟨[], [], 0⟩ [] groups
  unfold buildModel
  cases hi : convertIndices P T N ⟨[], [], 0⟩ [] (refsOf groups) with
  | none => simp [hi] at h1
  | some q =>
    obtain ⟨st, outs⟩ := q
    simp only [hi, Option.map_some', Option.some.injEq, Nat.zero_add] at h1
    cases hc : convertMeshes P T N ⟨[], [], 0⟩ [] groups with
    | none => simp [hc, hi] at heq
    | some p =>
      obtain ⟨st2, meshes⟩ := p
      simp only [hc, hi, Option.map_some', Option.some.injEq, Prod.mk.injEq, List.flatten_nil,
        List.nil_append] at heq
      simp only [Option.map_some', slotsOf_mk, heq.2, h1]

end Wrap

/-! ## The attributes read from an index string -/

section Attributes

theorem readDigits_lt (neg : Bool) (body : List Char) (a : Nat)
    (h : (readDigits neg body).1 = some a) : a < UINT := by
  unfold readDigits at h
  split at h
  · simp only [Option.some.injEq] at h
    subst h
    decide
  · split at h
    · simp only [Option.some.injEq] at h
      subst h
      decide
    · simp only [Option.some.injEq] at h
      subst h
      split
      · exact Nat.mod_lt _ (by decide)
      · omega

theorem readUnsigned_lt (r : List Char) (a : Nat) (h : (readUnsigned r).1 = some a) :
    a < UINT := by
  unfold readUnsigned at h
  split at h
  · cases h
  · exact readDigits_lt _ _ a h

theorem vertexAttributes_lt (s : Str) (p t n : Nat) (h : vertexAttributes s = some (p, t, n)) :
    p < UINT ∧ t < UINT ∧ n < UINT := by
  simp only [vertexAttributes] at h
  split at h
  · rename_i hp ht hn
    simp only [Option.some.injEq, Prod.mk.injEq] at h
    obtain ⟨rfl, rfl, rfl⟩ := h
    exact ⟨readUnsigned_lt _ _ hp, readUnsigned_lt _ _ ht, readUnsigned_lt _ _ hn⟩
  · cases h

theorem minusOne_ge (a len : Nat) (ha : a < UINT) (hlen : len < UINT) (hbad : a = 0 ∨ len < a) :
    len ≤ minusOne a := by
  unfold minusOne
  rcases hbad with rfl | h
  · have : (0 + (UINT - 1)) % UINT = UINT - 1 := by decide
    rw [this]
    omega
  · have h1 : a + (UINT - 1) = (a - 1) + UINT := by omega
    rw [h1, Nat.add_mod_right, Nat.mod_eq_of_lt (by omega)]
    omega

theorem makeVertex_out_of_range {F : Type} (P : List (vec3 F)) (T : List (vec2 F))
    (N : List (vec3 F)) (s : Str) (p t n : Nat) (ha : vertexAttributes s = some (p, t, n))
    (hP : P.length < UINT) (hT : T.length < UINT) (hN : N.length < UINT)
    (hbad : p = 0 ∨ P.length < p ∨ t = 0 ∨ T.length < t ∨ n = 0 ∨ N.length < n) :
    makeVertex P T N s = none := by
  obtain ⟨hp, ht, hn⟩ := vertexAttributes_lt s p t n ha
  unfold makeVertex
  simp only [ha]
  have key : P[minusOne p]? = none ∨ T[minusOne t]? = none ∨ N[minusOne n]? = none := by
    rcases hbad with h | h | h | h | h | h
    · exact Or.inl (List.getElem?_eq_none (minusOne_ge p _ hp hP (Or.inl h)))
    · exact Or.inl (List.getElem?_eq_none (minusOne_ge p _ hp hP (Or.inr h)))
    · exact Or.inr (Or.inl (List.getElem?_eq_none (minusOne_ge t _ ht hT (Or.inl h))))
    · exact Or.inr (Or.inl (List.getElem?_eq_none (minusOne_ge t _ ht hT (Or.inr h))))
    · exact Or.inr (Or.inr (List.getElem?_eq_none (minusOne_ge n _ hn hN (Or.inl h))))
    · exact Or.inr (Or.inr (List.getElem?_eq_none (minusOne_ge n _ hn hN (Or.inr h))))
  rcases key with h | h | h
  · simp [h]
  · cases P[minusOne p]? <;> simp [h]
  · cases P[minusOne p]? <;> cases T[minusOne t]? <;> simp [h]

theorem makeVertex_unread {F : Type} (P : List (vec3 F)) (T : List (vec2 F))
    (N : List (vec3 F)) (s : Str) (ha : vertexAttributes s = none) :
    makeVertex P T N s = none := by
  unfold makeVertex
  simp only [ha]

end Attributes

theorem manyPositions_last : manyPositions[minusOne 0]? = some ⟨7, 7, 7⟩ := by
  rw [show minusOne 0 = 4294967295 by decide]
  unfold manyPositions
  rw [List.getElem?_replicate, if_pos (by decide)]

theorem makeVertex_zero_index :
    makeVertex manyPositions [(⟨0, 0⟩ : vec2 Int)] [⟨0, 0, 1⟩] ['0', '/', '1', '/', '1']
      = some (vertexOf ⟨7, 7, 7⟩ ⟨0, 0⟩ ⟨0, 0, 1⟩) :=
  makeVertex_eq _ _ _ _ 0 1 1 _ _ _ (by decide) manyPositions_last rfl rfl

theorem buildModel_zeroGroups (P : List (vec3 Int))
    (hv : makeVertex P [(⟨0, 0⟩ : vec2 Int)] [⟨0, 0, 1⟩] ['0', '/', '1', '/', '1']
      = some (vertexOf ⟨7, 7, 7⟩ ⟨0, 0⟩ ⟨0, 0, 1⟩)) :
    buildModel P [⟨0, 0⟩] [⟨0, 0, 1⟩] zeroGroups =
      some ⟨[⟨[⟨7, 7, 7, 0, 0, 0, 0, 1⟩], [0, 0, 0]⟩]⟩ := by
  simp [buildModel, zeroGroups, convertMeshes, convertTriangles, convertIndices, convertIndex,
    TriangleIndex.indices, find, hv, vertexOf]

/-! ## Index strings made of numerals -/

section Numerals

theorem isdigit_not_space (c : Char) (h : isdigit c = true) : isspace c = false := by
  unfold isdigit at h
  unfold isspace
  simp only [Bool.and_eq_true, decide_eq_true_eq] at h
  simp only [Bool.or_eq_false_iff, Bool.and_eq_false_iff, beq_eq_false_iff_ne, ne_eq,
    decide_eq_false_iff_not]
  omega

theorem isdigit_toNat (c : Char) (h : isdigit c = true) : 48 ≤ c.toNat ∧ c.toNat ≤ 57 := by
  unfold isdigit at h
  simpa using h

theorem isdigit_ne_slash (c : Char) (h : isdigit c = true) : c ≠ '/' := by
  rintro rfl
  exact absurd h (by decide)

theorem isdigit_not_sign (c : Char) (h : isdigit c = true) :
    (c == '-') = false ∧ (c == '+') = false := by
  constructor
  · rw [beq_eq_false_iff_ne]
    rintro rfl
    exact absurd h (by decide)
  · rw [beq_eq_false_iff_ne]
    rintro rfl
    exact absurd h (by decide)

theorem takeWhile_digits (ds rest : List Char) (hds : ∀ c ∈ ds, isdigit c = true)
    (hrest : ∀ c ∈ rest.head?, isdigit c = false) :
    (ds ++ rest).takeWhile isdigit = ds ∧ (ds ++ rest).dropWhile isdigit = rest := by
  induction ds with
  | nil =>
    cases rest with
    | nil => simp
    | cons c r =>
      have := hrest c (by simp)
      simp [List.takeWhile_cons, List.dropWhile_cons, this]
  | cons d ds ih =>
    have hd := hds d (List.mem_cons_self _ _)
    have := ih (fun c hc => hds c (List.mem_cons_of_mem _ hc))
    simp [List.takeWhile_cons, List.dropWhile_cons, hd, this.1, this.2]

theorem readUnsigned_nil : readUnsigned [] = (none, []) := rfl

theorem readUnsigned_space (c : Char) (r : List Char) (h : isspace c = true) :
    readUnsigned (c :: r) = readUnsigned r := by
  unfold readUnsigned
  rw [List.dropWhile_cons, if_pos h]

theorem readUnsigned_digits (ds rest : List Char) (hne : ds ≠ [])
    (hds : ∀ c ∈ ds, isdigit c = true) (hrest : ∀ c ∈ rest.head?, isdigit c = false) :
    readUnsigned (ds ++ rest) =
      if UINT ≤ decimalVal ds then (some (UINT - 1), []) else (some (decimalVal ds), rest) := by
  obtain ⟨htake, hdrop⟩ := takeWhile_digits ds rest hds hrest
  cases ds with
  | nil => exact absurd rfl hne
  | cons d ds =>
    have hd := hds d (List.mem_cons_self _ _)
    have hsp := isdigit_not_space d hd
    obtain ⟨hm, hpl⟩ := isdigit_not_sign d hd
    unfold readUnsigned
    simp only [List.cons_append, List.dropWhile_cons, hsp, Bool.false_eq_true, if_false, hm, hpl,
      Bool.or_self]
    rw [List.cons_append] at htake hdrop
    unfold readDigits
    rw [htake, hdrop]
    simp

theorem readUnsigned_numeral (ds rest : List Char) (h : IsNumeral ds)
    (hrest : ∀ c ∈ rest.head?, isdigit c = false) :
    readUnsigned (ds ++ rest) = (some (decimalVal ds), rest) := by
  rw [readUnsigned_digits ds rest h.1 h.2.1 hrest, if_neg (by have := h.2.2; omega)]

theorem map_slash_digits (ds : List Char) (hds : ∀ c ∈ ds, isdigit c = true) :
    ds.map (fun c => if c = '/' then ' ' else c) = ds := by
  conv_rhs => rw [← List.map_id ds]
  apply List.map_congr_left
  intro c hc
  simp [isdigit_ne_slash c (hds c hc)]

theorem makeVertex_congr {F : Type} (P : List (vec3 F)) (T : List (vec2 F)) (N : List (vec3 F))
    (s s2 : Str) (h : vertexAttributes s = vertexAttributes s2) :
    makeVertex P T N s = makeVertex P T N s2 := by
  unfold makeVertex
  rw [h]

theorem vertexAttributes_three (p t n : Str) (hp : IsNumeral p) (ht : IsNumeral t)
    (hn : IsNumeral n) :
    vertexAttributes (p ++ '/' :: (t ++ '/' :: n))
      = some (decimalVal p, decimalVal t, decimalVal n) := by
  simp only [vertexAttributes, List.map_append, List.map_cons, if_true,
    map_slash_digits p hp.2.1, map_slash_digits t ht.2.1, map_slash_digits n hn.2.1]
  rw [readUnsigned_numeral p _ hp (by simp [isdigit])]
  simp only []
  rw [readUnsigned_space _ _ (by decide), readUnsigned_numeral t _ ht (by simp [isdigit])]
  simp only []
  have h3 := readUnsigned_numeral n [] hn (by simp)
  rw [List.append_nil] at h3
  rw [readUnsigned_space _ _ (by decide), h3]

theorem vertexAttributes_four (p t n junk : Str) (hp : IsNumeral p) (ht : IsNumeral t)
    (hn : IsNumeral n) :
    vertexAttributes (p ++ '/' :: (t ++ '/' :: (n ++ '/' :: junk)))
      = some (decimalVal p, decimalVal t, decimalVal n) := by
  simp only [vertexAttributes, List.map_append, List.map_cons, if_true,
    map_slash_digits p hp.2.1, map_slash_digits t ht.2.1, map_slash_digits n hn.2.1]
  rw [readUnsigned_numeral p _ hp (by simp [isdigit])]
  simp only []
  rw [readUnsigned_space _ _ (by decide), readUnsigned_numeral t _ ht (by simp [isdigit])]
  simp only []
  rw [readUnsigned_space _ _ (by decide), readUnsigned_numeral n _ hn (by simp [isdigit])]

theorem vertexAttributes_two (p t : Str) (hp : IsNumeral p) (ht : IsNumeral t) :
    vertexAttributes (p ++ '/' :: t) = none := by
  simp only [vertexAttributes, List.map_append, List.map_cons, if_true,
    map_slash_digits p hp.2.1, map_slash_digits t ht.2.1]
  rw [readUnsigned_numeral p _ hp (by simp [isdigit])]
  simp only []
  have h2 := readUnsigned_numeral t [] ht (by simp)
  rw [List.append_nil] at h2
  rw [readUnsigned_space _ _ (by decide), h2]
  simp only [readUnsigned_nil]

theorem vertexAttributes_empty_part (p n : Str) (hp : IsNumeral p) (hn : IsNumeral n) :
    vertexAttributes (p ++ '/' :: '/' :: n) = none := by
  simp only [vertexAttributes, List.map_append, List.map_cons, if_true,
    map_slash_digits p hp.2.1, map_slash_digits n hn.2.1]
  rw [readUnsigned_numeral p _ hp (by simp [isdigit])]
  simp only []
  have h2 := readUnsigned_numeral n [] hn (by simp)
  rw [List.append_nil] at h2
  rw [readUnsigned_space _ _ (by decide), readUnsigned_space _ _ (by decide), h2]
  simp only [readUnsigned_nil]

end Numerals

/-! ## Tokens and the material scan -/

section Tokens

theorem span_append (p : Char → Bool) (xs rest : List Char) (hxs : ∀ c ∈ xs, p c = true)
    (hrest : ∀ c ∈ rest.head?, p c = false) :
    (xs ++ rest).takeWhile p = xs ∧ (xs ++ rest).dropWhile p = rest := by
  induction xs with
  | nil =>
    cases rest with
    | nil => simp
    | cons c r =>
      have := hrest c (by simp)
      simp [List.takeWhile_cons, List.dropWhile_cons, this]
  | cons d xs ih =>
    have hd := hxs d (List.mem_cons_self _ _)
    have := ih (fun c hc => hxs c (List.mem_cons_of_mem _ hc))
    simp [List.takeWhile_cons, List.dropWhile_cons, hd, this.1, this.2]

theorem dropWhile_blank (ws r : List Char) (hws : isBlank ws = true) :
    (ws ++ r).dropWhile isspace = r.dropWhile isspace := by
  induction ws with
  | nil => rfl
  | cons c ws ih =>
    simp only [isBlank, List.all_cons, Bool.and_eq_true] at hws
    rw [List.cons_append, List.dropWhile_cons, if_pos hws.1]
    exact ih hws.2

theorem readToken_blank (ws r : List Char) (hws : isBlank ws = true) :
    readToken (ws ++ r) = readToken r := by
  unfold readToken
  rw [dropWhile_blank ws r hws]

theorem readToken_token (tok rest : List Char) (htok : isToken tok = true) (hrest : endsToken rest = true) :
    readToken (tok ++ rest) = some (tok, rest) := by
  simp only [isToken, Bool.and_eq_true, Bool.not_eq_true', List.isEmpty_eq_false,
    List.all_eq_true] at htok
  obtain ⟨hne, hns⟩ := htok
  have hrest2 : ∀ c ∈ rest.head?, isspace c = true := by
    cases rest with
    | nil => simp
    | cons a rest => simpa [endsToken] using hrest
  have hspan := span_append (fun a => !isspace a) tok rest
    (fun c hc => by simpa using hns c hc)
    (fun c hc => by simp [hrest2 c hc])
  cases tok with
  | nil => exact absurd rfl hne
  | cons c cs =>
    unfold readToken
    have hc : isspace c = false := by simpa using hns c (List.mem_cons_self _ _)
    rw [List.cons_append] at hspan ⊢
    rw [List.dropWhile_cons, if_neg (by simp [hc])]
    simp only [hspan.1, hspan.2]

theorem readToken_append (ws tok rest : List Char) (hws : isBlank ws = true) (htok : isToken tok = true)
    (hrest : endsToken rest = true) : readToken (ws ++ (tok ++ rest)) = some (tok, rest) := by
  rw [readToken_blank ws _ hws, readToken_token tok rest htok hrest]

theorem endsToken_blank (sp r : List Char) (hsp : isBlank sp = true) (hne : sp ≠ []) :
    endsToken (sp ++ r) = true := by
  cases sp with
  | nil => exact absurd rfl hne
  | cons c sp =>
    simp only [isBlank, List.all_cons, Bool.and_eq_true] at hsp
    exact hsp.1

theorem mem_insert {V : Type} (m : List (Str × V)) (key : Str) (v : V) (e : Str × V)
    (h : e ∈ insert m key v) : e ∈ m ∨ e = (key, v) := by
  unfold insert at h
  split at h
  · exact Or.inl h
  · simpa using h

theorem find_insert_new {V : Type} (m : List (Str × V)) (key : Str) (v : V)
    (h : find key m = none) : find key (insert m key v) = some v := by
  unfold insert
  simp [h, find_append, find]

theorem mtlInnerAux_texFile (texDir materialName : Str) (fuel : Nat) (r : List Char)
    (materials : List (Str × Material)) :
    ∀ e ∈ (mtlInnerAux texDir materialName fuel r materials).1,
      e ∈ materials ∨ ∃ fn, e.2.texFile = texDir ++ fn := by
  induction fuel generalizing r materials with
  | zero =>
    intro e he
    exact Or.inl he
  | succ fuel ih =>
    intro e he
    unfold mtlInnerAux at he
    split at he
    · exact Or.inl he
    · split at he
      · exact ih _ _ e he
      · split at he
        · rcases mem_insert _ _ _ _ he with h | h
          · exact Or.inl h
          · exact Or.inr ⟨_, by rw [h]⟩
        · exact ih _ _ e he

theorem scanMtlAux_texFile (texDir : Str) (fuel : Nat) (r : List Char)
    (materials : List (Str × Material)) :
    ∀ e ∈ scanMtlAux texDir fuel r materials,
      e ∈ materials ∨ ∃ fn, e.2.texFile = texDir ++ fn := by
  induction fuel generalizing r materials with
  | zero =>
    intro e he
    exact Or.inl he
  | succ fuel ih =>
    intro e he
    unfold scanMtlAux at he
    cases ht : readToken r with
    | none =>
      simp only [ht] at he
      exact Or.inl he
    | some q =>
      obtain ⟨input, r1⟩ := q
      simp only [ht] at he
      by_cases hc : contains input kwNewmtl = true
      · simp only [hc, Bool.not_true, Bool.false_eq_true, if_false] at he
        rcases ih _ _ e he with h | h
        · exact mtlInnerAux_texFile texDir (readInto [] r1).1 ((readInto [] r1).2.length + 1)
            (readInto [] r1).2 materials e h
        · exact Or.inr h
      · simp only [hc, Bool.not_eq_true', Bool.not_false, if_true] at he
        exact ih _ _ e he

end Tokens

/-! ## Skipped lines -/

section Skipping

theorem ignoreN_line (n : Nat) (body post : List Char) (hb : ∀ c ∈ body, c ≠ '\n')
    (hlen : body.length < n) : ignoreN n (body ++ '\n' :: post) = post := by
  induction body generalizing n with
  | nil =>
    cases n with
    | zero => simp at hlen
    | succ n => simp [ignoreN]
  | cons c body ih =>
    cases n with
    | zero => simp at hlen
    | succ n =>
      simp only [List.cons_append, ignoreN, if_neg (hb c (List.mem_cons_self _ _))]
      exact ih n (fun a ha => hb a (List.mem_cons_of_mem _ ha))
        (by simpa using hlen)

theorem scanStep_blank {F : Type} (env : Env F) (matDir texDir : Str) (nm : Bool)
    (ws r : List Char) (d : ObjData F) (hws : isBlank ws = true) :
    scanStep env matDir texDir nm (ws ++ r) d = scanStep env matDir texDir nm r d := by
  unfold scanStep
  rw [readToken_blank ws r hws]

theorem scanFrom_blank {F : Type} (env : Env F) (matDir texDir : Str) (nm : Bool)
    (ws r : List Char) (d : ObjData F) (hws : isBlank ws = true) :
    scanFrom env matDir texDir nm (ws ++ r) d = scanFrom env matDir texDir nm r d := by
  rw [scanFrom_eq, scanFrom_eq env matDir texDir nm r, scanStep_blank env matDir texDir nm ws r d hws]

theorem isSkipTag_isToken (tag : Str) (h : isSkipTag tag = true) : isToken tag = true := by
  simp only [isSkipTag, Bool.or_eq_true, decide_eq_true_eq] at h
  rcases h with ((rfl | rfl) | rfl) | rfl <;> decide

theorem isSkipTag_no_mtllib (tag : Str) (h : isSkipTag tag = true) :
    contains tag kwMtllib = false := by
  simp only [isSkipTag, Bool.or_eq_true, decide_eq_true_eq] at h
  rcases h with ((rfl | rfl) | rfl) | rfl <;> decide

end Skipping

/-! ## The distinct index strings in first-encounter order -/

section Order

variable {F : Type} (P : List (vec3 F)) (T : List (vec2 F)) (N : List (vec3 F))

theorem distinctFrom_append (seen l l2 : List Str) :
    distinctFrom seen (l ++ l2) = distinctFrom (distinctFrom seen l) l2 := by
  induction l generalizing seen with
  | nil => rfl
  | cons s l ih =>
    simp only [List.cons_append, distinctFrom]
    split
    · exact ih seen
    · exact ih _

theorem distinctFrom_mem (seen l : List Str) (s : Str) :
    s ∈ distinctFrom seen l ↔ s ∈ seen ∨ s ∈ l := by
  induction l generalizing seen with
  | nil => simp [distinctFrom]
  | cons a l ih =>
    simp only [distinctFrom]
    split
    · rename_i h
      rw [ih seen, List.mem_cons]
      constructor
      · rintro (h1 | h1)
        · exact Or.inl h1
        · exact Or.inr (Or.inr h1)
      · rintro (h1 | h1 | h1)
        · exact Or.inl h1
        · subst h1
          exact Or.inl h
        · exact Or.inr h1
    · rw [ih (seen ++ [a]), List.mem_append, List.mem_singleton, List.mem_cons]
      tauto

theorem distinctFrom_nodup (seen l : List Str) (h : seen.Nodup) :
    (distinctFrom seen l).Nodup := by
  induction l generalizing seen with
  | nil => exact h
  | cons a l ih =>
    simp only [distinctFrom]
    split
    · exact ih seen h
    · rename_i hna
      apply ih
      refine List.Nodup.append h (List.nodup_singleton a) ?_
      intro x hx hx2
      rw [List.mem_singleton] at hx2
      subst hx2
      exact hna hx

theorem distinctStrings_nodup (l : List Str) : (distinctStrings l).Nodup :=
  distinctFrom_nodup [] l List.nodup_nil

theorem distinctStrings_mem (l : List Str) (s : Str) : s ∈ distinctStrings l ↔ s ∈ l := by
  unfold distinctStrings
  rw [distinctFrom_mem]
  simp

theorem distinctStrings_length (l : List Str) :
    (distinctStrings l).length = l.dedup.length := by
  apply List.Perm.length_eq
  rw [List.perm_ext_iff_of_nodup (distinctStrings_nodup l) (List.nodup_dedup l)]
  intro s
  rw [distinctStrings_mem, List.mem_dedup]

theorem convertIndices_keys (st st1 : ConvState F) (conv conv1 : List Nat) (refs : List Str)
    (h : convertIndices P T N st conv refs = some (st1, conv1)) :
    st1.indices.map Prod.fst = distinctFrom (st.indices.map Prod.fst) refs := by
  induction refs generalizing st conv with
  | nil =>
    simp only [convertIndices, Option.some.injEq, Prod.mk.injEq] at h
    rw [← h.1]
    rfl
  | cons s l ih =>
    simp only [convertIndices] at h
    unfold convertIndex at h
    cases hf : find s st.indices with
    | some k =>
      simp only [hf] at h
      have hmem : s ∈ st.indices.map Prod.fst :=
        List.mem_map.2 ⟨(s, k), find_some_mem s _ k hf, rfl⟩
      rw [ih st _ h]
      simp [distinctFrom, hmem]
    | none =>
      simp only [hf] at h
      cases hv : makeVertex P T N s with
      | none => simp [hv] at h
      | some v =>
        simp only [hv] at h
        have hnm := (find_none_iff s st.indices).1 hf
        rw [ih _ _ h]
        simp only [distinctFrom, hnm, if_false, List.map_append, List.map_cons, List.map_nil]

theorem rankOf_getElem? (keys : List Str) (h : keys.Nodup) (a : Nat) (s : Str)
    (hs : keys[a]? = some s) : rankOf keys s = a := by
  induction keys generalizing a with
  | nil => simp at hs
  | cons k keys ih =>
    have hn := List.nodup_cons.1 h
    cases a with
    | zero =>
      simp only [List.getElem?_cons_zero, Option.some.injEq] at hs
      simp [rankOf, hs]
    | succ a =>
      simp only [List.getElem?_cons_succ] at hs
      have hmem : s ∈ keys := List.mem_iff_getElem?.2 ⟨a, hs⟩
      have hne : k ≠ s := by
        rintro rfl
        exact hn.1 hmem
      simp [rankOf, hne, ih hn.2 a hs]

theorem rankOf_append_left (l l2 : List Str) (s : Str) (h : s ∈ l) :
    rankOf (l ++ l2) s = rankOf l s := by
  induction l with
  | nil => cases h
  | cons k l ih =>
    simp only [List.cons_append, rankOf]
    split
    · rfl
    · rename_i hne
      rcases List.mem_cons.1 h with h1 | h1
      · exact absurd h1.symm hne
      · exact congrArg (fun x => x + 1) (ih h1)

theorem rankOf_append_right (l l2 : List Str) (s : Str) (h : s ∉ l) :
    rankOf (l ++ l2) s = l.length + rankOf l2 s := by
  induction l with
  | nil => simp
  | cons k l ih =>
    have hne : k ≠ s := fun e => h (e ▸ List.mem_cons_self _ _)
    have hnl : s ∉ l := fun e => h (List.mem_cons_of_mem _ e)
    have h2 : rankOf (k :: (l ++ l2)) s = rankOf (l ++ l2) s + 1 := by
      simp [rankOf, hne]
    rw [List.cons_append, h2, ih hnl, List.length_cons]
    omega

theorem find_eq_slot (st : ConvState F) (inv : ConvInv P T N st) (s : Str)
    (hs : s ∈ st.indices.map Prod.fst) :
    find s st.indices = some (slotOfString (st.indices.map Prod.fst) s) := by
  cases hf : find s st.indices with
  | none => exact absurd hs ((find_none_iff s st.indices).1 hf)
  | some i =>
    obtain ⟨a, ha, hget, hi⟩ := slot_position P T N st inv s i hf
    have hk : (st.indices.map Prod.fst)[a]? = some s := by
      rw [List.getElem?_map, hget]
      rfl
    unfold slotOfString
    rw [rankOf_getElem? _ inv.keys_nodup a s hk, hi]

end Order

/-! ## The shape of the model built -/

section Shape

variable {F : Type} (P : List (vec3 F)) (T : List (vec2 F)) (N : List (vec3 F))

theorem convertMeshes_spec (st st1 : ConvState F) (acc out : List (List Nat))
    (groups : List (Str × List TriangleIndex))
    (h : convertMeshes P T N st acc groups = some (st1, out)) (inv : ConvInv P T N st) :
    ConvInv P T N st1 ∧ (∃ ext, st1.indices = st.indices ++ ext) ∧
      ∃ new, out = acc ++ new ∧
        new.map (fun c => c.map some) =
          groups.map (fun g => (g.2.flatMap TriangleIndex.indices).map
            (fun s => find s st1.indices)) := by
  induction groups generalizing st acc with
  | nil =>
    simp only [convertMeshes, Option.some.injEq, Prod.mk.injEq] at h
    obtain ⟨rfl, rfl⟩ := h
    exact ⟨inv, ⟨[], by simp⟩, [], by simp, by simp⟩
  | cons g groups ih =>
    simp only [convertMeshes] at h
    cases hc : convertTriangles P T N st [] g.2 with
    | none => simp [hc] at h
    | some p =>
      obtain ⟨st2, c⟩ := p
      simp only [hc] at h
      rw [convertTriangles_eq] at hc
      obtain ⟨inv2, ⟨ext, hext, _⟩, hmap⟩ := convertIndices_spec P T N _ _ _ _ hc inv
      obtain ⟨inv1, ⟨ext2, hext2⟩, new, hout, hnew⟩ := ih st2 _ h inv2
      refine ⟨inv1, ⟨ext ++ ext2, by rw [hext2, hext, List.append_assoc]⟩, c :: new, ?_, ?_⟩
      · rw [hout, List.append_assoc]
        rfl
      · simp only [List.map_cons, hnew, List.cons.injEq, and_true]
        rw [← hmap]
        apply List.map_congr_left
        intro s hs
        have h1 : find s st2.indices ∈ c.map some := by
          rw [← hmap]
          exact List.mem_map.2 ⟨s, hs, rfl⟩
        obtain ⟨k, _, hk⟩ := List.mem_map.1 h1
        rw [hext2, find_append, ← hk]
        rfl

theorem buildModel_shape (groups : List (Str × List TriangleIndex)) (m : Model F)
    (h : buildModel P T N groups = some m) :
    (∀ mesh ∈ m.meshes,
        mesh.m_Vertices.map some = (distinctStrings (refsOf groups)).map (makeVertex P T N)) ∧
      m.meshes.map (fun mesh => mesh.m_Indices) =
        groups.map (fun g => (g.2.flatMap TriangleIndex.indices).map
          (slotOfString (distinctStrings (refsOf groups)))) := by
  unfold buildModel at h
  cases hc : convertMeshes P T N ⟨[], [], 0⟩ [] groups with
  | none => simp [hc] at h
  | some p =>
    obtain ⟨st, meshes⟩ := p
    simp only [hc, Option.some.injEq] at h
    subst h
    obtain ⟨inv, _, new, hout, hnew⟩ := convertMeshes_spec P T N _ _ _ _ _ hc (convInv_init P T N)
    rw [List.nil_append] at hout
    subst hout
    have heq := convertMeshes_eq P T N ⟨[], [], 0⟩ [] groups
    rw [hc] at heq
    have hkeys : st.indices.map Prod.fst = distinctStrings (refsOf groups) := by
      cases hi : convertIndices P T N ⟨[], [], 0⟩ [] (refsOf groups) with
      | none => simp [hi] at heq
      | some q =>
        obtain ⟨st2, outs⟩ := q
        simp only [hi, Option.map_some', Option.some.injEq, Prod.mk.injEq] at heq
        have := convertIndices_keys P T N _ _ _ _ _ hi
        rw [← heq.1] at this
        exact this
    constructor
    · intro mesh hmesh
      obtain ⟨idx, _, rfl⟩ := List.mem_map.1 hmesh
      simp only []
      rw [← inv.resolved, ← hkeys, List.map_map]
      rfl
    · have hid : (meshes.map (fun idx => (⟨st.vertices, idx⟩ : Mesh F))).map
          (fun mesh => mesh.m_Indices) = meshes := by
        rw [List.map_map]
        exact List.map_id _
      simp only []
      rw [hid]
      have hinj : Function.Injective (List.map (List.map (some : Nat → Option Nat))) :=
        List.map_injective_iff.2 (List.map_injective_iff.2 (Option.some_injective _))
      apply hinj
      rw [hnew, List.map_map]
      apply List.map_congr_left
      intro g hg
      simp only [Function.comp, List.map_map]
      apply List.map_congr_left
      intro s hs
      have hmem : s ∈ st.indices.map Prod.fst := by
        rw [hkeys, distinctStrings_mem]
        exact List.mem_flatMap.2 ⟨g, hg, hs⟩
      rw [find_eq_slot P T N st inv s hmem, hkeys]
      rfl

theorem seen_step (st st1 : ConvState F) (conv : List Nat) (s : Str) (k : Nat)
    (h : convertIndex P T N st s = some (st1, k)) (inv : ConvInv P T N st)
    (hseen : SeenValues st.indices.length conv) (hfirst : FirstOccurrencesCount conv) :
    SeenValues st1.indices.length (conv ++ [k]) ∧ FirstOccurrencesCount (conv ++ [k]) := by
  have hold : ∀ i (hi : i < (conv ++ [k]).length), i < conv.length →
      (conv ++ [k])[i] ∉ (conv ++ [k]).take i →
        (conv ++ [k])[i] = ((conv ++ [k]).take i).dedup.length := by
    intro i hi hlt
    rw [List.getElem_append_left hlt, List.take_append_of_le_length (Nat.le_of_lt hlt)]
    exact hfirst i hlt
  unfold convertIndex at h
  cases hf : find s st.indices with
  | some k0 =>
    simp only [hf, Option.some.injEq, Prod.mk.injEq] at h
    obtain ⟨rfl, rfl⟩ := h
    obtain ⟨a, ha, _, hk⟩ := slot_position P T N st inv s k0 hf
    have hin : k0 ∈ conv := (hseen k0).2 ⟨a, ha, hk⟩
    constructor
    · intro v
      rw [List.mem_append, List.mem_singleton, hseen v]
      constructor
      · rintro (h1 | h1)
        · exact h1
        · exact ⟨a, ha, h1.trans hk⟩
      · intro h1
        exact Or.inl h1
    · intro i hi
      by_cases hlt : i < conv.length
      · exact hold i hi hlt
      · have hi2 : i = conv.length := by
          simp only [List.length_append, List.length_singleton] at hi
          omega
        subst hi2
        intro hnot
        exfalso
        apply hnot
        rw [List.take_left]
        simpa using hin
  | none =>
    simp only [hf] at h
    cases hv : makeVertex P T N s with
    | none => simp [hv] at h
    | some v =>
      simp only [hv, Option.some.injEq, Prod.mk.injEq] at h
      obtain ⟨rfl, rfl⟩ := h
      simp only [List.length_append, List.length_singleton]
      rw [inv.num] at hold ⊢
      constructor
      · intro w
        rw [List.mem_append, List.mem_singleton, hseen w]
        constructor
        · rintro (⟨j, hj, hw⟩ | h1)
          · exact ⟨j, by omega, hw⟩
          · exact ⟨st.indices.length, by omega, h1⟩
        · rintro ⟨j, hj, hw⟩
          by_cases hjn : j < st.indices.length
          · exact Or.inl ⟨j, hjn, hw⟩
          · have : j = st.indices.length := by omega
            subst this
            exact Or.inr hw
      · intro i hi
        by_cases hlt : i < conv.length
        · exact hold i hi hlt
        · have hi2 : i = conv.length := by
            simp only [List.length_append, List.length_singleton] at hi
            omega
          subst hi2
          intro hnot
          rw [List.take_left] at hnot ⊢
          simp only [List.getElem_append_right (Nat.le_refl _), Nat.sub_self,
            List.getElem_cons_zero] at hnot ⊢
          have hU : 0 < UINT := by decide
          have hlt2 : st.indices.length < UINT := by
            by_contra hge
            apply hnot
            rw [hseen]
            refine ⟨st.indices.length - UINT, by omega, ?_⟩
            have : st.indices.length = (st.indices.length - UINT) + UINT := by omega
            conv_lhs => rw [this, Nat.add_mod_right]
          rw [Nat.mod_eq_of_lt hlt2]
          have hperm : conv.dedup.Perm (List.range st.indices.length) := by
            rw [List.perm_ext_iff_of_nodup (List.nodup_dedup conv) (List.nodup_range _)]
            intro w
            rw [List.mem_dedup, hseen w, List.mem_range]
            constructor
            · rintro ⟨j, hj, hw⟩
              rw [Nat.mod_eq_of_lt (by omega)] at hw
              omega
            · intro hw
              exact ⟨w, hw, (Nat.mod_eq_of_lt (by omega)).symm⟩
          rw [hperm.length_eq, List.length_range]

theorem seen_run (st st1 : ConvState F) (conv conv1 : List Nat) (refs : List Str)
    (h : convertIndices P T N st conv refs = some (st1, conv1)) (inv : ConvInv P T N st)
    (hseen : SeenValues st.indices.length conv) (hfirst : FirstOccurrencesCount conv) :
    SeenValues st1.indices.length conv1 ∧ FirstOccurrencesCount conv1 := by
  induction refs generalizing st conv with
  | nil =>
    simp only [convertIndices, Option.some.injEq, Prod.mk.injEq] at h
    obtain ⟨rfl, rfl⟩ := h
    exact ⟨hseen, hfirst⟩
  | cons s l ih =>
    simp only [convertIndices] at h
    cases hc : convertIndex P T N st s with
    | none => simp [hc] at h
    | some p =>
      obtain ⟨st2, k⟩ := p
      simp only [hc] at h
      obtain ⟨inv2, _, _⟩ := convertIndex_spec P T N st st2 s k hc inv
      obtain ⟨hs2, hf2⟩ := seen_step P T N st st2 conv s k hc inv hseen hfirst
      exact ih st2 _ h inv2 hs2 hf2

theorem buildModel_firstOccurrences (groups : List (Str × List TriangleIndex)) (m : Model F)
    (h : buildModel P T N groups = some m) : FirstOccurrencesCount (slotsOf m) := by
  unfold buildModel at h
  cases hc : convertMeshes P T N ⟨[], [], 0⟩ [] groups with
  | none => simp [hc] at h
  | some p =>
    obtain ⟨st, meshes⟩ := p
    simp only [hc, Option.some.injEq] at h
    subst h
    have heq := convertMeshes_eq P T N ⟨[], [], 0⟩ [] groups
    rw [hc] at heq
    cases hi : convertIndices P T N ⟨[], [], 0⟩ [] (refsOf groups) with
    | none => simp [hi] at heq
    | some q =>
      obtain ⟨st2, outs⟩ := q
      simp only [hi, Option.map_some', Option.some.injEq, Prod.mk.injEq, List.flatten_nil,
        List.nil_append] at heq
      rw [slotsOf_mk, heq.2]
      refine (seen_run P T N _ _ _ _ _ hi (convInv_init P T N) ?_ ?_).2
      · intro v
        simp
      · intro i hi
        simp at hi

end Shape

/-! ## Positions in the index sequences -/

section Positions

variable {F : Type} (P : List (vec3 F)) (T : List (vec2 F)) (N : List (vec3 F))

theorem flatMap_indices_getElem? (faces : List TriangleIndex) (i j : Nat) (t : TriangleIndex)
    (s : Str) (ht : faces[i]? = some t) (hs : t.indices[j]? = some s) :
    (faces.flatMap TriangleIndex.indices)[3 * i + j]? = some s := by
  have hj : j < 3 := by
    have := (List.getElem?_eq_some_iff.1 hs).1
    simpa [TriangleIndex.indices] using this
  induction faces generalizing i with
  | nil => simp at ht
  | cons a faces ih =>
    have hlen : a.indices.length = 3 := rfl
    cases i with
    | zero =>
      simp only [List.getElem?_cons_zero, Option.some.injEq] at ht
      subst ht
      rw [List.flatMap_cons, List.getElem?_append_left (by rw [hlen]; omega)]
      simpa using hs
    | succ i =>
      simp only [List.getElem?_cons_succ] at ht
      rw [List.flatMap_cons, List.getElem?_append_right (by rw [hlen]; omega), hlen]
      have : 3 * (i + 1) + j - 3 = 3 * i + j := by omega
      rw [this]
      exact ih i ht

theorem getElem?_map_of_eq {α β : Type} (f : α → β) (l : List α) (l2 : List β)
    (h : l.map f = l2) (i : Nat) : l2[i]? = (l[i]?).map f := by
  rw [← h, List.getElem?_map]

end Positions

/-! ## The vertex found through an index -/

section Resolve

variable {F : Type} (P : List (vec3 F)) (T : List (vec2 F)) (N : List (vec3 F))

theorem distinctFrom_of_nodup (seen l : List Str) (h : (seen ++ l).Nodup) :
    distinctFrom seen l = seen ++ l := by
  induction l generalizing seen with
  | nil => simp [distinctFrom]
  | cons s l ih =>
    have hs : s ∉ seen := by
      intro hmem
      have := (List.nodup_append.1 h).2.2
      exact this hmem (List.mem_cons_self _ _)
    have h2 : (seen ++ [s] ++ l).Nodup := by simpa using h
    simp only [distinctFrom, hs, if_false]
    rw [ih _ h2]
    simp

theorem distinctStrings_of_nodup (l : List Str) (h : l.Nodup) : distinctStrings l = l := by
  have := distinctFrom_of_nodup [] l (by simpa using h)
  simpa [distinctStrings] using this

theorem distinctStrings_perm (l l2 : List Str) (h : l.Perm l2) :
    (distinctStrings l).Perm (distinctStrings l2) := by
  refine (List.perm_ext_iff_of_nodup (distinctStrings_nodup l) (distinctStrings_nodup l2)).2 ?_
  intro s
  rw [distinctStrings_mem, distinctStrings_mem]
  exact h.mem_iff

theorem rankOf_lt (keys : List Str) (s : Str) (h : s ∈ keys) : rankOf keys s < keys.length := by
  induction keys with
  | nil => cases h
  | cons k keys ih =>
    by_cases hk : k = s
    · simp [rankOf, hk]
    · rcases List.mem_cons.1 h with h1 | h1
      · exact absurd h1.symm hk
      · have := ih h1
        simp only [rankOf, hk, if_false, List.length_cons]
        omega

theorem getElem?_rankOf (keys : List Str) (s : Str) (h : s ∈ keys) :
    keys[rankOf keys s]? = some s := by
  induction keys with
  | nil => cases h
  | cons k keys ih =>
    by_cases hk : k = s
    · simp [rankOf, hk]
    · rcases List.mem_cons.1 h with h1 | h1
      · exact absurd h1.symm hk
      · simp only [rankOf, hk, if_false, List.getElem?_cons_succ]
        exact ih h1

theorem buffer_getElem? (vs : List (Vertex F)) (keys : List Str)
    (h : vs.map some = keys.map (makeVertex P T N)) (i : Nat) :
    vs[i]? = (keys[i]?).bind (makeVertex P T N) := by
  have h1 := congrArg (fun l => l[i]?) h
  simp only [List.getElem?_map] at h1
  cases hv : vs[i]? with
  | none =>
    cases hk : keys[i]? with
    | none => rfl
    | some s => simp [hv, hk] at h1
  | some v =>
    cases hk : keys[i]? with
    | none => simp [hv, hk] at h1
    | some s =>
      simp only [hv, hk, Option.map_some', Option.some.injEq] at h1
      simp [h1]

theorem buffer_eq_filterMap (vs : List (Vertex F)) (keys : List Str)
    (h : vs.map some = keys.map (makeVertex P T N)) :
    vs = keys.filterMap (makeVertex P T N) := by
  have h1 := congrArg (List.filterMap id) h
  simpa [List.filterMap_map] using h1

/-- The vertex found through the index at position `k` of the mesh of group
number `g`, in terms of the distinct index strings in first-encounter order. -/
theorem resolvedAt_shape (groups : List (Str × List TriangleIndex)) (m : Model F)
    (h : buildModel P T N groups = some m) (g k : Nat) (grp : Str × List TriangleIndex)
    (s : Str) (hg : groups[g]? = some grp)
    (hs : (grp.2.flatMap TriangleIndex.indices)[k]? = some s) :
    ∃ mesh, m.meshes[g]? = some mesh ∧
      mesh.m_Indices[k]? = some (slotOfString (distinctStrings (refsOf groups)) s) ∧
      mesh.m_Vertices[slotOfString (distinctStrings (refsOf groups)) s]? =
        ((distinctStrings (refsOf groups))[slotOfString (distinctStrings (refsOf groups)) s]?).bind
          (makeVertex P T N) := by
  obtain ⟨hverts, hidx⟩ := buildModel_shape P T N groups m h
  have hlen : m.meshes.length = groups.length := by
    have := congrArg List.length hidx
    simpa using this
  have hg2 : g < m.meshes.length := by
    rw [hlen]
    exact (List.getElem?_eq_some_iff.1 hg).1
  refine ⟨m.meshes[g], List.getElem?_eq_getElem hg2, ?_, ?_⟩
  · have h1 := congrArg (fun l => l[g]?) hidx
    simp only [List.getElem?_map, List.getElem?_eq_getElem hg2, hg, Option.map_some',
      Option.some.injEq] at h1
    rw [h1, List.getElem?_map, hs]
    rfl
  · exact buffer_getElem? P T N _ _ (hverts _ (List.getElem_mem hg2)) _

theorem mem_refsOf (groups : List (Str × List TriangleIndex)) (g k : Nat)
    (grp : Str × List TriangleIndex) (s : Str) (hg : groups[g]? = some grp)
    (hs : (grp.2.flatMap TriangleIndex.indices)[k]? = some s) : s ∈ refsOf groups := by
  unfold refsOf
  exact List.mem_flatMap.2 ⟨grp, List.mem_iff_getElem?.2 ⟨g, hg⟩, List.mem_iff_getElem?.2 ⟨k, hs⟩⟩

/-- With at most `2 ^ 32` distinct index strings, the vertex found through an
index is the vertex of the index string at that position. -/
theorem resolvedAt_eq (groups : List (Str × List TriangleIndex)) (m : Model F)
    (h : buildModel P T N groups = some m) (hcount : (refsOf groups).dedup.length ≤ UINT)
    (g k : Nat) (grp : Str × List TriangleIndex) (s : Str) (hg : groups[g]? = some grp)
    (hs : (grp.2.flatMap TriangleIndex.indices)[k]? = some s) :
    ∃ mesh slot, m.meshes[g]? = some mesh ∧ mesh.m_Indices[k]? = some slot ∧
      mesh.m_Vertices[slot]? = makeVertex P T N s := by
  obtain ⟨mesh, hm, hi, hv⟩ := resolvedAt_shape P T N groups m h g k grp s hg hs
  refine ⟨mesh, _, hm, hi, ?_⟩
  have hmem : s ∈ distinctStrings (refsOf groups) :=
    (distinctStrings_mem _ _).2 (mem_refsOf groups g k grp s hg hs)
  have hlt := rankOf_lt _ s hmem
  rw [distinctStrings_length] at hlt
  have hslot : slotOfString (distinctStrings (refsOf groups)) s
      = rankOf (distinctStrings (refsOf groups)) s :=
    Nat.mod_eq_of_lt (lt_of_lt_of_le hlt hcount)
  rw [hv, hslot, getElem?_rankOf _ s hmem]
  rfl

theorem minusOne_eq (a : Nat) (h1 : 1 ≤ a) (h2 : a < UINT) : minusOne a = a - 1 := by
  unfold minusOne
  have h : a + (UINT - 1) = (a - 1) + UINT := by
    have : 1 ≤ UINT := by decide
    omega
  rw [h, Nat.add_mod_right]
  exact Nat.mod_eq_of_lt (by omega)

end Resolve

/-! ## Groups with more index strings than the counter has values -/

section WrapOrder

variable {F : Type} (P : List (vec3 F)) (T : List (vec2 F)) (N : List (vec3 F))

theorem wrapTriangles_flatMap (n : Nat) :
    ((List.range n).map wrapTriangle).flatMap TriangleIndex.indices
      = (List.range (3 * n)).map wrapKey := by
  have := refsOf_wrap [] n
  simpa [refsOf] using this

theorem wrapKeys_nodup (n : Nat) : ((List.range n).map wrapKey).Nodup :=
  List.Nodup.map wrapKey_injective (List.nodup_range _)

theorem not_mem_wrapKeys (n : Nat) (s : Str) (hs : ∀ k, s ≠ wrapKey k) :
    s ∉ (List.range n).map wrapKey := by
  intro h
  obtain ⟨k, _, hk⟩ := List.mem_map.1 h
  exact hs k hk.symm

theorem keys_wrap_first (n : Nat) (s : Str) (hs : ∀ k, s ≠ wrapKey k) (na nb : Str) :
    distinctStrings (refsOf [(na, (List.range n).map wrapTriangle), (nb, [⟨s, s, s⟩])])
      = (List.range (3 * n)).map wrapKey ++ [s] := by
  have hrefs : refsOf [(na, (List.range n).map wrapTriangle), (nb, [⟨s, s, s⟩])]
      = (List.range (3 * n)).map wrapKey ++ [s, s, s] := by
    simp only [refsOf, List.flatMap_cons, List.flatMap_nil, List.append_nil,
      wrapTriangles_flatMap]
    rfl
  have hnot := not_mem_wrapKeys (3 * n) s hs
  rw [hrefs, distinctStrings, distinctFrom_append, ← distinctStrings,
    distinctStrings_of_nodup _ (wrapKeys_nodup _)]
  simp [distinctFrom, hnot]

theorem keys_wrap_last (n : Nat) (s : Str) (hs : ∀ k, s ≠ wrapKey k) (na nb : Str) :
    distinctStrings (refsOf [(nb, [⟨s, s, s⟩]), (na, (List.range n).map wrapTriangle)])
      = s :: (List.range (3 * n)).map wrapKey := by
  have hrefs : refsOf [(nb, [⟨s, s, s⟩]), (na, (List.range n).map wrapTriangle)]
      = [s, s, s] ++ (List.range (3 * n)).map wrapKey := by
    simp only [refsOf, List.flatMap_cons, List.flatMap_nil, List.append_nil,
      wrapTriangles_flatMap]
    rfl
  have hnot := not_mem_wrapKeys (3 * n) s hs
  have hnd : ([s] ++ (List.range (3 * n)).map wrapKey).Nodup := by
    exact List.nodup_cons.2 ⟨hnot, wrapKeys_nodup (3 * n)⟩
  rw [hrefs, distinctStrings, distinctFrom_append]
  have h3 : distinctFrom [] [s, s, s] = [s] := by simp [distinctFrom]
  rw [h3, distinctFrom_of_nodup _ _ hnd]
  rfl

/-- With the wrapping group first, the index written for the string `s` of
the second group is the number of strings before it modulo `2 ^ 32`, and the
vertex buffer starts with the vertices of the wrapping group. -/
theorem wrap_first_resolves (n : Nat) (s : Str) (hs : ∀ k, s ≠ wrapKey k) (na nb : Str)
    (m : Model F)
    (h : buildModel P T N [(na, (List.range n).map wrapTriangle), (nb, [⟨s, s, s⟩])] = some m) :
    ∃ mesh, m.meshes[1]? = some mesh ∧ mesh.m_Indices[0]? = some ((3 * n) % UINT) ∧
      ∀ j, j < 3 * n → mesh.m_Vertices[j]? = makeVertex P T N (wrapKey j) := by
  obtain ⟨mesh, hm, hi, _⟩ := resolvedAt_shape P T N _ m h 1 0 (nb, [⟨s, s, s⟩]) s rfl rfl
  obtain ⟨hverts, _⟩ := buildModel_shape P T N _ m h
  have hmem : mesh ∈ m.meshes := List.mem_iff_getElem?.2 ⟨1, hm⟩
  have hkeys := keys_wrap_first n s hs na nb
  refine ⟨mesh, hm, ?_, ?_⟩
  · rw [hi, hkeys, slotOfString, rankOf_append_right _ _ _ (not_mem_wrapKeys _ s hs)]
    simp [rankOf]
  · intro j hj
    rw [buffer_getElem? P T N _ _ (hverts mesh hmem) j, hkeys,
      List.getElem?_append_left (by simpa using hj), List.getElem?_map,
      List.getElem?_range hj]
    rfl

/-- With the wrapping group last, the string `s` of the first group gets the
index `0` and its own vertex. -/
theorem wrap_last_resolves (n : Nat) (s : Str) (hs : ∀ k, s ≠ wrapKey k) (na nb : Str)
    (m : Model F)
    (h : buildModel P T N [(nb, [⟨s, s, s⟩]), (na, (List.range n).map wrapTriangle)] = some m) :
    ∃ mesh, m.meshes[0]? = some mesh ∧ mesh.m_Indices[0]? = some 0 ∧
      mesh.m_Vertices[0]? = makeVertex P T N s := by
  obtain ⟨mesh, hm, hi, _⟩ := resolvedAt_shape P T N _ m h 0 0 (nb, [⟨s, s, s⟩]) s rfl rfl
  obtain ⟨hverts, _⟩ := buildModel_shape P T N _ m h
  have hmem : mesh ∈ m.meshes := List.mem_iff_getElem?.2 ⟨0, hm⟩
  have hkeys := keys_wrap_last n s hs na nb
  refine ⟨mesh, hm, ?_, ?_⟩
  · rw [hi, hkeys]
    simp [slotOfString, rankOf]
  · rw [buffer_getElem? P T N _ _ (hverts mesh hmem) 0, hkeys]
    simp

theorem secondKey_ne_wrapKey (k : Nat) : String.toList "2/1/1" ≠ wrapKey k := by
  intro h
  have h1 := congrArg List.head? h
  unfold wrapKey at h1
  exact absurd h1 (by
    show ¬ (some '2' = some '1')
    decide)

theorem makeVertex_wrapKey_first (p : vec3 F) (k : Nat) (vt : vec2 F) (vn : vec3 F)
    (hp : P[0]? = some p) (ht : T[0]? = some vt) (hn : N[0]? = some vn) :
    makeVertex P T N (wrapKey k) = some (vertexOf p vt vn) :=
  makeVertex_eq P T N (wrapKey k) 1 1 1 p vt vn (vertexAttributes_wrapKey k) hp ht hn

theorem wrap_groups_complete (l : List (Str × List TriangleIndex))
    (hl : ∀ s ∈ refsOf l, s = String.toList "2/1/1" ∨ ∃ k, s = wrapKey k) :
    (buildModel twoPositions [⟨0, 0⟩] [⟨0, 0, 1⟩] l).isSome = true := by
  apply buildModel_complete
  intro s hs
  rcases hl s hs with rfl | ⟨k, rfl⟩
  · decide
  · rw [makeVertex_wrapKey_first twoPositions [⟨0, 0⟩] [⟨0, 0, 1⟩] ⟨0, 0, 0⟩ k ⟨0, 0⟩ ⟨0, 0, 1⟩
      rfl rfl rfl]
    rfl

theorem wrapFirstGroups_builds :
    (buildModel twoPositions [⟨0, 0⟩] [⟨0, 0, 1⟩] wrapFirstGroups).isSome = true := by
  apply wrap_groups_complete
  intro s hs
  have hk := (distinctStrings_mem _ s).2 hs
  rw [show wrapFirstGroups = [(['a'], (List.range 1431655766).map wrapTriangle),
    (['b'], [⟨String.toList "2/1/1", String.toList "2/1/1", String.toList "2/1/1"⟩])] from rfl,
    keys_wrap_first _ _ secondKey_ne_wrapKey] at hk
  rcases List.mem_append.1 hk with h1 | h1
  · obtain ⟨k, _, rfl⟩ := List.mem_map.1 h1
    exact Or.inr ⟨k, rfl⟩
  · exact Or.inl (List.mem_singleton.1 h1)

theorem wrapLastGroups_builds :
    (buildModel twoPositions [⟨0, 0⟩] [⟨0, 0, 1⟩] wrapLastGroups).isSome = true := by
  apply wrap_groups_complete
  intro s hs
  have hk := (distinctStrings_mem _ s).2 hs
  rw [show wrapLastGroups = [(['b'], [⟨String.toList "2/1/1", String.toList "2/1/1",
      String.toList "2/1/1"⟩]), (['a'], (List.range 1431655766).map wrapTriangle)] from rfl,
    keys_wrap_last _ _ secondKey_ne_wrapKey] at hk
  rcases List.mem_cons.1 hk with h1 | h1
  · exact Or.inl h1
  · obtain ⟨k, _, rfl⟩ := List.mem_map.1 h1
    exact Or.inr ⟨k, rfl⟩

end WrapOrder

/-! ## The order of the groups -/

section Independence

variable {F : Type} (P : List (vec3 F)) (T : List (vec2 F)) (N : List (vec3 F))

theorem makeVertex_inRange_eq (s : Str) (p t n : Nat) (h : vertexAttributes s = some (p, t, n))
    (hp1 : 1 ≤ p) (hp2 : p ≤ P.length) (ht1 : 1 ≤ t) (ht2 : t ≤ T.length)
    (hn1 : 1 ≤ n) (hn2 : n ≤ N.length) :
    ∃ vp vt vn, P[p - 1]? = some vp ∧ T[t - 1]? = some vt ∧ N[n - 1]? = some vn ∧
      makeVertex P T N s = some ⟨vp.x, vp.y, vp.z, vt.x, vt.y, vn.x, vn.y, vn.z⟩ := by
  obtain ⟨hp, ht, hn⟩ := vertexAttributes_lt s p t n h
  obtain ⟨vp, hvp⟩ : ∃ vp, P[p - 1]? = some vp := ⟨_, List.getElem?_eq_getElem (by omega)⟩
  obtain ⟨vt, hvt⟩ : ∃ vt, T[t - 1]? = some vt := ⟨_, List.getElem?_eq_getElem (by omega)⟩
  obtain ⟨vn, hvn⟩ : ∃ vn, N[n - 1]? = some vn := ⟨_, List.getElem?_eq_getElem (by omega)⟩
  refine ⟨vp, vt, vn, hvp, hvt, hvn, ?_⟩
  have hvp2 : P[minusOne p]? = some vp := by rw [minusOne_eq p hp1 hp]; exact hvp
  have hvt2 : T[minusOne t]? = some vt := by rw [minusOne_eq t ht1 ht]; exact hvt
  have hvn2 : N[minusOne n]? = some vn := by rw [minusOne_eq n hn1 hn]; exact hvn
  exact makeVertex_eq P T N s p t n vp vt vn h hvp2 hvt2 hvn2

theorem resolvedAt_value (groups : List (Str × List TriangleIndex)) (m : Model F)
    (h : buildModel P T N groups = some m) (hcount : (refsOf groups).dedup.length ≤ UINT)
    (g k : Nat) (grp : Str × List TriangleIndex) (hg : groups[g]? = some grp) :
    resolvedAt m g k = ((grp.2.flatMap TriangleIndex.indices)[k]?).bind (makeVertex P T N) := by
  cases hs : (grp.2.flatMap TriangleIndex.indices)[k]? with
  | some s =>
    obtain ⟨mesh, slot, hm, hi, hv⟩ := resolvedAt_eq P T N groups m h hcount g k grp s hg hs
    simp [resolvedAt, hm, hi, hv]
  | none =>
    obtain ⟨_, hidx⟩ := buildModel_shape P T N groups m h
    have h1 := congrArg (fun l => l[g]?) hidx
    simp only [List.getElem?_map, hg, Option.map_some'] at h1
    cases hm : m.meshes[g]? with
    | none => simp [resolvedAt, hm]
    | some mesh =>
      simp only [hm, Option.map_some', Option.some.injEq] at h1
      simp [resolvedAt, hm, h1, hs]

theorem buildModel_isSome_iff (groups : List (Str × List TriangleIndex)) :
    (buildModel P T N groups).isSome = true ↔
      ∀ s ∈ refsOf groups, (makeVertex P T N s).isSome = true := by
  constructor
  · intro h s hs
    cases hv : makeVertex P T N s with
    | some v => rfl
    | none =>
      rw [buildModel_fails P T N groups s hs hv] at h
      cases h
  · exact buildModel_complete P T N groups

end Independence

/-! ## The main loop after the first mesh -/

section MeshPhase

variable {F : Type} (env : Env F) (matDir texDir : Str)

theorem faceLoopAux_exit (fuel : Nat) (r : List Char) (tris : List TriangleIndex)
    (hfuel : r.length < fuel) (h : (faceLoopAux fuel r tris).2.1 = false) :
    (faceLoopAux fuel r tris).2.2 = [] := by
  induction fuel generalizing r tris with
  | zero => omega
  | succ fuel ih =>
    unfold faceLoopAux at h ⊢
    cases ht : readToken r with
    | none => simp
    | some p =>
      obtain ⟨input, r1⟩ := p
      have h1 := readToken_lt r r1 input ht
      simp only [ht] at h ⊢
      split
      · rename_i hu
        simp [hu] at h
      · rename_i hu
        simp only [hu, Bool.false_eq_true, if_false] at h
        split
        · rename_i hf
          simp only [hf, if_true] at h
          have a1 := readInto_le [] r1
          have a2 := readInto_le [] (readInto [] r1).2
          have a3 := readInto_le [] (readInto [] (readInto [] r1).2).2
          exact ih _ _ (by omega) h
        · rename_i hf
          simp only [hf, if_false] at h
          exact ih _ _ (by omega) h

theorem faceLoop_exit (r : List Char) (h : (faceLoop r).2.1 = false) : (faceLoop r).2.2 = [] :=
  faceLoopAux_exit _ r [] (Nat.lt_succ_self _) h

theorem faceLoopAux_fuel (fuel fuel2 : Nat) (r : List Char) (tris : List TriangleIndex)
    (h1 : r.length < fuel) (h2 : r.length < fuel2) :
    faceLoopAux fuel r tris = faceLoopAux fuel2 r tris := by
  induction fuel generalizing fuel2 r tris with
  | zero => omega
  | succ fuel ih =>
    cases fuel2 with
    | zero => omega
    | succ fuel2 =>
      unfold faceLoopAux
      cases ht : readToken r with
      | none => rfl
      | some p =>
        obtain ⟨input, r1⟩ := p
        have hlt := readToken_lt r r1 input ht
        simp only []
        split
        · rfl
        · split
          · have a1 := readInto_le [] r1
            have a2 := readInto_le [] (readInto [] r1).2
            have a3 := readInto_le [] (readInto [] (readInto [] r1).2).2
            exact ih fuel2 _ _ (by omega) (by omega)
          · exact ih fuel2 _ _ (by omega) (by omega)

theorem scanStep_end (nm : Bool) (r : List Char) (d : ObjData F) (h : readToken r = none) :
    scanStep env matDir texDir nm r d = .stop (.finished d) := by
  unfold scanStep
  rw [h]

theorem scanStep_newMesh (r r1 : List Char) (input : Str) (d : ObjData F)
    (h : readToken r = some (input, r1)) :
    scanStep env matDir texDir true r d
      = .next (faceLoop r1).2.1 (faceLoop r1).2.2
          { d with meshIndices := insert d.meshIndices input (faceLoop r1).1 } := by
  unfold scanStep
  rw [h]
  rfl

theorem scanStep_usemtl (r r1 : List Char) (input : Str) (d : ObjData F)
    (h : readToken r = some (input, r1)) (hskip : isSkipTag input = false)
    (hlib : contains input kwMtllib = false) (huse : contains input kwUsemtl = true) :
    scanStep env matDir texDir false r d
      = .next (faceLoop (readInto [] r1).2).2.1 (faceLoop (readInto [] r1).2).2.2
          { d with meshIndices :=
              insert d.meshIndices (readInto [] r1).1 (faceLoop (readInto [] r1).2).1 } := by
  unfold scanStep
  rw [h]
  simp only [Bool.false_eq_true, if_false, hskip, hlib, huse, if_true]

theorem scanStep_stop_finished (nm : Bool) (r : List Char) (d d1 : ObjData F)
    (h : scanStep env matDir texDir nm r d = .stop (.finished d1)) : d1 = d := by
  unfold scanStep at h
  cases ht : readToken r with
  | none =>
    simp only [ht, Step.stop.injEq, ScanResult.finished.injEq] at h
    exact h.symm
  | some p =>
    obtain ⟨input, r2⟩ := p
    simp only [ht] at h
    repeat' split at h
    all_goals cases h

theorem scanStep_name (nm nm1 : Bool) (r r1 : List Char) (d d1 : ObjData F)
    (h : scanStep env matDir texDir nm r d = .next nm1 r1 d1) :
    (∀ n, stepName nm r = some n →
      (nm1 = true ∨ r1 = []) ∧ ∃ faces, d1 = { d with meshIndices := insert d.meshIndices n faces }) ∧
    (stepName nm r = none → nm1 = false ∧ d1.meshIndices = d.meshIndices) := by
  cases ht : readToken r with
  | none =>
    rw [scanStep_end env matDir texDir nm r d ht] at h
    cases h
  | some p =>
    obtain ⟨input, r2⟩ := p
    have hexit : ∀ q : List Char, (faceLoop q).2.1 = true ∨ (faceLoop q).2.2 = [] := by
      intro q
      cases hb : (faceLoop q).2.1 with
      | true => exact Or.inl rfl
      | false => exact Or.inr (faceLoop_exit q hb)
    cases nm with
    | true =>
      rw [scanStep_newMesh env matDir texDir r r2 input d ht] at h
      simp only [Step.next.injEq] at h
      obtain ⟨rfl, rfl, rfl⟩ := h
      simp only [stepName, ht, if_true, Option.some.injEq]
      refine ⟨?_, fun hn => by cases hn⟩
      rintro n rfl
      exact ⟨hexit r2, _, rfl⟩
    | false =>
      by_cases hskip : isSkipTag input = true
      · simp only [stepName, ht, Bool.false_eq_true, if_false, hskip, if_true]
        unfold scanStep at h
        simp only [ht, Bool.false_eq_true, if_false, hskip, if_true, Step.next.injEq] at h
        obtain ⟨rfl, rfl, rfl⟩ := h
        exact ⟨fun n hn => (by cases hn), fun _ => ⟨rfl, rfl⟩⟩
      · by_cases hlib : contains input kwMtllib = true
        · simp only [stepName, ht, Bool.false_eq_true, if_false, hskip, hlib, if_true]
          unfold scanStep at h
          simp only [ht, Bool.false_eq_true, if_false, hskip, hlib, if_true] at h
          refine ⟨fun n hn => (by cases hn), fun _ => ?_⟩
          split at h
          · cases h
          · simp only [Step.next.injEq] at h
            obtain ⟨rfl, rfl, rfl⟩ := h
            exact ⟨rfl, rfl⟩
        · by_cases huse : contains input kwUsemtl = true
          · simp only [Bool.not_eq_true] at hskip hlib
            rw [scanStep_usemtl env matDir texDir r r2 input d ht hskip hlib huse] at h
            simp only [Step.next.injEq] at h
            obtain ⟨rfl, rfl, rfl⟩ := h
            simp only [stepName, ht, Bool.false_eq_true, if_false, hskip, hlib, huse, if_true,
              Option.some.injEq]
            refine ⟨?_, fun hn => by cases hn⟩
            rintro n rfl
            exact ⟨hexit _, _, rfl⟩
          · simp only [stepName, ht, Bool.false_eq_true, if_false, hskip, hlib, huse]
            unfold scanStep at h
            simp only [ht, Bool.false_eq_true, if_false, hskip, hlib, huse] at h
            refine ⟨fun n hn => (by cases hn), fun _ => ?_⟩
            repeat' split at h
            all_goals first
              | (simp only [Step.next.injEq] at h
                 obtain ⟨rfl, rfl, rfl⟩ := h
                 exact ⟨rfl, rfl⟩)
              | cases h

/-- Once `newMesh` is set or the stream has ended, the scan ends at the end
of the input and only `meshIndices` changes. -/
theorem scanObjAux_meshPhase (fuel : Nat) (nm : Bool) (r : List Char) (d : ObjData F)
    (h : nm = true ∨ r = []) :
    ∃ M, scanObjAux env matDir texDir fuel nm r d = .finished { d with meshIndices := M } := by
  induction fuel generalizing nm r d with
  | zero => exact ⟨d.meshIndices, rfl⟩
  | succ fuel ih =>
    simp only [scanObjAux]
    cases ht : readToken r with
    | none =>
      rw [scanStep_end env matDir texDir nm r d ht]
      exact ⟨d.meshIndices, rfl⟩
    | some p =>
      obtain ⟨input, r1⟩ := p
      have hnm : nm = true := by
        rcases h with h | h
        · exact h
        · subst h
          simp [readToken] at ht
      subst hnm
      rw [scanStep_newMesh env matDir texDir r r1 input d ht]
      simp only []
      have hexit : (faceLoop r1).2.1 = true ∨ (faceLoop r1).2.2 = [] := by
        cases hb : (faceLoop r1).2.1 with
        | true => exact Or.inl rfl
        | false => exact Or.inr (faceLoop_exit r1 hb)
      obtain ⟨M, hM⟩ := ih (faceLoop r1).2.1 (faceLoop r1).2.2
        { d with meshIndices := insert d.meshIndices input (faceLoop r1).1 } hexit
      exact ⟨M, hM⟩

theorem insert_keys {V : Type} (m : List (Str × V)) (key : Str) (v : V) :
    (insert m key v).map Prod.fst = distinctFrom (m.map Prod.fst) [key] := by
  unfold insert
  cases hf : find key m with
  | none =>
    have := (find_none_iff key m).1 hf
    simp [distinctFrom, this]
  | some x =>
    have hmem : key ∈ m.map Prod.fst := List.mem_map.2 ⟨(key, x), find_some_mem key m x hf, rfl⟩
    simp [distinctFrom, hmem]

theorem namesRead_keys (fuel : Nat) (nm : Bool) (r : List Char) (d d1 : ObjData F)
    (h : scanObjAux env matDir texDir fuel nm r d = .finished d1) :
    d1.meshIndices.map Prod.fst
      = distinctFrom (d.meshIndices.map Prod.fst) (namesRead env matDir texDir fuel nm r d) := by
  induction fuel generalizing nm r d with
  | zero =>
    simp only [scanObjAux, ScanResult.finished.injEq] at h
    subst h
    rfl
  | succ fuel ih =>
    simp only [scanObjAux, namesRead] at h ⊢
    cases hs : scanStep env matDir texDir nm r d with
    | stop res =>
      simp only [hs] at h
      subst h
      rw [scanStep_stop_finished env matDir texDir nm r d d1 hs]
      rfl
    | next nm1 r1 d2 =>
      simp only [hs] at h ⊢
      rw [ih nm1 r1 d2 h, distinctFrom_append]
      obtain ⟨hsome, hnone⟩ := scanStep_name env matDir texDir nm nm1 r r1 d d2 hs
      cases hn : stepName nm r with
      | none =>
        rw [(hnone hn).2]
        rfl
      | some n =>
        obtain ⟨_, faces, rfl⟩ := hsome n hn
        simp only [Option.toList, insert_keys]

theorem namesRead_aborted (fuel : Nat) (nm : Bool) (r : List Char) (d : ObjData F)
    (h : scanObjAux env matDir texDir fuel nm r d = .aborted) :
    namesRead env matDir texDir fuel nm r d = [] := by
  induction fuel generalizing nm r d with
  | zero => rfl
  | succ fuel ih =>
    simp only [scanObjAux, namesRead] at h ⊢
    cases hs : scanStep env matDir texDir nm r d with
    | stop res => rfl
    | next nm1 r1 d2 =>
      simp only [hs] at h ⊢
      rw [ih nm1 r1 d2 h, List.append_nil]
      obtain ⟨hsome, _⟩ := scanStep_name env matDir texDir nm nm1 r r1 d d2 hs
      cases hn : stepName nm r with
      | none => rfl
      | some n =>
        obtain ⟨hphase, _⟩ := hsome n hn
        obtain ⟨M, hM⟩ := scanObjAux_meshPhase env matDir texDir fuel nm1 r1 d2 hphase
        rw [hM] at h
        cases h

end MeshPhase

/-! ## Two runs that differ in their material files -/

section Materials

variable {F : Type} (env1 env2 : Env F) (matDir texDir1 texDir2 : Str)

theorem scanStep_geometry (hreader : env1.reader = env2.reader)
    (hopen : ∀ p, (env1.files p).isSome = (env2.files p).isSome)
    (nm : Bool) (r : List Char) (d1 d2 : ObjData F) (hd : d1.geometry = d2.geometry) :
    (scanStep env1 matDir texDir1 nm r d1).geometry
      = (scanStep env2 matDir texDir2 nm r d2).geometry := by
  obtain ⟨P1, N1, T1, M1, I1⟩ := d1
  obtain ⟨P2, N2, T2, M2, I2⟩ := d2
  simp only [ObjData.geometry, ObjData.mk.injEq, and_true] at hd
  obtain ⟨rfl, rfl, rfl, _, rfl⟩ := hd
  unfold scanStep
  rw [← hreader]
  cases ht : readToken r with
  | none => rfl
  | some p =>
    obtain ⟨input, r1⟩ := p
    simp only []
    cases nm with
    | true => rfl
    | false =>
      simp only [Bool.false_eq_true, if_false]
      by_cases hskip : isSkipTag input = true
      · simp only [hskip, if_true]
        rfl
      · simp only [hskip, if_false]
        by_cases hlib : contains input kwMtllib = true
        · simp only [hlib, if_true]
          have ho := hopen (matDir ++ (readInto [] r1).1)
          cases h1 : env1.files (matDir ++ (readInto [] r1).1) with
          | none =>
            cases h2 : env2.files (matDir ++ (readInto [] r1).1) with
            | none => rfl
            | some b => simp [h1, h2] at ho
          | some a =>
            cases h2 : env2.files (matDir ++ (readInto [] r1).1) with
            | none => simp [h1, h2] at ho
            | some b => rfl
        · simp only [hlib, if_false]
          by_cases huse : contains input kwUsemtl = true
          · simp only [huse, if_true]
            rfl
          · simp only [huse, if_false]
            by_cases hvt : contains input ['v', 't'] = true
            · simp only [hvt, if_true]
              cases (readFloat env1.reader r1).1 <;>
                cases (readFloat env1.reader (readFloat env1.reader r1).2).1 <;> rfl
            · simp only [hvt, if_false]
              by_cases hvn : contains input ['v', 'n'] = true
              · simp only [hvn, if_true]
                cases (readFloat env1.reader r1).1 <;>
                  cases (readFloat env1.reader (readFloat env1.reader r1).2).1 <;>
                  cases (readFloat env1.reader
                    (readFloat env1.reader (readFloat env1.reader r1).2).2).1 <;> rfl
              · simp only [hvn, if_false]
                by_cases hv : contains input ['v'] = true
                · simp only [hv, if_true]
                  cases (readFloat env1.reader r1).1 <;>
                    cases (readFloat env1.reader (readFloat env1.reader r1).2).1 <;>
                    cases (readFloat env1.reader
                      (readFloat env1.reader (readFloat env1.reader r1).2).2).1 <;> rfl
                · simp only [hv, if_false]
                  rfl

theorem scanObjAux_geometry (hreader : env1.reader = env2.reader)
    (hopen : ∀ p, (env1.files p).isSome = (env2.files p).isSome)
    (fuel : Nat) (nm : Bool) (r : List Char) (d1 d2 : ObjData F)
    (hd : d1.geometry = d2.geometry) :
    (scanObjAux env1 matDir texDir1 fuel nm r d1).geometry
      = (scanObjAux env2 matDir texDir2 fuel nm r d2).geometry := by
  induction fuel generalizing nm r d1 d2 with
  | zero =>
    simp only [scanObjAux, ScanResult.geometry, hd]
  | succ fuel ih =>
    have hstep := scanStep_geometry env1 env2 matDir texDir1 texDir2 hreader hopen nm r d1 d2 hd
    simp only [scanObjAux]
    cases h1 : scanStep env1 matDir texDir1 nm r d1 with
    | stop res1 =>
      cases h2 : scanStep env2 matDir texDir2 nm r d2 with
      | stop res2 =>
        simp only [h1, h2, Step.geometry, Step.stop.injEq] at hstep
        exact hstep
      | next n2 r2 b => simp [h1, h2, Step.geometry] at hstep
    | next n1 r1 a =>
      cases h2 : scanStep env2 matDir texDir2 nm r d2 with
      | stop res2 => simp [h1, h2, Step.geometry] at hstep
      | next n2 r2 b =>
        simp only [h1, h2, Step.geometry, Step.next.injEq] at hstep
        obtain ⟨rfl, rfl, hab⟩ := hstep
        exact ih n1 r1 a b hab

end Materials

/-! ## Tokens passed over by the face loops -/

section FaceLoop

theorem faceLoop_skip (ws tok rest : List Char) (hws : isBlank ws = true)
    (htok : isToken tok = true) (hrest : endsToken rest = true) (hf : tok ≠ ['f'])
    (huse : contains tok kwUsemtl = false) :
    faceLoop (ws ++ (tok ++ rest)) = faceLoop rest := by
  unfold faceLoop
  rw [faceLoopAux]
  simp only [readToken_append ws tok rest hws htok hrest, huse, Bool.false_eq_true, if_false, hf]
  apply faceLoopAux_fuel
  · have hne : tok ≠ [] := by
      intro h
      rw [h] at htok
      cases htok
    have : 0 < tok.length := List.length_pos.2 hne
    simp only [List.length_append]
    omega
  · exact Nat.lt_succ_self _

end FaceLoop

/-! ## Face records outside a mesh -/

section Inert

variable {F : Type} (env : Env F) (matDir texDir : Str)

theorem contains_of_head_not_mem (p : Char) (ps s : List Char) (h : p ∉ s) :
    contains s (p :: ps) = false := by
  induction s with
  | nil => rfl
  | cons c s ih =>
    have hne : p ≠ c := fun e => h (e ▸ List.mem_cons_self _ _)
    have hs : p ∉ s := fun e => h (List.mem_cons_of_mem _ e)
    simp [contains, List.isPrefixOf, hne, ih hs]

theorem isIndexString_chars (tok : Str) (h : isIndexString tok = true) (c : Char)
    (hc : c ∈ tok) : isdigit c = true ∨ c = '/' ∨ c = '-' := by
  simp only [isIndexString, Bool.and_eq_true, List.all_eq_true, Bool.or_eq_true, beq_iff_eq]
    at h
  rcases h.2 c hc with (h1 | h1) | h1
  · exact Or.inl h1
  · exact Or.inr (Or.inl h1)
  · exact Or.inr (Or.inr h1)

theorem isIndexString_not_mem (tok : Str) (h : isIndexString tok = true) (p : Char)
    (hd : isdigit p = false) (hs : p ≠ '/') (hm : p ≠ '-') : p ∉ tok := by
  intro hp
  rcases isIndexString_chars tok h p hp with h1 | h1 | h1
  · rw [h1] at hd
    cases hd
  · exact hs h1
  · exact hm h1

theorem isIndexString_isToken (tok : Str) (h : isIndexString tok = true) :
    isToken tok = true := by
  have hne : tok.isEmpty = false := by
    simp only [isIndexString, Bool.and_eq_true, Bool.not_eq_true'] at h
    exact h.1
  simp only [isToken, hne, Bool.not_false, Bool.true_and, List.all_eq_true, Bool.not_eq_true']
  intro c hc
  rcases isIndexString_chars tok h c hc with h1 | h1 | h1
  · exact isdigit_not_space c h1
  · subst h1
    decide
  · subst h1
    decide

theorem isIndexString_no_tag (tok : Str) (h : isIndexString tok = true) :
    isSkipTag tok = false := by
  cases hs : isSkipTag tok with
  | false => rfl
  | true =>
    simp only [isSkipTag, Bool.or_eq_true, decide_eq_true_eq] at hs
    rcases hs with ((rfl | rfl) | rfl) | rfl <;> exact absurd h (by decide)

/-- Outside a mesh, a token that is no skip tag and contains none of
`mtllib`, `usemtl` and `v` is passed over. -/
theorem scanStep_other (r r1 : List Char) (input : Str) (d : ObjData F)
    (h : readToken r = some (input, r1)) (hskip : isSkipTag input = false)
    (hlib : contains input kwMtllib = false) (huse : contains input kwUsemtl = false)
    (hvt : contains input ['v', 't'] = false) (hvn : contains input ['v', 'n'] = false)
    (hv : contains input ['v'] = false) :
    scanStep env matDir texDir false r d = .next false r1 d := by
  unfold scanStep
  rw [h]
  simp only [Bool.false_eq_true, if_false, hskip, hlib, huse, hvt, hvn, hv]

theorem scanFrom_indexString (ws tok rest : List Char) (d : ObjData F)
    (hws : isBlank ws = true) (htok : isIndexString tok = true)
    (hrest : endsToken rest = true) :
    scanFrom env matDir texDir false (ws ++ (tok ++ rest)) d
      = scanFrom env matDir texDir false rest d := by
  rw [scanFrom_eq, scanStep_other env matDir texDir _ rest tok d
    (readToken_append ws tok rest hws (isIndexString_isToken tok htok) hrest)
    (isIndexString_no_tag tok htok)
    (contains_of_head_not_mem 'm' _ tok
      (isIndexString_not_mem tok htok 'm' (by decide) (by decide) (by decide)))
    (contains_of_head_not_mem 'u' _ tok
      (isIndexString_not_mem tok htok 'u' (by decide) (by decide) (by decide)))
    (contains_of_head_not_mem 'v' _ tok
      (isIndexString_not_mem tok htok 'v' (by decide) (by decide) (by decide)))
    (contains_of_head_not_mem 'v' _ tok
      (isIndexString_not_mem tok htok 'v' (by decide) (by decide) (by decide)))
    (contains_of_head_not_mem 'v' _ tok
      (isIndexString_not_mem tok htok 'v' (by decide) (by decide) (by decide)))]

theorem scanFrom_f (ws rest : List Char) (d : ObjData F)
    (hws : isBlank ws = true) (hrest : endsToken rest = true) :
    scanFrom env matDir texDir false (ws ++ ('f' :: rest)) d
      = scanFrom env matDir texDir false rest d := by
  show scanFrom env matDir texDir false (ws ++ (['f'] ++ rest)) d = _
  rw [scanFrom_eq, scanStep_other env matDir texDir _ rest ['f'] d
    (readToken_append ws ['f'] rest hws (by decide) hrest)
    (by decide) (by decide) (by decide) (by decide) (by decide) (by decide)]

/-- Outside a mesh, a face record is passed over: the scan continues behind
it with the containers unchanged. -/
theorem scanFrom_faceRecord (ws0 ws1 ws2 ws3 i0 i1 i2 rest : List Char) (d : ObjData F)
    (h0 : isBlank ws0 = true) (h1 : isBlank ws1 = true) (h2 : isBlank ws2 = true)
    (h3 : isBlank ws3 = true) (n1 : ws1 ≠ []) (n2 : ws2 ≠ []) (n3 : ws3 ≠ [])
    (hi0 : isIndexString i0 = true) (hi1 : isIndexString i1 = true)
    (hi2 : isIndexString i2 = true) (hrest : endsToken rest = true) :
    scanFrom env matDir texDir false
        (ws0 ++ ('f' :: (ws1 ++ (i0 ++ (ws2 ++ (i1 ++ (ws3 ++ (i2 ++ rest)))))))) d
      = scanFrom env matDir texDir false rest d := by
  rw [scanFrom_f env matDir texDir ws0 _ d h0 (endsToken_blank ws1 _ h1 n1),
    scanFrom_indexString env matDir texDir ws1 i0 _ d h1 hi0 (endsToken_blank ws2 _ h2 n2),
    scanFrom_indexString env matDir texDir ws2 i1 _ d h2 hi1 (endsToken_blank ws3 _ h3 n3),
    scanFrom_indexString env matDir texDir ws3 i2 _ d h3 hi2 hrest]

end Inert

/-! ## Geometry files without `usemtl` -/

section NoUsemtl

variable {F : Type} (env : Env F) (matDir texDir : Str)

theorem contains_iff (s pat : Str) : contains s pat = true ↔ pat <:+: s := by
  induction s with
  | nil =>
    simp only [contains, List.isEmpty_iff, List.infix_nil]
  | cons c s ih =>
    simp only [contains, Bool.or_eq_true, List.isPrefixOf_iff_prefix, ih, List.infix_cons_iff]

theorem contains_false_of_piece (r r1 pat : Str) (h : contains r pat = false)
    (hsub : r1 <:+: r) : contains r1 pat = false := by
  cases h1 : contains r1 pat with
  | false => rfl
  | true =>
    have := (contains_iff r pat).2 (List.IsInfix.trans ((contains_iff r1 pat).1 h1) hsub)
    rw [h] at this
    cases this

theorem readToken_piece (r r1 : List Char) (t : Str) (h : readToken r = some (t, r1)) :
    t <:+: r ∧ r1 <:+ r := by
  unfold readToken at h
  split at h
  · cases h
  · rename_i c cs hd
    simp only [Option.some.injEq, Prod.mk.injEq] at h
    have hsuf : (c :: cs) <:+ r := hd ▸ List.dropWhile_suffix isspace
    constructor
    · rw [← h.1]
      exact List.IsInfix.trans (List.takeWhile_prefix _).isInfix hsuf.isInfix
    · rw [← h.2]
      exact List.IsSuffix.trans (List.dropWhile_suffix _) hsuf

theorem readInto_suffix (old : Str) (r : List Char) : (readInto old r).2 <:+ r := by
  unfold readInto
  cases h : readToken r with
  | none => exact List.nil_suffix
  | some p =>
    obtain ⟨t, r1⟩ := p
    exact (readToken_piece r r1 t h).2

theorem ignoreN_suffix (n : Nat) (r : List Char) : ignoreN n r <:+ r := by
  induction r generalizing n with
  | nil => cases n <;> exact List.suffix_refl _
  | cons c r ih =>
    cases n with
    | zero => exact List.suffix_refl _
    | succ n =>
      simp only [ignoreN]
      split
      · exact List.suffix_cons _ _
      · exact List.IsSuffix.trans (ih n) (List.suffix_cons _ _)

theorem readFloat_suffix (rd : FloatReader F) (r : List Char) : (readFloat rd r).2 <:+ r := by
  unfold readFloat
  split
  · exact List.nil_suffix
  · rename_i c cs hd
    have hsuf : (c :: cs) <:+ r := hd ▸ List.dropWhile_suffix isspace
    split
    · exact List.IsSuffix.trans (List.drop_suffix _ _) hsuf
    · exact List.nil_suffix

/-- A pass over a stream that does not contain `usemtl` sets no `newMesh`,
inserts no mesh and leaves a stream that does not contain `usemtl`. -/
theorem scanStep_noUsemtl (r r1 : List Char) (nm1 : Bool) (d d1 : ObjData F)
    (hno : contains r kwUsemtl = false)
    (h : scanStep env matDir texDir false r d = .next nm1 r1 d1) :
    nm1 = false ∧ d1.meshIndices = d.meshIndices ∧ contains r1 kwUsemtl = false := by
  cases ht : readToken r with
  | none =>
    rw [scanStep_end env matDir texDir false r d ht] at h
    cases h
  | some p =>
    obtain ⟨input, r2⟩ := p
    obtain ⟨hin, hsuf⟩ := readToken_piece r r2 input ht
    have huse : contains input kwUsemtl = false := contains_false_of_piece r input _ hno hin
    have hname : stepName false r = none := by
      simp only [stepName, ht, Bool.false_eq_true, if_false, huse]
      split_ifs <;> rfl
    obtain ⟨_, hnone⟩ := scanStep_name env matDir texDir false nm1 r r1 d d1 h
    refine ⟨(hnone hname).1, (hnone hname).2, ?_⟩
    have key : r1 <:+ r2 := by
      have s1 := ignoreN_suffix 256 r2
      have s2 := readInto_suffix [] r2
      have x1 := readFloat_suffix env.reader r2
      have x2 := readFloat_suffix env.reader (readFloat env.reader r2).2
      have x3 := readFloat_suffix env.reader (readFloat env.reader (readFloat env.reader r2).2).2
      unfold scanStep at h
      simp only [ht, Bool.false_eq_true, if_false, huse] at h
      repeat' split at h
      all_goals first
        | (simp only [Step.next.injEq] at h
           obtain ⟨_, rfl, _⟩ := h
           first
             | exact s1
             | exact s2
             | exact List.IsSuffix.trans x2 x1
             | exact List.IsSuffix.trans x3 (List.IsSuffix.trans x2 x1)
             | exact List.suffix_refl _)
        | cases h
    exact contains_false_of_piece r r1 _ hno (List.IsSuffix.trans key hsuf).isInfix

theorem scanObjAux_noUsemtl (fuel : Nat) (r : List Char) (d d1 : ObjData F)
    (hno : contains r kwUsemtl = false)
    (h : scanObjAux env matDir texDir fuel false r d = .finished d1) :
    d1.meshIndices = d.meshIndices := by
  induction fuel generalizing r d with
  | zero =>
    simp only [scanObjAux, ScanResult.finished.injEq] at h
    rw [h]
  | succ fuel ih =>
    simp only [scanObjAux] at h
    cases hs : scanStep env matDir texDir false r d with
    | stop res =>
      simp only [hs] at h
      subst h
      rw [scanStep_stop_finished env matDir texDir false r d d1 hs]
    | next nm1 r1 d2 =>
      simp only [hs] at h
      obtain ⟨rfl, hM, hno1⟩ := scanStep_noUsemtl env matDir texDir r r1 nm1 d d2 hno hs
      rw [ih r1 d2 hno1 h, hM]

theorem isPrefixOf_token (pat tok rest : List Char) (hpat : ∀ c ∈ pat, isspace c = false)
    (hrest : endsToken rest = true) :
    pat.isPrefixOf (tok ++ rest) = pat.isPrefixOf tok := by
  induction tok generalizing pat with
  | nil =>
    cases pat with
    | nil => simp
    | cons p ps =>
      cases rest with
      | nil => rfl
      | cons s rest =>
        have hp := hpat p (List.mem_cons_self _ _)
        have hs : isspace s = true := hrest
        have hne : p ≠ s := by
          rintro rfl
          rw [hp] at hs
          cases hs
        simp [List.isPrefixOf, hne]
  | cons c t ih =>
    cases pat with
    | nil => simp
    | cons p ps =>
      have := ih ps (fun a ha => hpat a (List.mem_cons_of_mem _ ha))
      show (p == c && ps.isPrefixOf (t ++ rest)) = (p == c && ps.isPrefixOf t)
      rw [this]

theorem contains_token_append (pat tok rest : List Char) (hne : pat ≠ [])
    (hpat : ∀ c ∈ pat, isspace c = false) (hrest : endsToken rest = true) :
    contains (tok ++ rest) pat = (contains tok pat || contains rest pat) := by
  have hempty : pat.isEmpty = false := by
    cases pat with
    | nil => exact absurd rfl hne
    | cons p ps => rfl
  induction tok with
  | nil =>
    simp [contains, hempty]
  | cons c t ih =>
    have h1 : pat.isPrefixOf (c :: (t ++ rest)) = pat.isPrefixOf (c :: t) :=
      isPrefixOf_token pat (c :: t) rest hpat hrest
    show (pat.isPrefixOf (c :: (t ++ rest)) || contains (t ++ rest) pat)
      = ((pat.isPrefixOf (c :: t) || contains t pat) || contains rest pat)
    rw [h1, ih, Bool.or_assoc]

theorem contains_blank_append (pat ws r : List Char) (hne : pat ≠ [])
    (hpat : ∀ c ∈ pat, isspace c = false) (hws : isBlank ws = true) :
    contains (ws ++ r) pat = contains r pat := by
  induction ws with
  | nil => rfl
  | cons c ws ih =>
    simp only [isBlank, List.all_cons, Bool.and_eq_true] at hws
    cases pat with
    | nil => exact absurd rfl hne
    | cons p ps =>
      have hp := hpat p (List.mem_cons_self _ _)
      have hne2 : p ≠ c := by
        rintro rfl
        rw [hp] at hws
        cases hws.1
      have := ih hws.2
      show ((p == c && ps.isPrefixOf (ws ++ r)) || contains (ws ++ r) (p :: ps))
        = contains r (p :: ps)
      rw [this]
      simp [hne2]

theorem contains_blank (pat ws : List Char) (hne : pat ≠ [])
    (hpat : ∀ c ∈ pat, isspace c = false) (hws : isBlank ws = true) :
    contains ws pat = false := by
  have := contains_blank_append pat ws [] hne hpat hws
  rw [List.append_nil] at this
  rw [this]
  cases pat with
  | nil => exact absurd rfl hne
  | cons p ps => rfl

theorem readToken_decomp (r r1 : List Char) (t : Str) (h : readToken r = some (t, r1)) :
    ∃ ws, isBlank ws = true ∧ r = ws ++ (t ++ r1) ∧ endsToken r1 = true := by
  unfold readToken at h
  split at h
  · cases h
  · rename_i c cs hd
    simp only [Option.some.injEq, Prod.mk.injEq] at h
    refine ⟨r.takeWhile isspace, ?_, ?_, ?_⟩
    · simp only [isBlank, List.all_eq_true]
      intro a ha
      exact (List.mem_takeWhile_imp ha)
    · rw [← h.1, ← h.2, List.takeWhile_append_dropWhile, ← hd, List.takeWhile_append_dropWhile]
    · rw [← h.2]
      cases hr : (c :: cs).dropWhile (fun a => !isspace a) with
      | nil => rfl
      | cons a l =>
        have := dropWhile_head_false (fun a => !isspace a) (c :: cs) a l hr
        simpa [endsToken] using this

theorem readToken_none_blank (r : List Char) (h : readToken r = none) : isBlank r = true := by
  unfold readToken at h
  split at h
  · rename_i hd
    simp only [isBlank, List.all_eq_true]
    intro a ha
    by_contra hc
    have : r.dropWhile isspace ≠ [] := by
      intro hnil
      rw [List.dropWhile_eq_nil_iff] at hnil
      exact hc (hnil a ha)
    exact this hd
  · cases h

/-- A stream that contains a pattern without whitespace has a token that
contains it. -/
theorem tokensAux_contains (pat : List Char) (hne : pat ≠ [])
    (hpat : ∀ c ∈ pat, isspace c = false) (fuel : Nat) (r : List Char)
    (hfuel : r.length < fuel) (h : contains r pat = true) :
    ∃ t ∈ tokensAux fuel r, contains t pat = true := by
  induction fuel generalizing r with
  | zero => omega
  | succ fuel ih =>
    cases ht : readToken r with
    | none =>
      rw [contains_blank pat r hne hpat (readToken_none_blank r ht)] at h
      cases h
    | some p =>
      obtain ⟨t, r1⟩ := p
      obtain ⟨ws, hws, hr, hends⟩ := readToken_decomp r r1 t ht
      have hlt := readToken_lt r r1 t ht
      rw [hr, contains_blank_append pat ws _ hne hpat hws,
        contains_token_append pat t r1 hne hpat hends, Bool.or_eq_true] at h
      simp only [tokensAux, ht]
      rcases h with h | h
      · exact ⟨t, List.mem_cons_self _ _, h⟩
      · obtain ⟨t2, ht2, hc⟩ := ih r1 (by omega) h
        exact ⟨t2, List.mem_cons_of_mem _ ht2, hc⟩

theorem contains_of_tokens (r : List Char)
    (h : ∀ tok ∈ tokensOf r, contains tok kwUsemtl = false) : contains r kwUsemtl = false := by
  cases hc : contains r kwUsemtl with
  | false => rfl
  | true =>
    obtain ⟨t, ht, hct⟩ := tokensAux_contains kwUsemtl (by decide) (by decide) (r.length + 1) r
      (Nat.lt_succ_self _) hc
    rw [h t ht] at hct
    cases hct

end NoUsemtl

/-! ## The material scan across blocks -/

section MaterialScan

variable (texDir materialName : Str)

theorem mtlInnerAux_le (fuel : Nat) (r : List Char) (materials : List (Str × Material)) :
    (mtlInnerAux texDir materialName fuel r materials).2.length ≤ r.length := by
  induction fuel generalizing r materials with
  | zero => simp [mtlInnerAux]
  | succ fuel ih =>
    unfold mtlInnerAux
    cases ht : readToken r with
    | none => simp
    | some p =>
      obtain ⟨input, r1⟩ := p
      have h1 := readToken_lt r r1 input ht
      simp only []
      split
      · exact le_trans (ih _ _) (Nat.le_of_lt h1)
      · split
        · have := readInto_le input r1
          exact le_trans this (Nat.le_of_lt h1)
        · exact le_trans (ih _ _) (le_trans (ignoreLine_le r1) (Nat.le_of_lt h1))

theorem mtlInner_le (r : List Char) (materials : List (Str × Material)) :
    (mtlInner texDir materialName r materials).2.length ≤ r.length :=
  mtlInnerAux_le texDir materialName _ r materials

theorem mtlInnerAux_fuel (fuel fuel2 : Nat) (r : List Char) (materials : List (Str × Material))
    (h1 : r.length < fuel) (h2 : r.length < fuel2) :
    mtlInnerAux texDir materialName fuel r materials
      = mtlInnerAux texDir materialName fuel2 r materials := by
  induction fuel generalizing fuel2 r materials with
  | zero => omega
  | succ fuel ih =>
    cases fuel2 with
    | zero => omega
    | succ fuel2 =>
      unfold mtlInnerAux
      cases ht : readToken r with
      | none => rfl
      | some p =>
        obtain ⟨input, r1⟩ := p
        have hlt := readToken_lt r r1 input ht
        have hig := ignoreLine_le r1
        simp only []
        split
        · exact ih fuel2 _ _ (by omega) (by omega)
        · split
          · rfl
          · exact ih fuel2 _ _ (by omega) (by omega)

theorem scanMtlAux_fuel (fuel fuel2 : Nat) (r : List Char) (materials : List (Str × Material))
    (h1 : r.length < fuel) (h2 : r.length < fuel2) :
    scanMtlAux texDir fuel r materials = scanMtlAux texDir fuel2 r materials := by
  induction fuel generalizing fuel2 r materials with
  | zero => omega
  | succ fuel ih =>
    cases fuel2 with
    | zero => omega
    | succ fuel2 =>
      unfold scanMtlAux
      cases ht : readToken r with
      | none => rfl
      | some p =>
        obtain ⟨input, r1⟩ := p
        have hlt := readToken_lt r r1 input ht
        have hig := ignoreLine_le r1
        have hin := readInto_le [] r1
        have hmi := mtlInner_le texDir (readInto [] r1).1 (readInto [] r1).2 materials
        simp only []
        split
        · exact ih fuel2 _ _ (by omega) (by omega)
        · exact ih fuel2 _ _ (by omega) (by omega)

theorem find_insert_other {V : Type} (m : List (Str × V)) (key other : Str) (v : V)
    (h : other ≠ key) : find other (insert m key v) = find other m := by
  unfold insert
  split
  · rfl
  · rw [find_append]
    cases find other m with
    | some x => rfl
    | none => simp [find, h.symm]

theorem find_insert_keep {V : Type} (m : List (Str × V)) (key name : Str) (v x : V)
    (h : find name m = some x) : find name (insert m key v) = some x := by
  unfold insert
  split
  · exact h
  · rw [find_append, h]
    rfl

theorem find_insert_self {V : Type} (m : List (Str × V)) (key : Str) (v : V) :
    find key (insert m key v) ≠ none := by
  cases hf : find key m with
  | some x =>
    rw [find_insert_keep m key key v x hf]
    simp
  | none =>
    rw [find_insert_new m key v hf]
    simp

/-- The inner loop either runs into the end of the input, with the map as it
was, or records a texture for the current name. -/
theorem mtlInnerAux_result (fuel : Nat) (r : List Char) (materials : List (Str × Material))
    (hfuel : r.length < fuel) :
    mtlInnerAux texDir materialName fuel r materials = (materials, []) ∨
      ∃ fn r2, mtlInnerAux texDir materialName fuel r materials
        = (insert materials materialName ⟨texDir ++ fn⟩, r2) := by
  induction fuel generalizing r with
  | zero => omega
  | succ fuel ih =>
    unfold mtlInnerAux
    cases ht : readToken r with
    | none => exact Or.inl rfl
    | some p =>
      obtain ⟨input, r1⟩ := p
      have hlt := readToken_lt r r1 input ht
      have hig := ignoreLine_le r1
      simp only []
      split
      · exact ih r1 (by omega)
      · split
        · exact Or.inr ⟨_, _, rfl⟩
        · exact ih _ (by omega)

theorem mtlInnerAux_keep (fuel : Nat) (r : List Char) (materials : List (Str × Material))
    (name : Str) (x : Material) (h : find name materials = some x) :
    find name (mtlInnerAux texDir materialName fuel r materials).1 = some x := by
  induction fuel generalizing r with
  | zero => exact h
  | succ fuel ih =>
    unfold mtlInnerAux
    cases ht : readToken r with
    | none => exact h
    | some p =>
      obtain ⟨input, r1⟩ := p
      simp only []
      split
      · exact ih r1
      · split
        · exact find_insert_keep _ _ _ _ _ h
        · exact ih _

theorem scanMtlAux_keep (fuel : Nat) (r : List Char) (materials : List (Str × Material))
    (name : Str) (x : Material) (h : find name materials = some x) :
    find name (scanMtlAux texDir fuel r materials) = some x := by
  induction fuel generalizing r materials with
  | zero => exact h
  | succ fuel ih =>
    unfold scanMtlAux
    cases ht : readToken r with
    | none => exact h
    | some p =>
      obtain ⟨input, r1⟩ := p
      simp only []
      split
      · exact ih _ _ h
      · exact ih _ _ (mtlInnerAux_keep texDir _ _ _ _ name x h)

theorem mtlInner_newmtl (ws tok rest : List Char) (materials : List (Str × Material))
    (hws : isBlank ws = true) (htok : isToken tok = true) (hrest : endsToken rest = true)
    (hnew : contains tok kwNewmtl = true) :
    mtlInner texDir materialName (ws ++ (tok ++ rest)) materials
      = mtlInner texDir materialName rest materials := by
  unfold mtlInner
  rw [mtlInnerAux]
  simp only [readToken_append ws tok rest hws htok hrest, hnew, if_true]
  apply mtlInnerAux_fuel
  · have hne : tok ≠ [] := by
      intro h
      rw [h] at htok
      cases htok
    have : 0 < tok.length := List.length_pos.2 hne
    simp only [List.length_append]
    omega
  · exact Nat.lt_succ_self _

theorem scanMtl_newmtl (ws tok sp name rest : List Char) (materials : List (Str × Material))
    (hws : isBlank ws = true) (htok : isToken tok = true) (hnew : contains tok kwNewmtl = true)
    (hsp : isBlank sp = true) (hsp2 : sp ≠ []) (hname : isToken name = true)
    (hrest : endsToken rest = true) :
    scanMtl texDir (ws ++ (tok ++ (sp ++ (name ++ rest)))) materials
      = scanMtl texDir (mtlInner texDir name rest materials).2
          (mtlInner texDir name rest materials).1 := by
  unfold scanMtl
  rw [scanMtlAux]
  simp only [readToken_append ws tok _ hws htok (endsToken_blank sp _ hsp hsp2), hnew,
    Bool.not_true, Bool.false_eq_true, if_false, readInto,
    readToken_append sp name rest hsp hname hrest]
  apply scanMtlAux_fuel
  · have hne : tok ≠ [] := by
      intro h
      rw [h] at htok
      cases htok
    have : 0 < tok.length := List.length_pos.2 hne
    have := mtlInner_le texDir name rest materials
    simp only [List.length_append]
    omega
  · exact Nat.lt_succ_self _

end MaterialScan

/-! ## The claims -/

/-- Claim C1.  Every index of every mesh of a model returned by `LoadModel`
lies strictly below the length of the vertex buffer of that mesh; and
`LoadModel` does return a model when the scan of the geometry file ends
regularly and every retained index string reads as three attributes lying
within the position, texture coordinate and normal sequences. -/
theorem indices_below_vertex_count {F : Type} (env : Env F) (modelFile matDir texDir : Str) :
    (∀ m, LoadModel env modelFile matDir texDir = some m → IndicesInRange m) ∧
    (∀ objFile d, env.files modelFile = some objFile →
      scanObj env matDir texDir objFile = .finished d →
      (∀ s ∈ refsOf d.meshIndices,
        inRangeRef d.VertexPositions d.TextureCoordinates d.Normals s = true) →
      ∃ m, LoadModel env modelFile matDir texDir = some m ∧ IndicesInRange m) := by
  have key : ∀ m, LoadModel env modelFile matDir texDir = some m → IndicesInRange m := by
    intro m h
    unfold LoadModel at h
    cases hf : env.files modelFile with
    | none =>
      simp only [hf, Option.some.injEq] at h
      subst h
      intro mesh hmesh
      cases hmesh
    | some objFile =>
      simp only [hf] at h
      cases hs : scanObj env matDir texDir objFile with
      | aborted =>
        simp only [hs, Option.some.injEq] at h
        subst h
        intro mesh hmesh
        cases hmesh
      | undefined => simp [hs] at h
      | finished d =>
        simp only [hs] at h
        exact buildModel_inRange _ _ _ _ m h
  refine ⟨key, ?_⟩
  intro objFile d hf hs hall
  have hsome : (LoadModel env modelFile matDir texDir).isSome = true := by
    unfold LoadModel
    simp only [hf, hs]
    apply buildModel_complete
    intro s hmem
    apply makeVertex_of_inRange
    exact hall s ((refsOf_perm _ _ (env.order_perm d.meshIndices)).mem_iff.1 hmem)
  obtain ⟨m, hm⟩ := Option.isSome_iff_exists.1 hsome
  exact ⟨m, hm, key m hm⟩

set_option maxRecDepth 100000 in
/-- Witness for claim C1, on the file `quadObj`: the model returned has its
indices in range, and the file meets the condition under which a model is
returned. -/
theorem indices_below_vertex_count_witness :
    (LoadModel (envWith quadObj) samplePath [] [] = some quadModel ∧
      IndicesInRange quadModel) ∧
    ∃ m, LoadModel (envWith quadObj) samplePath [] [] = some m ∧ IndicesInRange m :=
  ⟨⟨by decide,
    (indices_below_vertex_count (envWith quadObj) samplePath [] []).1 quadModel (by decide)⟩,
   (indices_below_vertex_count (envWith quadObj) samplePath [] []).2 quadObj
    ⟨[⟨0, 0, 0⟩, ⟨1, 0, 0⟩, ⟨1, 1, 0⟩, ⟨0, 1, 0⟩], [⟨0, 0, 1⟩], [⟨0, 0⟩], [],
      [(String.toList "mat", quadFaces)]⟩
    (by decide) (by decide) (by decide)⟩

/-- Claim C2, amended.  When the retained faces hold at most `2 ^ 32` different
index strings, the conversion phase gives one slot to each reference (three
per face, mesh by mesh, in the order of the faces), and two references, of
the same mesh or of different meshes, receive the same slot if and only if
their index strings are equal (whatever the vertices they resolve to). -/
theorem same_slot_iff_same_string {F : Type} (P : List (vec3 F)) (T : List (vec2 F))
    (N : List (vec3 F)) (groups : List (Str × List TriangleIndex)) (m : Model F)
    (h : buildModel P T N groups = some m)
    (hcount : (refsOf groups).dedup.length ≤ UINT) :
    m.meshes.map (fun mesh => mesh.m_Indices.length) = groups.map (fun g => 3 * g.2.length) ∧
      (slotsOf m).length = (refsOf groups).length ∧
      ∀ i j, i < (refsOf groups).length → j < (refsOf groups).length →
        ((slotsOf m)[i]? = (slotsOf m)[j]? ↔ (refsOf groups)[i]? = (refsOf groups)[j]?) := by
  obtain ⟨st, inv, hkeys, hmap, _, _⟩ := buildModel_spec P T N groups m h
  have hlen : (slotsOf m).length = (refsOf groups).length := by
    have := congrArg List.length hmap
    simpa using this.symm
  have hle : st.indices.length ≤ UINT := by
    have hsub : st.indices.map Prod.fst ⊆ (refsOf groups).dedup := by
      intro s hs
      obtain ⟨e, he, rfl⟩ := List.mem_map.1 hs
      exact List.mem_dedup.2 (hkeys e he)
    have := (List.subperm_of_subset inv.keys_nodup hsub).length_le
    rw [List.length_map] at this
    exact le_trans this hcount
  have hfind : ∀ i (hi : i < (refsOf groups).length),
      ∃ k, (slotsOf m)[i]? = some k ∧ ∃ s, (refsOf groups)[i]? = some s ∧
        find s st.indices = some k := by
    intro i hi
    have h1 := congrArg (fun l => l[i]?) hmap
    simp only [List.getElem?_map, List.getElem?_eq_getElem hi, Option.map_some'] at h1
    have hi2 : i < (slotsOf m).length := by rw [hlen]; exact hi
    rw [List.getElem?_eq_getElem hi2, Option.map_some', Option.some.injEq] at h1
    exact ⟨_, List.getElem?_eq_getElem hi2, _, List.getElem?_eq_getElem hi, h1⟩
  refine ⟨buildModel_lengths P T N groups m h, hlen, ?_⟩
  intro i j hi hj
  obtain ⟨k, hk, s, hs, hfs⟩ := hfind i hi
  obtain ⟨k2, hk2, s2, hs2, hfs2⟩ := hfind j hj
  rw [hk, hk2, hs, hs2]
  constructor
  · intro hkk
    simp only [Option.some.injEq] at hkk
    subst hkk
    rw [slot_inj P T N st inv hle s s2 k hfs hfs2]
  · intro hss
    simp only [Option.some.injEq] at hss
    subst hss
    rw [hfs] at hfs2
    exact hfs2

/-- Witness for claim C2 (amended): `dedupGroups` over two positions.  The
references number 0 and 4 carry the same string, in different meshes, and
share a slot; the references number 0 and 2 carry the strings `1/1/1` and
`01/1/1`, which resolve to equal vertices, and have different slots. -/
theorem same_slot_iff_same_string_witness :
    dedupModel.meshes.map (fun mesh => mesh.m_Indices.length)
        = dedupGroups.map (fun g => 3 * g.2.length) ∧
      (slotsOf dedupModel).length = (refsOf dedupGroups).length ∧
      ((slotsOf dedupModel)[0]? = (slotsOf dedupModel)[4]? ↔
        (refsOf dedupGroups)[0]? = (refsOf dedupGroups)[4]?) ∧
      ((slotsOf dedupModel)[0]? = (slotsOf dedupModel)[2]? ↔
        (refsOf dedupGroups)[0]? = (refsOf dedupGroups)[2]?) :=
  ⟨(same_slot_iff_same_string [⟨0, 0, 0⟩, ⟨1, 0, 0⟩] [⟨0, 0⟩] [⟨0, 0, 1⟩] dedupGroups dedupModel
      (by decide) (by decide)).1,
   (same_slot_iff_same_string [⟨0, 0, 0⟩, ⟨1, 0, 0⟩] [⟨0, 0⟩] [⟨0, 0, 1⟩] dedupGroups dedupModel
      (by decide) (by decide)).2.1,
   (same_slot_iff_same_string [⟨0, 0, 0⟩, ⟨1, 0, 0⟩] [⟨0, 0⟩] [⟨0, 0, 1⟩] dedupGroups dedupModel
      (by decide) (by decide)).2.2 0 4 (by decide) (by decide),
   (same_slot_iff_same_string [⟨0, 0, 0⟩, ⟨1, 0, 0⟩] [⟨0, 0⟩] [⟨0, 0, 1⟩] dedupGroups dedupModel
      (by decide) (by decide)).2.2 0 2 (by decide) (by decide)⟩

/-- Claim C2, as stated, fails when the retained faces hold more than `2 ^ 32`
different index strings.  For one position, one texture coordinate, one
normal and the faces `wrapFaces`, the references number `0` and `4294967296`
carry the different strings `wrapKey 0` and `wrapKey 4294967296` and both
receive slot `0`: the counter `vertexNum` is an `unsigned int`. -/
theorem slot_counter_wraps :
    (buildModel [(⟨0, 0, 0⟩ : vec3 Int)] [⟨0, 0⟩] [⟨0, 0, 1⟩] [(['m'], wrapFaces)]).map
        (fun m => ((slotsOf m)[0]?, (slotsOf m)[4294967296]?)) = some (some 0, some 0) ∧
      (refsOf [(['m'], wrapFaces)])[0]? = some (wrapKey 0) ∧
      (refsOf [(['m'], wrapFaces)])[4294967296]? = some (wrapKey 4294967296) ∧
      wrapKey 0 ≠ wrapKey 4294967296 := by
  have hrefs : refsOf [(['m'], wrapFaces)] = (List.range (3 * 1431655766)).map wrapKey :=
    refsOf_wrap ['m'] 1431655766
  have hslots := buildModel_slots_fresh [(⟨0, 0, 0⟩ : vec3 Int)] [⟨0, 0⟩] [⟨0, 0, 1⟩]
    [(['m'], wrapFaces)]
    (by
      rw [hrefs]
      exact List.Nodup.map wrapKey_injective (List.nodup_range _))
    (by
      intro s hs
      rw [hrefs] at hs
      obtain ⟨k, _, rfl⟩ := List.mem_map.1 hs
      rw [makeVertex_wrapKey]
      rfl)
  rw [hrefs, List.length_map, List.length_range] at hslots
  refine ⟨?_, ?_, ?_, ?_⟩
  · cases hb : buildModel [(⟨0, 0, 0⟩ : vec3 Int)] [⟨0, 0⟩] [⟨0, 0, 1⟩] [(['m'], wrapFaces)] with
    | none => simp [hb] at hslots
    | some m =>
      simp only [hb, Option.map_some', Option.some.injEq] at hslots ⊢
      rw [hslots, List.getElem?_map, List.getElem?_map,
        List.getElem?_range (by decide : 0 < 3 * 1431655766),
        List.getElem?_range (by decide : 4294967296 < 3 * 1431655766)]
      rfl
  · rw [hrefs, List.getElem?_map, List.getElem?_range (by decide : 0 < 3 * 1431655766)]
    rfl
  · rw [hrefs, List.getElem?_map,
      List.getElem?_range (by decide : 4294967296 < 3 * 1431655766)]
    rfl
  · intro h
    have := wrapKey_injective h
    exact absurd this (by decide)

/-- Claim C3.  When the scan of the geometry file yields four positions, one
texture coordinate, one normal and the single material group with the faces
`1/1/1 2/1/1 3/1/1` and `1/1/1 3/1/1 4/1/1`, `LoadModel` returns a model
with exactly one mesh, whose vertex buffer holds the four vertices of the
four positions, in this order, and whose indices are `[0,1,2,0,2,3]`. -/
theorem quad_round_trip {F : Type} (env : Env F) (modelFile matDir texDir objFile name : Str)
    (d : ObjData F) (p0 p1 p2 p3 n : vec3 F) (t : vec2 F)
    (hf : env.files modelFile = some objFile)
    (hs : scanObj env matDir texDir objFile = .finished d)
    (hP : d.VertexPositions = [p0, p1, p2, p3]) (hT : d.TextureCoordinates = [t])
    (hN : d.Normals = [n]) (hM : d.meshIndices = [(name, quadFaces)]) :
    LoadModel env modelFile matDir texDir =
      some ⟨[⟨[vertexOf p0 t n, vertexOf p1 t n, vertexOf p2 t n, vertexOf p3 t n],
              [0, 1, 2, 0, 2, 3]⟩]⟩ := by
  unfold LoadModel
  simp only [hf, hs, hP, hT, hN, hM]
  have ho : env.order [(name, quadFaces)] = [(name, quadFaces)] :=
    List.perm_singleton.1 (env.order_perm _)
  rw [ho]
  rfl

set_option maxRecDepth 100000 in
/-- Witness for claim C3: the file `quadObj`. -/
theorem quad_round_trip_witness :
    LoadModel (envWith quadObj) samplePath [] [] = some quadModel :=
  quad_round_trip (envWith quadObj) samplePath [] [] quadObj (String.toList "mat")
    ⟨[⟨0, 0, 0⟩, ⟨1, 0, 0⟩, ⟨1, 1, 0⟩, ⟨0, 1, 0⟩], [⟨0, 0, 1⟩], [⟨0, 0⟩], [],
      [(String.toList "mat", quadFaces)]⟩
    ⟨0, 0, 0⟩ ⟨1, 0, 0⟩ ⟨1, 1, 0⟩ ⟨0, 1, 0⟩ ⟨0, 0, 1⟩ ⟨0, 0⟩
    (by decide) (by decide) rfl rfl rfl rfl

set_option maxRecDepth 100000 in
/-- Claim C4, the code at the failing input `dupObj`.  After the scan the face
list of material `a` is the list of its first block (the face `1/1/1 1/1/1
1/1/1`), not that of its second block, and the mesh of `a` is built from the
first block. -/
theorem duplicate_usemtl_keeps_first_block :
    scanObj (envWith dupObj) [] [] dupObj =
      .finished ⟨[⟨0, 0, 0⟩, ⟨1, 0, 0⟩], [⟨0, 0, 1⟩], [⟨0, 0⟩], [],
        [(['a'], [⟨String.toList "1/1/1", String.toList "1/1/1", String.toList "1/1/1"⟩]),
         (['b'], [⟨String.toList "1/1/1", String.toList "2/1/1", String.toList "1/1/1"⟩])]⟩ ∧
    (LoadModel (envWith dupObj) samplePath [] []).map (fun m => m.meshes.map (fun x => x.m_Indices))
      = some [[0, 0, 0], [0, 1, 0]] := by
  decide

/-- Claim C5.  On a file-open failure (the geometry file cannot be opened, or
a `mtllib` directive reached by the main loop names a material file that
cannot be opened) `LoadModel` returns the model without meshes, whatever the
geometry file contains elsewhere; and this is also what it returns for a
geometry file that opens and defines no material group. -/
theorem open_failure_gives_empty_model {F : Type} (env env2 : Env F)
    (modelFile matDir texDir modelFile2 matDir2 texDir2 : Str)
    (hfail : OpenFailure env modelFile matDir texDir)
    (hno : DefinesNoGroup env2 modelFile2 matDir2 texDir2) :
    LoadModel env modelFile matDir texDir = some ⟨[]⟩ ∧
      LoadModel env modelFile matDir texDir = LoadModel env2 modelFile2 matDir2 texDir2 := by
  have h1 : LoadModel env modelFile matDir texDir = some ⟨[]⟩ := by
    rcases hfail with hf | ⟨objFile, k, r, d, input, r1, hf, hrun, htok, hlib, hmt⟩
    · unfold LoadModel
      simp only [hf]
    · have hskip : isSkipTag input = false := by
        cases h : isSkipTag input with
        | false => rfl
        | true =>
          rw [isSkipTag_no_mtllib input h] at hlib
          cases hlib
      have hscan : scanObj env matDir texDir objFile = .aborted := by
        unfold scanObj
        rw [runSteps_scanFrom env matDir texDir k _ _ _ _ _ _ hrun, scanFrom_eq]
        simp [scanStep, htok, hskip, hlib, hmt]
      unfold LoadModel
      simp only [hf, hscan]
  have h2 : LoadModel env2 modelFile2 matDir2 texDir2 = some ⟨[]⟩ := by
    obtain ⟨objFile, d, hf, hs, hM⟩ := hno
    unfold LoadModel
    simp only [hf, hs, hM]
    have ho : env2.order [] = [] := List.perm_nil.1 (env2.order_perm _)
    rw [ho]
    rfl
  exact ⟨h1, h1.trans h2.symm⟩

set_option maxRecDepth 100000 in
/-- Witness for claim C5: the file `noMtlObj`, whose material file is
missing, against the file `noGroupObj`.  After one pass of the main loop (the
position record, 7 characters) the loop stands before the token `mtllib`. -/
theorem open_failure_gives_empty_model_witness :
    LoadModel (envWith noMtlObj) samplePath [] [] = some ⟨[]⟩ ∧
      LoadModel (envWith noMtlObj) samplePath [] [] =
        LoadModel (envWith noGroupObj) samplePath [] [] :=
  open_failure_gives_empty_model (envWith noMtlObj) (envWith noGroupObj)
    samplePath [] [] samplePath [] []
    (Or.inr ⟨noMtlObj, 1, List.drop 7 noMtlObj, ⟨[⟨0, 0, 0⟩], [], [], [], []⟩,
      String.toList "mtllib", List.drop 14 noMtlObj,
      by decide, by decide, by decide, by decide, by decide⟩)
    ⟨noGroupObj, ⟨[⟨0, 0, 0⟩], [⟨0, 0, 1⟩], [⟨0, 0⟩], [], []⟩, by decide, by decide, rfl⟩

/-- Claim C6, as stated, fails: with `2 ^ 32` positions the position index `0`
of the index string `0/1/1` does not stop the conversion.  `0 - 1` wraps to
`4294967295`, a valid element, and a model is returned. -/
theorem zero_index_wraps_to_last_position :
    buildModel manyPositions [⟨0, 0⟩] [⟨0, 0, 1⟩] zeroGroups =
      some ⟨[⟨[⟨7, 7, 7, 0, 0, 0, 0, 1⟩], [0, 0, 0]⟩]⟩ :=
  buildModel_zeroGroups manyPositions makeVertex_zero_index

/-- Claim C6, amended.  When a retained index string is read as three
attributes of which one is `0` or exceeds the length of its sequence, and the
three sequences have fewer than `2 ^ 32` elements, the index `attribute - 1`
computed for that attribute in `unsigned int` arithmetic is not below the
size of its vector: it is neither clamped nor wrapped to a valid element, and
`operator[]` is called outside the vector, with no check before it.  C++
defines no result for the run from there on, which the embedding writes
`none`: the source raises no error, and `none` does not say that the program
returns no model. -/
theorem out_of_range_index_reads_outside_vector {F : Type} (env : Env F)
    (modelFile matDir texDir objFile s : Str) (d : ObjData F) (p t n : Nat)
    (hf : env.files modelFile = some objFile)
    (hscan : scanObj env matDir texDir objFile = .finished d)
    (hs : s ∈ refsOf d.meshIndices) (ha : vertexAttributes s = some (p, t, n))
    (hP : d.VertexPositions.length < UINT) (hT : d.TextureCoordinates.length < UINT)
    (hN : d.Normals.length < UINT)
    (hbad : p = 0 ∨ d.VertexPositions.length < p ∨ t = 0 ∨ d.TextureCoordinates.length < t ∨
      n = 0 ∨ d.Normals.length < n) :
    (d.VertexPositions.length ≤ minusOne p ∨ d.TextureCoordinates.length ≤ minusOne t ∨
      d.Normals.length ≤ minusOne n) ∧
    makeVertex d.VertexPositions d.TextureCoordinates d.Normals s = none ∧
    LoadModel env modelFile matDir texDir = none := by
  obtain ⟨hp, ht, hn⟩ := vertexAttributes_lt s p t n ha
  refine ⟨?_, makeVertex_out_of_range _ _ _ s p t n ha hP hT hN hbad, ?_⟩
  · rcases hbad with h | h | h | h | h | h
    · exact Or.inl (minusOne_ge p _ hp hP (Or.inl h))
    · exact Or.inl (minusOne_ge p _ hp hP (Or.inr h))
    · exact Or.inr (Or.inl (minusOne_ge t _ ht hT (Or.inl h)))
    · exact Or.inr (Or.inl (minusOne_ge t _ ht hT (Or.inr h)))
    · exact Or.inr (Or.inr (minusOne_ge n _ hn hN (Or.inl h)))
    · exact Or.inr (Or.inr (minusOne_ge n _ hn hN (Or.inr h)))
  · unfold LoadModel
    simp only [hf, hscan]
    exact buildModel_fails _ _ _ _ s
      ((refsOf_perm _ _ (env.order_perm d.meshIndices)).mem_iff.2 hs)
      (makeVertex_out_of_range _ _ _ s p t n ha hP hT hN hbad)

set_option maxRecDepth 100000 in
/-- Witness for claim C6 (amended): the file `badIndexObj`, with one position
and the index string `2/1/1`.  The index computed for the position is `1`, the
size of the vector of positions. -/
theorem out_of_range_index_reads_outside_vector_witness :
    ([(⟨0, 0, 0⟩ : vec3 Int)].length ≤ minusOne 2 ∨ [(⟨0, 0⟩ : vec2 Int)].length ≤ minusOne 1 ∨
      [(⟨0, 0, 1⟩ : vec3 Int)].length ≤ minusOne 1) ∧
    makeVertex [(⟨0, 0, 0⟩ : vec3 Int)] [⟨0, 0⟩] [⟨0, 0, 1⟩] (String.toList "2/1/1") = none ∧
    LoadModel (envWith badIndexObj) samplePath [] [] = none :=
  out_of_range_index_reads_outside_vector (envWith badIndexObj) samplePath [] [] badIndexObj
    (String.toList "2/1/1")
    ⟨[⟨0, 0, 0⟩], [⟨0, 0, 1⟩], [⟨0, 0⟩], [],
      [(['a'], [⟨String.toList "1/1/1", String.toList "2/1/1", String.toList "1/1/1"⟩])]⟩
    2 1 1 (by decide) (by decide) (by decide) (by decide) (by decide) (by decide) (by decide)
    (by decide)

/-- Claim C7, amended.  The source reports no malformed index string.  For
numerals `p`, `t` and `n`, an index string with a fourth part is read as its
first three parts, whatever follows, and resolves to the same vertex as the
string without the fourth part; an index string with two parts only, or with
an empty second part, leaves an attribute unwritten, and the conversion of
faces that hold it has no defined result. -/
theorem malformed_index_string_not_reported {F : Type} (P : List (vec3 F)) (T : List (vec2 F))
    (N : List (vec3 F)) (p t n junk : Str) (hp : IsNumeral p) (ht : IsNumeral t)
    (hn : IsNumeral n) :
    (vertexAttributes (p ++ '/' :: (t ++ '/' :: (n ++ '/' :: junk)))
        = some (decimalVal p, decimalVal t, decimalVal n) ∧
      makeVertex P T N (p ++ '/' :: (t ++ '/' :: (n ++ '/' :: junk)))
        = makeVertex P T N (p ++ '/' :: (t ++ '/' :: n))) ∧
    ∀ groups, ((p ++ '/' :: t) ∈ refsOf groups ∨ (p ++ '/' :: '/' :: n) ∈ refsOf groups) →
      buildModel P T N groups = none := by
  refine ⟨⟨vertexAttributes_four p t n junk hp ht hn, ?_⟩, ?_⟩
  · apply makeVertex_congr
    rw [vertexAttributes_four p t n junk hp ht hn, vertexAttributes_three p t n hp ht hn]
  · intro groups h
    rcases h with h | h
    · exact buildModel_fails P T N groups _ h
        (makeVertex_unread P T N _ (vertexAttributes_two p t hp ht))
    · exact buildModel_fails P T N groups _ h
        (makeVertex_unread P T N _ (vertexAttributes_empty_part p n hp hn))

/-- Witness for claim C7 (amended): the numerals `1`, `1`, `1`, the fourth
part `7`, and a face that holds the two-part string `1/1`. -/
theorem malformed_index_string_not_reported_witness :
    (vertexAttributes (String.toList "1/1/1/7") = some (1, 1, 1) ∧
      makeVertex [(⟨0, 0, 0⟩ : vec3 Int)] [⟨0, 0⟩] [⟨0, 0, 1⟩] (String.toList "1/1/1/7")
        = makeVertex [⟨0, 0, 0⟩] [⟨0, 0⟩] [⟨0, 0, 1⟩] (String.toList "1/1/1")) ∧
    buildModel [(⟨0, 0, 0⟩ : vec3 Int)] [⟨0, 0⟩] [⟨0, 0, 1⟩]
      [(['m'], [⟨String.toList "1/1/1", String.toList "1/1", String.toList "1/1/1"⟩])] = none :=
  ⟨(malformed_index_string_not_reported [⟨0, 0, 0⟩] [⟨0, 0⟩] [⟨0, 0, 1⟩] ['1'] ['1'] ['1'] ['7']
      ⟨by decide, by decide, by decide⟩ ⟨by decide, by decide, by decide⟩
      ⟨by decide, by decide, by decide⟩).1,
   (malformed_index_string_not_reported [⟨0, 0, 0⟩] [⟨0, 0⟩] [⟨0, 0, 1⟩] ['1'] ['1'] ['1'] ['7']
      ⟨by decide, by decide, by decide⟩ ⟨by decide, by decide, by decide⟩
      ⟨by decide, by decide, by decide⟩).2
      [(['m'], [⟨String.toList "1/1/1", String.toList "1/1", String.toList "1/1/1"⟩])]
      (Or.inl (by decide))⟩

set_option maxRecDepth 100000 in
/-- Claim C7, as stated, fails: for the file `fourPartObj`, whose face holds
the index string `1/1/1/7` twice, `LoadModel` reports nothing and returns a
model in which that string has become a vertex of its own, equal to the
vertex of `1/1/1`. -/
theorem four_part_index_is_truncated :
    LoadModel (envWith fourPartObj) samplePath [] [] =
      some ⟨[⟨[⟨0, 0, 0, 0, 0, 0, 0, 1⟩, ⟨0, 0, 0, 0, 0, 0, 0, 1⟩], [0, 1, 0]⟩]⟩ := by
  decide

/-- Claim C8.  When the inner loop of the material scan, with current name
`materialName`, stands before a token `tok` that contains `map_Kd` (and not
`newmtl`), followed by whitespace and a file name `fn`, it records for
`materialName` the texture path `texDir ++ fn`, the plain concatenation, and
leaves the loop behind the file name; if the name had no entry yet, its entry
is exactly that path.  And every entry that a scan of a material file adds
has a texture path that starts with `texDir`. -/
theorem map_Kd_records_texDir_then_filename (texDir materialName tok fn : Str)
    (ws sp rest mtfile : List Char) (materials : List (Str × Material))
    (hws : isBlank ws = true) (htok : isToken tok = true) (hnew : contains tok kwNewmtl = false)
    (hkd : contains tok kwMapKd = true) (hsp : isBlank sp = true) (hsp2 : sp ≠ [])
    (hfn : isToken fn = true) (hrest : endsToken rest = true) :
    mtlInner texDir materialName (ws ++ (tok ++ (sp ++ (fn ++ rest)))) materials
        = (insert materials materialName (Material.mk (texDir ++ fn)), rest) ∧
      (find materialName materials = none →
        find materialName (insert materials materialName (Material.mk (texDir ++ fn)))
          = some ⟨texDir ++ fn⟩) ∧
      ∀ e ∈ scanMtl texDir mtfile materials,
        e ∈ materials ∨ ∃ name, e.2.texFile = texDir ++ name := by
  refine ⟨?_, find_insert_new _ _ _, scanMtlAux_texFile texDir _ _ _⟩
  unfold mtlInner mtlInnerAux
  rw [readToken_append ws tok _ hws htok (endsToken_blank sp _ hsp hsp2)]
  simp only [hnew, hkd, Bool.false_eq_true, if_false, if_true, readInto]
  rw [readToken_append sp fn rest hsp hfn hrest]

set_option maxRecDepth 100000 in
/-- Witness for claim C8: the directive `map_Kd tex.png` under the name `mat`
with the texture directory `res/`, and the scan of the file `sampleMtl`. -/
theorem map_Kd_records_texDir_then_filename_witness :
    (mtlInner (String.toList "res/") (String.toList "mat")
        (String.toList "\nmap_Kd tex.png\n") []
        = (insert [] (String.toList "mat") (Material.mk (String.toList "res/tex.png")), ['\n']) ∧
      find (String.toList "mat")
          (insert [] (String.toList "mat") (Material.mk (String.toList "res/tex.png")))
        = some ⟨String.toList "res/tex.png"⟩) ∧
    scanMtl (String.toList "res/") sampleMtl []
      = [(String.toList "mat", ⟨String.toList "res/tex.png"⟩)] :=
  ⟨⟨(map_Kd_records_texDir_then_filename (String.toList "res/") (String.toList "mat")
        (String.toList "map_Kd") (String.toList "tex.png") ['\n'] [' '] ['\n'] sampleMtl []
        (by decide) (by decide) (by decide) (by decide) (by decide) (by decide) (by decide)
        (by decide)).1,
     (map_Kd_records_texDir_then_filename (String.toList "res/") (String.toList "mat")
        (String.toList "map_Kd") (String.toList "tex.png") ['\n'] [' '] ['\n'] sampleMtl []
        (by decide) (by decide) (by decide) (by decide) (by decide) (by decide) (by decide)
        (by decide)).2.1 (by decide)⟩,
   by decide⟩

/-- Claim C9, amended.  Outside a mesh block, a line that starts (after
whitespace) with one of the tokens `#`, `o`, `s`, `g` and has at most 256
characters after that token, its newline included, is skipped with no change
of state: the scan continues as it does on the input without the line. -/
theorem skip_tag_line_is_skipped {F : Type} (env : Env F) (matDir texDir tag : Str)
    (ws ws2 body post : List Char) (d : ObjData F)
    (hws : isBlank ws = true) (hws2 : isBlank ws2 = true) (htag : isSkipTag tag = true)
    (hbody : ∀ c ∈ body, c ≠ '\n') (hhead : endsToken body = true)
    (hlen : body.length < 256) :
    scanFrom env matDir texDir false (ws ++ (tag ++ (body ++ '\n' :: post))) d
      = scanFrom env matDir texDir false (ws2 ++ post) d := by
  have hends : endsToken (body ++ '\n' :: post) = true := by
    cases body with
    | nil => exact (by decide : isspace '\n' = true)
    | cons c body => exact hhead
  rw [scanFrom_blank env matDir texDir false ws2 post d hws2, scanFrom_eq]
  unfold scanStep
  rw [readToken_append ws tag _ hws (isSkipTag_isToken tag htag) hends]
  simp only [Bool.false_eq_true, if_false, htag, if_true, ignoreLine]
  rw [ignoreN_line 256 body post hbody hlen]

set_option maxRecDepth 100000 in
/-- Witness for claim C9 (amended): a comment line between two position
records. -/
theorem skip_tag_line_is_skipped_witness :
    scanFrom (envWith []) [] [] false (String.toList "\n# a comment\nv 1 2 3\n")
        ⟨[⟨0, 0, 0⟩], [], [], [], []⟩
      = scanFrom (envWith []) [] [] false (String.toList "\nv 1 2 3\n")
        ⟨[⟨0, 0, 0⟩], [], [], [], []⟩ :=
  skip_tag_line_is_skipped (envWith []) [] [] ['#'] ['\n'] ['\n'] (String.toList " a comment")
    (String.toList "v 1 2 3\n") ⟨[⟨0, 0, 0⟩], [], [], [], []⟩
    (by decide) (by decide) (by decide) (by decide) (by decide) (by decide)

set_option maxRecDepth 100000 in
/-- Claim C9, as stated, fails in two ways.  Inside a mesh block the tokens of
a comment line are read one by one, so a face record in it is collected:
`commentInBlockObj` gives the material a face that the file without the line
does not give.  And of a comment line longer than 256 characters only 256
are discarded: `longCommentObj` yields a position, the empty file none. -/
theorem skip_tag_line_changes_state :
    (scanObj (envWith []) [] [] commentInBlockObj
        = .finished ⟨[], [], [], [],
            [(['m'], [⟨String.toList "1/1/1", String.toList "1/1/1", String.toList "1/1/1"⟩])]⟩ ∧
      scanObj (envWith []) [] [] commentInBlockDeleted
        = .finished ⟨[], [], [], [], [(['m'], [])]⟩) ∧
    (scanObj (envWith []) [] [] longCommentObj = .finished ⟨[⟨1, 2, 3⟩], [], [], [], []⟩ ∧
      scanObj (envWith []) [] [] [] = .finished ⟨[], [], [], [], []⟩) := by
  decide

/-- Claim C11.  In a model built from the groups in their processing order,
the vertex buffer of every mesh has one vertex for each distinct retained
index string: the vertex at position `k` is the one resolved from the `k`-th
distinct string in first-encounter order.  Hence the length of the buffer is
the number of distinct strings, and in the concatenation of the index
sequences every first occurrence of a value equals the number of distinct
values before it. -/
theorem slots_in_first_encounter_order {F : Type} (P : List (vec3 F)) (T : List (vec2 F))
    (N : List (vec3 F)) (groups : List (Str × List TriangleIndex)) (m : Model F)
    (h : buildModel P T N groups = some m) :
    ((distinctStrings (refsOf groups)).Nodup ∧
      ∀ s, s ∈ distinctStrings (refsOf groups) ↔ s ∈ refsOf groups) ∧
    (∀ mesh ∈ m.meshes, mesh.m_Vertices.length = (refsOf groups).dedup.length ∧
      ∀ (k : Nat) (s : Str), (distinctStrings (refsOf groups))[k]? = some s →
        ∃ v, makeVertex P T N s = some v ∧ mesh.m_Vertices[k]? = some v) ∧
    FirstOccurrencesCount (slotsOf m) := by
  obtain ⟨hverts, _⟩ := buildModel_shape P T N groups m h
  refine ⟨⟨distinctStrings_nodup _, distinctStrings_mem _⟩, ?_,
    buildModel_firstOccurrences P T N groups m h⟩
  intro mesh hmesh
  have hv := hverts mesh hmesh
  constructor
  · have := congrArg List.length hv
    simp only [List.length_map] at this
    rw [this, distinctStrings_length]
  · intro k s hk
    have h1 := getElem?_map_of_eq _ _ _ hv.symm k
    rw [List.getElem?_map, hk] at h1
    cases hvk : mesh.m_Vertices[k]? with
    | none => simp [hvk] at h1
    | some v =>
      simp only [hvk, Option.map_some', Option.some.injEq] at h1
      exact ⟨v, h1.symm, rfl⟩

/-- Witness for claim C11: `dedupGroups` over two positions, whose distinct
strings are `1/1/1`, `2/1/1`, `01/1/1` in this order. -/
theorem slots_in_first_encounter_order_witness :
    ((distinctStrings (refsOf dedupGroups)).Nodup ∧
      (String.toList "01/1/1" ∈ distinctStrings (refsOf dedupGroups) ↔
        String.toList "01/1/1" ∈ refsOf dedupGroups)) ∧
    (∃ v, makeVertex [(⟨0, 0, 0⟩ : vec3 Int), ⟨1, 0, 0⟩] [⟨0, 0⟩] [⟨0, 0, 1⟩]
        (String.toList "01/1/1") = some v ∧
      [(⟨0, 0, 0, 0, 0, 0, 0, 1⟩ : Vertex Int), ⟨1, 0, 0, 0, 0, 0, 0, 1⟩,
        ⟨0, 0, 0, 0, 0, 0, 0, 1⟩][2]? = some v) ∧
    FirstOccurrencesCount (slotsOf dedupModel) :=
  ⟨⟨(slots_in_first_encounter_order [⟨0, 0, 0⟩, ⟨1, 0, 0⟩] [⟨0, 0⟩] [⟨0, 0, 1⟩] dedupGroups
        dedupModel (by decide)).1.1,
    (slots_in_first_encounter_order [⟨0, 0, 0⟩, ⟨1, 0, 0⟩] [⟨0, 0⟩] [⟨0, 0, 1⟩] dedupGroups
        dedupModel (by decide)).1.2 (String.toList "01/1/1")⟩,
   ((slots_in_first_encounter_order [⟨0, 0, 0⟩, ⟨1, 0, 0⟩] [⟨0, 0⟩] [⟨0, 0, 1⟩] dedupGroups
        dedupModel (by decide)).2.1
      ⟨[⟨0, 0, 0, 0, 0, 0, 0, 1⟩, ⟨1, 0, 0, 0, 0, 0, 0, 1⟩, ⟨0, 0, 0, 0, 0, 0, 0, 1⟩], [0, 1, 2]⟩
      (by decide)).2 2 (String.toList "01/1/1") (by decide),
   (slots_in_first_encounter_order [⟨0, 0, 0⟩, ⟨1, 0, 0⟩] [⟨0, 0⟩] [⟨0, 0, 1⟩] dedupGroups
        dedupModel (by decide)).2.2⟩

/-- Claim C12.  In a model built from the groups in their processing order
there is one mesh per group, in that order; the index sequence of the mesh of
a group with face list `faces` has length `3 * faces.length`, and its element
at position `3 * i + j` is the slot of the `j`-th index string of the `i`-th
face. -/
theorem index_sequence_shape {F : Type} (P : List (vec3 F)) (T : List (vec2 F))
    (N : List (vec3 F)) (groups : List (Str × List TriangleIndex)) (m : Model F)
    (h : buildModel P T N groups = some m) :
    m.meshes.length = groups.length ∧
    ∀ (g : Nat) (name : Str) (faces : List TriangleIndex), groups[g]? = some (name, faces) →
      ∃ mesh, m.meshes[g]? = some mesh ∧ mesh.m_Indices.length = 3 * faces.length ∧
        ∀ (i j : Nat) (t : TriangleIndex) (s : Str), faces[i]? = some t → t.indices[j]? = some s →
          mesh.m_Indices[3 * i + j]? = some (slotOfString (distinctStrings (refsOf groups)) s) := by
  obtain ⟨_, hidx⟩ := buildModel_shape P T N groups m h
  have hlen : m.meshes.length = groups.length := by
    have := congrArg List.length hidx
    simpa using this
  refine ⟨hlen, ?_⟩
  intro g name faces hg
  have hg2 : g < m.meshes.length := by
    rw [hlen]
    exact (List.getElem?_eq_some_iff.1 hg).1
  refine ⟨m.meshes[g], List.getElem?_eq_getElem hg2, ?_⟩
  have h1 := congrArg (fun l => l[g]?) hidx
  simp only [List.getElem?_map, List.getElem?_eq_getElem hg2, hg, Option.map_some',
    Option.some.injEq] at h1
  constructor
  · rw [h1, List.length_map]
    clear h1 hg
    induction faces with
    | nil => rfl
    | cons a faces ih =>
      rw [List.flatMap_cons, List.length_append, ih]
      simp only [TriangleIndex.indices, List.length_cons, List.length_nil]
      omega
  · intro i j t s ht hs
    rw [h1, List.getElem?_map, flatMap_indices_getElem? faces i j t s ht hs]
    rfl

/-- Witness for claim C12: in the second mesh of `dedupModel` the element at
position `3 * 0 + 1` is the slot of the string `1/1/1`. -/
theorem index_sequence_shape_witness :
    dedupModel.meshes.length = dedupGroups.length ∧
    ∃ mesh, dedupModel.meshes[1]? = some mesh ∧ mesh.m_Indices.length = 3 * 1 ∧
      mesh.m_Indices[3 * 0 + 1]? =
        some (slotOfString (distinctStrings (refsOf dedupGroups)) (String.toList "1/1/1")) :=
  ⟨(index_sequence_shape [⟨0, 0, 0⟩, ⟨1, 0, 0⟩] [⟨0, 0⟩] [⟨0, 0, 1⟩] dedupGroups dedupModel
      (by decide)).1,
   ((index_sequence_shape [⟨0, 0, 0⟩, ⟨1, 0, 0⟩] [⟨0, 0⟩] [⟨0, 0, 1⟩] dedupGroups dedupModel
      (by decide)).2 1 ['b']
      [⟨String.toList "2/1/1", String.toList "1/1/1", String.toList "1/1/1"⟩] (by decide)).imp
    (fun _ hm => ⟨hm.1, hm.2.1,
      hm.2.2 0 1 ⟨String.toList "2/1/1", String.toList "1/1/1", String.toList "1/1/1"⟩
        (String.toList "1/1/1") (by decide) (by decide)⟩)⟩

/-- Claim C13, amended.  When the retained faces hold at most `2 ^ 32`
different index strings: for an index string at position `k` of a group whose
three attributes `p`, `t`, `n` are read and lie within the attribute
sequences, counted from one, the mesh of the group has an index at position
`k`, and the vertex of the buffer at that index is made of the element
`p - 1` of the positions, the element `t - 1` of the texture coordinates and
the element `n - 1` of the normals. -/
theorem vertex_at_slot_resolves_attributes {F : Type} (P : List (vec3 F)) (T : List (vec2 F))
    (N : List (vec3 F)) (groups : List (Str × List TriangleIndex)) (m : Model F)
    (h : buildModel P T N groups = some m)
    (hcount : (refsOf groups).dedup.length ≤ UINT) :
    ∀ (g k : Nat) (grp : Str × List TriangleIndex) (s : Str) (p t n : Nat),
      groups[g]? = some grp → (grp.2.flatMap TriangleIndex.indices)[k]? = some s →
      vertexAttributes s = some (p, t, n) →
      1 ≤ p → p ≤ P.length → 1 ≤ t → t ≤ T.length → 1 ≤ n → n ≤ N.length →
      ∃ vp vt vn mesh slot, P[p - 1]? = some vp ∧ T[t - 1]? = some vt ∧ N[n - 1]? = some vn ∧
        m.meshes[g]? = some mesh ∧ mesh.m_Indices[k]? = some slot ∧
        mesh.m_Vertices[slot]? = some ⟨vp.x, vp.y, vp.z, vt.x, vt.y, vn.x, vn.y, vn.z⟩ := by
  intro g k grp s p t n hg hs ha hp1 hp2 ht1 ht2 hn1 hn2
  obtain ⟨vp, vt, vn, hvp, hvt, hvn, hv⟩ :=
    makeVertex_inRange_eq P T N s p t n ha hp1 hp2 ht1 ht2 hn1 hn2
  obtain ⟨mesh, slot, hm, hi, hslot⟩ := resolvedAt_eq P T N groups m h hcount g k grp s hg hs
  exact ⟨vp, vt, vn, mesh, slot, hvp, hvt, hvn, hm, hi, hslot.trans hv⟩

/-- Witness for claim C13 (amended): in `dedupGroups` over two positions the
string `2/1/1` at position 1 of the first group resolves to the second
position. -/
theorem vertex_at_slot_resolves_attributes_witness :
    ∃ (vp : vec3 Int) (vt : vec2 Int) (vn : vec3 Int) (mesh : Mesh Int) (slot : Nat),
      [(⟨0, 0, 0⟩ : vec3 Int), ⟨1, 0, 0⟩][2 - 1]? = some vp ∧
      [(⟨0, 0⟩ : vec2 Int)][1 - 1]? = some vt ∧ [(⟨0, 0, 1⟩ : vec3 Int)][1 - 1]? = some vn ∧
      dedupModel.meshes[0]? = some mesh ∧ mesh.m_Indices[1]? = some slot ∧
      mesh.m_Vertices[slot]? = some ⟨vp.x, vp.y, vp.z, vt.x, vt.y, vn.x, vn.y, vn.z⟩ :=
  vertex_at_slot_resolves_attributes [⟨0, 0, 0⟩, ⟨1, 0, 0⟩] [⟨0, 0⟩] [⟨0, 0, 1⟩] dedupGroups
    dedupModel (by decide) (by decide) 0 1
    (['a'], [⟨String.toList "1/1/1", String.toList "2/1/1", String.toList "01/1/1"⟩])
    (String.toList "2/1/1") 2 1 1 (by decide) (by decide) (by decide)
    (by decide) (by decide) (by decide) (by decide) (by decide) (by decide)

/-- Claim C13, as stated, fails when the retained faces hold more than `2 ^ 32`
different index strings.  In `wrapFirstGroups` over two positions the string
`2/1/1` of the second group is the distinct string number `4294967298`; its
three attributes are in range and name the second position `(1, 0, 0)`, but
the index written for it is `2`, and the vertex of the buffer at `2` is the
one of the string `wrapKey 2`, with the first position `(0, 0, 0)`. -/
theorem slot_past_counter_holds_other_vertex :
    wrapFirstGroups[1]? = some (['b'], [secondFace]) ∧
    ([secondFace].flatMap TriangleIndex.indices)[0]? = some (String.toList "2/1/1") ∧
    vertexAttributes (String.toList "2/1/1") = some (2, 1, 1) ∧
    twoPositions[2 - 1]? = some ⟨1, 0, 0⟩ ∧
    (buildModel twoPositions [⟨0, 0⟩] [⟨0, 0, 1⟩] wrapFirstGroups).map
      (fun m => (m.meshes[1]?).map (fun mesh => (mesh.m_Indices[0]?, mesh.m_Vertices[2]?)))
      = some (some (some 2, some ⟨0, 0, 0, 0, 0, 0, 0, 1⟩)) := by
  refine ⟨rfl, rfl, by decide, rfl, ?_⟩
  cases hb : buildModel twoPositions [⟨0, 0⟩] [⟨0, 0, 1⟩] wrapFirstGroups with
  | none =>
    have := wrapFirstGroups_builds
    rw [hb] at this
    cases this
  | some m =>
    obtain ⟨mesh, hm, hi, hv⟩ := wrap_first_resolves twoPositions [⟨0, 0⟩] [⟨0, 0, 1⟩]
      1431655766 (String.toList "2/1/1") secondKey_ne_wrapKey ['a'] ['b'] m hb
    have hv2 := hv 2 (by decide)
    rw [makeVertex_wrapKey_first twoPositions [⟨0, 0⟩] [⟨0, 0, 1⟩] ⟨0, 0, 0⟩ 2 ⟨0, 0⟩ ⟨0, 0, 1⟩
      rfl rfl rfl] at hv2
    simp only [Option.map_some', hm, hi, hv2]
    rfl

/-- Claim C14, amended.  For two processing orders of the same material
groups, holding at most `2 ^ 32` different index strings: the builder
completes for both orders or for neither; when it completes there are as many
meshes in both models, for every group and every position `k` the vertex
found at `vertexBuffer[indices[k]]` of the mesh of the group is the same in
both models, namely the vertex of the index string at position `k` of the
group, and the vertex buffers are permutations of each other (this last part
does not need the bound). -/
theorem group_order_independence {F : Type} (P : List (vec3 F)) (T : List (vec2 F))
    (N : List (vec3 F)) (groups1 groups2 : List (Str × List TriangleIndex))
    (hperm : groups1.Perm groups2)
    (hcount : (refsOf groups1).dedup.length ≤ UINT) :
    (buildModel P T N groups1).isSome = (buildModel P T N groups2).isSome ∧
    ∀ m1 m2, buildModel P T N groups1 = some m1 → buildModel P T N groups2 = some m2 →
      m1.meshes.length = m2.meshes.length ∧
      (∀ (g1 g2 k : Nat) (grp : Str × List TriangleIndex),
        groups1[g1]? = some grp → groups2[g2]? = some grp →
        resolvedAt m1 g1 k = resolvedAt m2 g2 k ∧
        resolvedAt m1 g1 k
          = ((grp.2.flatMap TriangleIndex.indices)[k]?).bind (makeVertex P T N)) ∧
      (∀ mesh1 ∈ m1.meshes, ∀ mesh2 ∈ m2.meshes,
        mesh1.m_Vertices.Perm mesh2.m_Vertices) := by
  have hrefs := refsOf_perm groups1 groups2 hperm
  have hcount2 : (refsOf groups2).dedup.length ≤ UINT := by
    rw [← (List.Perm.dedup hrefs).length_eq]
    exact hcount
  constructor
  · rw [Bool.eq_iff_iff, buildModel_isSome_iff, buildModel_isSome_iff]
    constructor
    · intro h s hs
      exact h s (hrefs.mem_iff.2 hs)
    · intro h s hs
      exact h s (hrefs.mem_iff.1 hs)
  · intro m1 m2 h1 h2
    obtain ⟨hv1, hi1⟩ := buildModel_shape P T N groups1 m1 h1
    obtain ⟨hv2, hi2⟩ := buildModel_shape P T N groups2 m2 h2
    refine ⟨?_, ?_, ?_⟩
    · have l1 := congrArg List.length hi1
      have l2 := congrArg List.length hi2
      simp only [List.length_map] at l1 l2
      rw [l1, l2]
      exact hperm.length_eq
    · intro g1 g2 k grp hg1 hg2
      have e1 := resolvedAt_value P T N groups1 m1 h1 hcount g1 k grp hg1
      have e2 := resolvedAt_value P T N groups2 m2 h2 hcount2 g2 k grp hg2
      exact ⟨e1.trans e2.symm, e1⟩
    · intro mesh1 hm1 mesh2 hm2
      rw [buffer_eq_filterMap P T N _ _ (hv1 mesh1 hm1),
        buffer_eq_filterMap P T N _ _ (hv2 mesh2 hm2)]
      exact List.Perm.filterMap _ (distinctStrings_perm _ _ hrefs)

/-- Witness for claim C14 (amended): `dedupGroups` and the same groups in the
other order, over two positions. -/
theorem group_order_independence_witness :
    (buildModel [(⟨0, 0, 0⟩ : vec3 Int), ⟨1, 0, 0⟩] [⟨0, 0⟩] [⟨0, 0, 1⟩] dedupGroups).isSome
      = (buildModel [(⟨0, 0, 0⟩ : vec3 Int), ⟨1, 0, 0⟩] [⟨0, 0⟩] [⟨0, 0, 1⟩]
          dedupGroupsSwapped).isSome ∧
    dedupModel.meshes.length = dedupModelSwapped.meshes.length ∧
    (resolvedAt dedupModel 0 1 = resolvedAt dedupModelSwapped 1 1 ∧
      resolvedAt dedupModel 0 1
        = (([(⟨String.toList "1/1/1", String.toList "2/1/1", String.toList "01/1/1"⟩ :
              TriangleIndex)].flatMap TriangleIndex.indices)[1]?).bind
            (makeVertex [(⟨0, 0, 0⟩ : vec3 Int), ⟨1, 0, 0⟩] [⟨0, 0⟩] [⟨0, 0, 1⟩])) ∧
    List.Perm
      [(⟨0, 0, 0, 0, 0, 0, 0, 1⟩ : Vertex Int), ⟨1, 0, 0, 0, 0, 0, 0, 1⟩, ⟨0, 0, 0, 0, 0, 0, 0, 1⟩]
      [⟨1, 0, 0, 0, 0, 0, 0, 1⟩, ⟨0, 0, 0, 0, 0, 0, 0, 1⟩, ⟨0, 0, 0, 0, 0, 0, 0, 1⟩] :=
  ⟨(group_order_independence [⟨0, 0, 0⟩, ⟨1, 0, 0⟩] [⟨0, 0⟩] [⟨0, 0, 1⟩] dedupGroups
      dedupGroupsSwapped (List.Perm.swap _ _ _) (by decide)).1,
   ((group_order_independence [⟨0, 0, 0⟩, ⟨1, 0, 0⟩] [⟨0, 0⟩] [⟨0, 0, 1⟩] dedupGroups
      dedupGroupsSwapped (List.Perm.swap _ _ _) (by decide)).2 dedupModel dedupModelSwapped
      (by decide) (by decide)).1,
   ((group_order_independence [⟨0, 0, 0⟩, ⟨1, 0, 0⟩] [⟨0, 0⟩] [⟨0, 0, 1⟩] dedupGroups
      dedupGroupsSwapped (List.Perm.swap _ _ _) (by decide)).2 dedupModel dedupModelSwapped
      (by decide) (by decide)).2.1 0 1 1
      (['a'], [⟨String.toList "1/1/1", String.toList "2/1/1", String.toList "01/1/1"⟩])
      (by decide) (by decide),
   ((group_order_independence [⟨0, 0, 0⟩, ⟨1, 0, 0⟩] [⟨0, 0⟩] [⟨0, 0, 1⟩] dedupGroups
      dedupGroupsSwapped (List.Perm.swap _ _ _) (by decide)).2 dedupModel dedupModelSwapped
      (by decide) (by decide)).2.2
      ⟨[⟨0, 0, 0, 0, 0, 0, 0, 1⟩, ⟨1, 0, 0, 0, 0, 0, 0, 1⟩, ⟨0, 0, 0, 0, 0, 0, 0, 1⟩], [0, 1, 2]⟩
      (by decide)
      ⟨[⟨1, 0, 0, 0, 0, 0, 0, 1⟩, ⟨0, 0, 0, 0, 0, 0, 0, 1⟩, ⟨0, 0, 0, 0, 0, 0, 0, 1⟩], [0, 1, 1]⟩
      (by decide)⟩

/-- Claim C14, as stated, fails when the groups hold more than `2 ^ 32`
different index strings.  `wrapFirstGroups` and `wrapLastGroups` are the same
two groups in the two orders, over the same attribute lists.  For the group
`b`, whose face has the string `2/1/1`, the vertex found at
`vertexBuffer[indices[0]]` has the first position `(0, 0, 0)` when the group
is processed last, and the second position `(1, 0, 0)` when it is processed
first. -/
theorem group_order_changes_vertex_past_counter :
    wrapFirstGroups.Perm wrapLastGroups ∧
    wrapFirstGroups[1]? = some (['b'], [secondFace]) ∧
    wrapLastGroups[0]? = some (['b'], [secondFace]) ∧
    (buildModel twoPositions [⟨0, 0⟩] [⟨0, 0, 1⟩] wrapFirstGroups).map
      (fun m => resolvedAt m 1 0) = some (some ⟨0, 0, 0, 0, 0, 0, 0, 1⟩) ∧
    (buildModel twoPositions [⟨0, 0⟩] [⟨0, 0, 1⟩] wrapLastGroups).map
      (fun m => resolvedAt m 0 0) = some (some ⟨1, 0, 0, 0, 0, 0, 0, 1⟩) := by
  refine ⟨List.Perm.swap _ _ _, rfl, rfl, ?_, ?_⟩
  · cases hb : buildModel twoPositions [⟨0, 0⟩] [⟨0, 0, 1⟩] wrapFirstGroups with
    | none =>
      have := wrapFirstGroups_builds
      rw [hb] at this
      cases this
    | some m =>
      obtain ⟨mesh, hm, hi, hv⟩ := wrap_first_resolves twoPositions [⟨0, 0⟩] [⟨0, 0, 1⟩]
        1431655766 (String.toList "2/1/1") secondKey_ne_wrapKey ['a'] ['b'] m hb
      have hv2 := hv 2 (by decide)
      rw [makeVertex_wrapKey_first twoPositions [⟨0, 0⟩] [⟨0, 0, 1⟩] ⟨0, 0, 0⟩ 2 ⟨0, 0⟩
        ⟨0, 0, 1⟩ rfl rfl rfl] at hv2
      have h2 : 3 * 1431655766 % UINT = 2 := by decide
      rw [h2] at hi
      simp only [Option.map_some', resolvedAt, hm, hi, Option.some_bind, hv2]
      rfl
  · cases hb : buildModel twoPositions [⟨0, 0⟩] [⟨0, 0, 1⟩] wrapLastGroups with
    | none =>
      have := wrapLastGroups_builds
      rw [hb] at this
      cases this
    | some m =>
      obtain ⟨mesh, hm, hi, hv⟩ := wrap_last_resolves twoPositions [⟨0, 0⟩] [⟨0, 0, 1⟩]
        1431655766 (String.toList "2/1/1") secondKey_ne_wrapKey ['a'] ['b'] m hb
      have hv2 : makeVertex twoPositions [⟨0, 0⟩] [⟨0, 0, 1⟩] (String.toList "2/1/1")
          = some ⟨1, 0, 0, 0, 0, 0, 0, 1⟩ := by decide
      rw [hv2] at hv
      simp only [Option.map_some', resolvedAt, hm, hi, Option.some_bind, hv]

/-- A geometry file in which the block of the material `a` has no face, and
`a` is used again at the end. -/
def emptyBlockObj : List Char := String.toList
  "v 0 0 0\nvt 0 0\nvn 0 0 1\nusemtl a\nusemtl b\nf 1/1/1 1/1/1 1/1/1\nusemtl a\n"

/-- The containers after the scan of `emptyBlockObj`. -/
def emptyBlockData : ObjData Int :=
  ⟨[⟨0, 0, 0⟩], [⟨0, 0, 1⟩], [⟨0, 0⟩], [],
    [(['a'], []),
     (['b'], [⟨String.toList "1/1/1", String.toList "1/1/1", String.toList "1/1/1"⟩])]⟩

/-- The model that `LoadModel` returns for `emptyBlockObj`. -/
def emptyBlockModel : Model Int :=
  ⟨[⟨[⟨0, 0, 0, 0, 0, 0, 0, 1⟩], []⟩, ⟨[⟨0, 0, 0, 0, 0, 0, 0, 1⟩], [0, 0, 0]⟩]⟩

/-- The environment in which `samplePath` opens `noMtlObj` and the material
file that `noMtlObj` names exists, empty. -/
def envWithMtl : Env Int := envOf [(samplePath, noMtlObj), (String.toList "missing.mtl", [])]

/-- Claim C15, amended.  When the geometry file opens, the number of meshes
of the returned model equals the number of distinct material names that the
scan reads for a new mesh: the token after a token that contains `usemtl`,
read outside a mesh or after the face loop that this token ended.  After a
scan to the end of the file the keys of `meshIndices` are these names in the
order of their first reading, and the mesh of a group with `k` faces has
`3 * k` indices, none for a group without faces. -/
theorem one_submesh_per_name_read {F : Type} (env : Env F) (modelFile matDir texDir : Str)
    (objFile : List Char) (m : Model F) (hf : env.files modelFile = some objFile)
    (h : LoadModel env modelFile matDir texDir = some m) :
    m.meshes.length = (introducedNames env matDir texDir objFile).dedup.length ∧
    ∀ d, scanObj env matDir texDir objFile = .finished d →
      d.meshIndices.map Prod.fst = distinctStrings (introducedNames env matDir texDir objFile) ∧
      m.meshes.map (fun mesh => mesh.m_Indices.length)
        = (env.order d.meshIndices).map (fun g => 3 * g.2.length) := by
  unfold LoadModel at h
  simp only [hf] at h
  cases hs : scanObj env matDir texDir objFile with
  | aborted =>
    simp only [hs, Option.some.injEq] at h
    subst h
    have hn : introducedNames env matDir texDir objFile = [] :=
      namesRead_aborted env matDir texDir _ false objFile ObjData.empty hs
    rw [hn]
    exact ⟨rfl, fun d hd => by cases hd⟩
  | undefined =>
    simp only [hs] at h
    cases h
  | finished d =>
    simp only [hs] at h
    have hkeys : d.meshIndices.map Prod.fst
        = distinctStrings (introducedNames env matDir texDir objFile) :=
      namesRead_keys env matDir texDir _ false objFile ObjData.empty d hs
    obtain ⟨_, _, _, _, _, hlen⟩ := buildModel_spec _ _ _ _ m h
    constructor
    · rw [hlen, (env.order_perm d.meshIndices).length_eq, ← distinctStrings_length, ← hkeys,
        List.length_map]
    · intro d2 hd
      simp only [ScanResult.finished.injEq] at hd
      subst hd
      exact ⟨hkeys, buildModel_lengths _ _ _ _ m h⟩

set_option maxRecDepth 100000 in
/-- Witness for claim C15 (amended): the file `emptyBlockObj`, in which the
names `a`, `b`, `a` are read.  There are two meshes, and the mesh of `a` has
no index. -/
theorem one_submesh_per_name_read_witness :
    emptyBlockModel.meshes.length
        = (introducedNames (envWith emptyBlockObj) [] [] emptyBlockObj).dedup.length ∧
      introducedNames (envWith emptyBlockObj) [] [] emptyBlockObj = [['a'], ['b'], ['a']] ∧
      emptyBlockData.meshIndices.map Prod.fst
        = distinctStrings (introducedNames (envWith emptyBlockObj) [] [] emptyBlockObj) ∧
      emptyBlockModel.meshes.map (fun mesh => mesh.m_Indices.length)
        = ((envWith emptyBlockObj).order emptyBlockData.meshIndices).map
            (fun g => 3 * g.2.length) :=
  ⟨(one_submesh_per_name_read (envWith emptyBlockObj) samplePath [] [] emptyBlockObj
      emptyBlockModel (by decide) (by decide)).1,
   by decide,
   (one_submesh_per_name_read (envWith emptyBlockObj) samplePath [] [] emptyBlockObj
      emptyBlockModel (by decide) (by decide)).2 emptyBlockData (by decide)⟩

set_option maxRecDepth 100000 in
/-- Claim C15, as stated, fails when a material file does not open.  The
geometry file `noMtlObj` has the directive `usemtl a` after a `mtllib`
directive.  When the material file exists, the returned model has one mesh;
when it does not, `LoadModel` returns a model without meshes, for the same
geometry file. -/
theorem failed_mtllib_leaves_no_submesh :
    (LoadModel envWithMtl samplePath [] []).map (fun m => m.meshes.length) = some 1 ∧
    (LoadModel (envWith noMtlObj) samplePath [] []).map (fun m => m.meshes.length) = some 0 ∧
    envWithMtl.files samplePath = (envWith noMtlObj).files samplePath := by
  decide

/-- The containers after the scan of `dupObj`. -/
def dupData : ObjData Int :=
  ⟨[⟨0, 0, 0⟩, ⟨1, 0, 0⟩], [⟨0, 0, 1⟩], [⟨0, 0⟩], [],
    [(['a'], [⟨String.toList "1/1/1", String.toList "1/1/1", String.toList "1/1/1"⟩]),
     (['b'], [⟨String.toList "1/1/1", String.toList "2/1/1", String.toList "1/1/1"⟩])]⟩

/-- The model that `LoadModel` returns for `dupObj`. -/
def dupModel : Model Int :=
  ⟨[⟨[⟨0, 0, 0, 0, 0, 0, 0, 1⟩, ⟨1, 0, 0, 0, 0, 0, 0, 1⟩], [0, 0, 0]⟩,
    ⟨[⟨0, 0, 0, 0, 0, 0, 0, 1⟩, ⟨1, 0, 0, 0, 0, 0, 0, 1⟩], [0, 1, 0]⟩]⟩

set_option maxRecDepth 100000 in
/-- Claim C16.  In every model returned by `LoadModel` all meshes have the
same vertex buffer.  When the geometry file was scanned to its end, this
buffer is the state of `vertices` at the end of the loop over all groups, and
it holds the vertex of every index string of every group, whichever mesh it
belongs to. -/
theorem meshes_share_final_vertex_buffer {F : Type} (env : Env F)
    (modelFile matDir texDir : Str) (m : Model F)
    (h : LoadModel env modelFile matDir texDir = some m) :
    (∀ mesh1 ∈ m.meshes, ∀ mesh2 ∈ m.meshes, mesh1.m_Vertices = mesh2.m_Vertices) ∧
    ∀ objFile d, env.files modelFile = some objFile →
      scanObj env matDir texDir objFile = .finished d →
      (∃ st outs, convertMeshes d.VertexPositions d.TextureCoordinates d.Normals ⟨[], [], 0⟩ []
          (env.order d.meshIndices) = some (st, outs) ∧
        ∀ mesh ∈ m.meshes, mesh.m_Vertices = st.vertices) ∧
      ∀ s ∈ refsOf d.meshIndices, ∀ mesh ∈ m.meshes,
        ∃ v, makeVertex d.VertexPositions d.TextureCoordinates d.Normals s = some v ∧
          v ∈ mesh.m_Vertices := by
  unfold LoadModel at h
  cases hf : env.files modelFile with
  | none =>
    simp only [hf, Option.some.injEq] at h
    subst h
    refine ⟨fun _ h1 => (by cases h1), ?_⟩
    intro o d ho
    cases ho
  | some objFile =>
    simp only [hf] at h
    cases hs : scanObj env matDir texDir objFile with
    | aborted =>
      simp only [hs, Option.some.injEq] at h
      subst h
      refine ⟨fun _ h1 => (by cases h1), ?_⟩
      intro o d ho hd
      simp only [Option.some.injEq] at ho
      subst ho
      rw [hs] at hd
      cases hd
    | undefined =>
      simp only [hs] at h
      cases h
    | finished d =>
      simp only [hs] at h
      have hbuild := h
      unfold buildModel at h
      cases hc : convertMeshes d.VertexPositions d.TextureCoordinates d.Normals ⟨[], [], 0⟩ []
          (env.order d.meshIndices) with
      | none => simp [hc] at h
      | some q =>
        obtain ⟨st, outs⟩ := q
        simp only [hc, Option.some.injEq] at h
        have hall : ∀ mesh ∈ m.meshes, mesh.m_Vertices = st.vertices := by
          intro mesh hmesh
          rw [← h] at hmesh
          obtain ⟨idx, _, rfl⟩ := List.mem_map.1 hmesh
          rfl
        refine ⟨fun a ha b hb => (hall a ha).trans (hall b hb).symm, ?_⟩
        intro o d2 ho hd
        simp only [Option.some.injEq] at ho
        subst ho
        rw [hs] at hd
        simp only [ScanResult.finished.injEq] at hd
        subst hd
        refine ⟨⟨st, outs, hc, hall⟩, ?_⟩
        intro s hsmem mesh hmesh
        obtain ⟨hverts, _⟩ := buildModel_shape _ _ _ _ m hbuild
        have hs2 : s ∈ distinctStrings (refsOf (env.order d.meshIndices)) :=
          (distinctStrings_mem _ _).2
            ((refsOf_perm _ _ (env.order_perm d.meshIndices)).mem_iff.2 hsmem)
        have h1 : makeVertex d.VertexPositions d.TextureCoordinates d.Normals s
            ∈ mesh.m_Vertices.map some := by
          rw [hverts mesh hmesh]
          exact List.mem_map.2 ⟨s, hs2, rfl⟩
        obtain ⟨v, hv, hv2⟩ := List.mem_map.1 h1
        exact ⟨v, hv2.symm, hv⟩

set_option maxRecDepth 100000 in
/-- Witness for claim C16: the file `dupObj`.  The vertex of the string
`2/1/1`, which occurs only in the second group, is in the buffer of the first
mesh. -/
theorem meshes_share_final_vertex_buffer_witness :
    LoadModel (envWith dupObj) samplePath [] [] = some dupModel ∧
    (∀ mesh1 ∈ dupModel.meshes, ∀ mesh2 ∈ dupModel.meshes,
      mesh1.m_Vertices = mesh2.m_Vertices) ∧
    ∃ v, makeVertex dupData.VertexPositions dupData.TextureCoordinates dupData.Normals
        (String.toList "2/1/1") = some v ∧
      v ∈ [(⟨0, 0, 0, 0, 0, 0, 0, 1⟩ : Vertex Int), ⟨1, 0, 0, 0, 0, 0, 0, 1⟩] :=
  ⟨by decide,
   (meshes_share_final_vertex_buffer (envWith dupObj) samplePath [] [] dupModel (by decide)).1,
   ((meshes_share_final_vertex_buffer (envWith dupObj) samplePath [] [] dupModel
      (by decide)).2 dupObj dupData (by decide) (by decide)).2 (String.toList "2/1/1")
      (by decide)
      ⟨[⟨0, 0, 0, 0, 0, 0, 0, 1⟩, ⟨1, 0, 0, 0, 0, 0, 0, 1⟩], [0, 0, 0]⟩ (by decide)⟩

/-- Claim C17.  Two environments with the same float extraction, the same
iteration order, the same geometry file and in which the same paths open
(with whatever contents), and two texture directories: `LoadModel` returns
the same model, vertex buffers and index sequences included, in both. -/
theorem materials_do_not_reach_model {F : Type} (env1 env2 : Env F)
    (modelFile matDir texDir1 texDir2 : Str)
    (hreader : env1.reader = env2.reader) (horder : env1.order = env2.order)
    (hfile : env1.files modelFile = env2.files modelFile)
    (hopen : ∀ p, (env1.files p).isSome = (env2.files p).isSome) :
    LoadModel env1 modelFile matDir texDir1 = LoadModel env2 modelFile matDir texDir2 := by
  unfold LoadModel
  rw [← hfile, ← horder]
  cases hf : env1.files modelFile with
  | none => rfl
  | some objFile =>
    simp only []
    have hscan := scanObjAux_geometry env1 env2 matDir texDir1 texDir2 hreader hopen
      (objFile.length + 1) false objFile ObjData.empty ObjData.empty rfl
    have e1 : scanObj env1 matDir texDir1 objFile
        = scanObjAux env1 matDir texDir1 (objFile.length + 1) false objFile ObjData.empty := rfl
    have e2 : scanObj env2 matDir texDir2 objFile
        = scanObjAux env2 matDir texDir2 (objFile.length + 1) false objFile ObjData.empty := rfl
    rw [← e1, ← e2] at hscan
    cases h1 : scanObj env1 matDir texDir1 objFile with
    | aborted =>
      cases h2 : scanObj env2 matDir texDir2 objFile with
      | aborted => rfl
      | undefined => simp [h1, h2, ScanResult.geometry] at hscan
      | finished b => simp [h1, h2, ScanResult.geometry] at hscan
    | undefined =>
      cases h2 : scanObj env2 matDir texDir2 objFile with
      | aborted => simp [h1, h2, ScanResult.geometry] at hscan
      | undefined => rfl
      | finished b => simp [h1, h2, ScanResult.geometry] at hscan
    | finished a =>
      cases h2 : scanObj env2 matDir texDir2 objFile with
      | aborted => simp [h1, h2, ScanResult.geometry] at hscan
      | undefined => simp [h1, h2, ScanResult.geometry] at hscan
      | finished b =>
        simp only [h1, h2, ScanResult.geometry, ScanResult.finished.injEq, ObjData.geometry,
          ObjData.mk.injEq, and_true] at hscan
        obtain ⟨hP, hN, hT, hI⟩ := hscan
        simp only [hP, hN, hT, hI]

set_option maxRecDepth 100000 in
/-- Witness for claim C17: the geometry file `libObj` with the material file
`sampleMtl` under the texture directory `res/`, and with the material file
`otherMtl` under the texture directory `tex/`. -/
theorem materials_do_not_reach_model_witness :
    LoadModel (envOf [(samplePath, libObj), (String.toList "m.mtl", sampleMtl)]) samplePath []
        (String.toList "res/")
      = LoadModel (envOf [(samplePath, libObj), (String.toList "m.mtl", otherMtl)]) samplePath []
        (String.toList "tex/") ∧
    LoadModel (envOf [(samplePath, libObj), (String.toList "m.mtl", sampleMtl)]) samplePath []
        (String.toList "res/") = some ⟨[⟨[⟨0, 0, 0, 0, 0, 0, 0, 1⟩], [0, 0, 0]⟩]⟩ ∧
    (scanObj (envOf [(samplePath, libObj), (String.toList "m.mtl", sampleMtl)]) []
        (String.toList "res/") libObj ≠
      scanObj (envOf [(samplePath, libObj), (String.toList "m.mtl", otherMtl)]) []
        (String.toList "tex/") libObj) :=
  ⟨materials_do_not_reach_model
      (envOf [(samplePath, libObj), (String.toList "m.mtl", sampleMtl)])
      (envOf [(samplePath, libObj), (String.toList "m.mtl", otherMtl)])
      samplePath [] (String.toList "res/") (String.toList "tex/") rfl rfl (by decide)
      (by
        intro p
        simp only [envOf, find]
        split_ifs <;> rfl),
   by decide, by decide⟩

/-- Claim C18.  When the main loop, outside a mesh, arrives at a token that
contains `usemtl` (and is taken as such: it is no skip tag and does not
contain `mtllib`), the scan runs to the end of the file and leaves the
position, normal and texture coordinate sequences and the map of materials
as they are at this point: only `meshIndices` changes, and the conversion
phase is run on these sequences.  In the face loops a token that is not `f`
and does not contain `usemtl` is passed over. -/
theorem attributes_after_first_usemtl_ignored {F : Type} (env : Env F)
    (modelFile matDir texDir : Str) (objFile : List Char) (k : Nat) (r r1 : List Char)
    (d : ObjData F) (input : Str)
    (hf : env.files modelFile = some objFile)
    (hreach : runSteps env matDir texDir k false objFile ObjData.empty = some (false, r, d))
    (htok : readToken r = some (input, r1)) (hskip : isSkipTag input = false)
    (hlib : contains input kwMtllib = false) (huse : contains input kwUsemtl = true) :
    (∃ M, scanObj env matDir texDir objFile = .finished { d with meshIndices := M } ∧
      LoadModel env modelFile matDir texDir
        = buildModel d.VertexPositions d.TextureCoordinates d.Normals (env.order M)) ∧
    ∀ ws tok rest, isBlank ws = true → isToken tok = true → endsToken rest = true →
      tok ≠ ['f'] → contains tok kwUsemtl = false →
      faceLoop (ws ++ (tok ++ rest)) = faceLoop rest := by
  refine ⟨?_, faceLoop_skip⟩
  have hscan : scanObj env matDir texDir objFile = scanFrom env matDir texDir false r d :=
    runSteps_scanFrom env matDir texDir k _ _ _ _ _ _ hreach
  have hexit : (faceLoop (readInto [] r1).2).2.1 = true ∨ (faceLoop (readInto [] r1).2).2.2 = [] := by
    cases hb : (faceLoop (readInto [] r1).2).2.1 with
    | true => exact Or.inl rfl
    | false => exact Or.inr (faceLoop_exit _ hb)
  obtain ⟨M, hM⟩ := scanObjAux_meshPhase env matDir texDir
    ((faceLoop (readInto [] r1).2).2.2.length + 1) (faceLoop (readInto [] r1).2).2.1
    (faceLoop (readInto [] r1).2).2.2
    { d with meshIndices :=
        insert d.meshIndices (readInto [] r1).1 (faceLoop (readInto [] r1).2).1 } hexit
  have hfin : scanObj env matDir texDir objFile = .finished { d with meshIndices := M } := by
    rw [hscan, scanFrom_eq, scanStep_usemtl env matDir texDir r r1 input d htok hskip hlib huse]
    exact hM
  refine ⟨M, hfin, ?_⟩
  unfold LoadModel
  simp only [hf, hfin]

set_option maxRecDepth 100000 in
/-- Witness for claim C18: the file `lateRecordsObj`.  After three passes the
loop stands before `usemtl a`; the later position `9 9 9` is not read and the
later `mtllib` directive opens no file. -/
theorem attributes_after_first_usemtl_ignored_witness :
    (∃ M, scanObj (envWith lateRecordsObj) [] [] lateRecordsObj
        = .finished { lateRecordsData with meshIndices := M } ∧
      LoadModel (envWith lateRecordsObj) samplePath [] []
        = buildModel lateRecordsData.VertexPositions lateRecordsData.TextureCoordinates
            lateRecordsData.Normals ((envWith lateRecordsObj).order M)) ∧
    faceLoop (String.toList "\nv 9 9 9\nf 1/1/1 1/1/1 1/1/1\n")
      = faceLoop (String.toList " 9 9 9\nf 1/1/1 1/1/1 1/1/1\n") ∧
    LoadModel (envWith lateRecordsObj) samplePath [] []
      = some ⟨[⟨[⟨0, 0, 0, 0, 0, 0, 0, 1⟩], [0, 0, 0]⟩]⟩ :=
  ⟨(attributes_after_first_usemtl_ignored (envWith lateRecordsObj) samplePath [] []
      lateRecordsObj 3
      (String.toList "\nusemtl a\nv 9 9 9\nmtllib missing.mtl\nf 1/1/1 1/1/1 1/1/1\n")
      (String.toList " a\nv 9 9 9\nmtllib missing.mtl\nf 1/1/1 1/1/1 1/1/1\n")
      lateRecordsData (String.toList "usemtl")
      (by decide) (by decide) (by decide) (by decide) (by decide) (by decide)).1,
   (attributes_after_first_usemtl_ignored (envWith lateRecordsObj) samplePath [] []
      lateRecordsObj 3
      (String.toList "\nusemtl a\nv 9 9 9\nmtllib missing.mtl\nf 1/1/1 1/1/1 1/1/1\n")
      (String.toList " a\nv 9 9 9\nmtllib missing.mtl\nf 1/1/1 1/1/1 1/1/1\n")
      lateRecordsData (String.toList "usemtl")
      (by decide) (by decide) (by decide) (by decide) (by decide) (by decide)).2
      ['\n'] ['v'] (String.toList " 9 9 9\nf 1/1/1 1/1/1 1/1/1\n")
      (by decide) (by decide) (by decide) (by decide) (by decide),
   by decide⟩

/-- A geometry file with a face record before its first `usemtl`. -/
def faceFirstObj : List Char := String.toList
  "v 0 0 0\nvt 0 0\nvn 0 0 1\nf 1/1/1 1/1/1 1/1/1\nusemtl a\nf 1/1/1 1/1/1 1/1/1\n"

/-- The file `faceFirstObj` without the face record before `usemtl`. -/
def faceRemovedObj : List Char := String.toList
  "v 0 0 0\nvt 0 0\nvn 0 0 1\nusemtl a\nf 1/1/1 1/1/1 1/1/1\n"

/-- The path under which `faceRemovedObj` is opened. -/
def plainPath : Str := String.toList "plain.obj"

/-- The environment with the files `faceFirstObj` and `faceRemovedObj`. -/
def envFaces : Env Int := envOf [(samplePath, faceFirstObj), (plainPath, faceRemovedObj)]

/-- Claim C19.  First part: when the main loop, outside a mesh, arrives at a
face record (the token `f` and three index strings), the record is passed
over with no change of the containers; so `LoadModel` returns the same for
this file and for a file whose scan arrives at what follows the record with
the same containers, as the file without the record does.  Second part: for
a geometry file of which no token contains `usemtl`, every model returned has
no mesh, and the model without meshes is returned unless the scan uses a
float that was never written. -/
theorem faces_need_material {F : Type} (env : Env F) (modelFile modelFile2 matDir texDir : Str)
    (objFile objFile2 : List Char) (hf : env.files modelFile = some objFile) :
    (∀ (k k2 : Nat) (d : ObjData F) (ws0 ws1 ws2 ws3 i0 i1 i2 rest : List Char),
      env.files modelFile2 = some objFile2 →
      runSteps env matDir texDir k false objFile ObjData.empty
        = some (false, ws0 ++ ('f' :: (ws1 ++ (i0 ++ (ws2 ++ (i1 ++ (ws3 ++ (i2 ++ rest))))))), d) →
      runSteps env matDir texDir k2 false objFile2 ObjData.empty = some (false, rest, d) →
      isBlank ws0 = true → isBlank ws1 = true → isBlank ws2 = true → isBlank ws3 = true →
      ws1 ≠ [] → ws2 ≠ [] → ws3 ≠ [] →
      isIndexString i0 = true → isIndexString i1 = true → isIndexString i2 = true →
      endsToken rest = true →
      LoadModel env modelFile matDir texDir = LoadModel env modelFile2 matDir texDir) ∧
    ((∀ tok ∈ tokensOf objFile, contains tok kwUsemtl = false) →
      (∀ m, LoadModel env modelFile matDir texDir = some m → m.meshes = []) ∧
      (scanObj env matDir texDir objFile ≠ .undefined →
        LoadModel env modelFile matDir texDir = some ⟨[]⟩)) := by
  constructor
  · intro k k2 d ws0 ws1 ws2 ws3 i0 i1 i2 rest hf2 hr1 hr2 h0 h1 h2 h3 n1 n2 n3 hi0 hi1 hi2
      hrest
    have e1 : scanObj env matDir texDir objFile = scanFrom env matDir texDir false rest d := by
      unfold scanObj
      rw [runSteps_scanFrom env matDir texDir k _ _ _ _ _ _ hr1]
      exact scanFrom_faceRecord env matDir texDir ws0 ws1 ws2 ws3 i0 i1 i2 rest d h0 h1 h2 h3
        n1 n2 n3 hi0 hi1 hi2 hrest
    have e2 : scanObj env matDir texDir objFile2 = scanFrom env matDir texDir false rest d := by
      unfold scanObj
      exact runSteps_scanFrom env matDir texDir k2 _ _ _ _ _ _ hr2
    unfold LoadModel
    simp only [hf, hf2, e1, e2]
  · intro hno
    have hfile := contains_of_tokens objFile hno
    have hempty : buildModel ([] : List (vec3 F)) [] [] (env.order []) = some ⟨[]⟩ := by
      have ho : env.order [] = [] := List.perm_nil.1 (env.order_perm _)
      rw [ho]
      rfl
    have hres : ∀ res, scanObj env matDir texDir objFile = res → res ≠ .undefined →
        LoadModel env modelFile matDir texDir = some ⟨[]⟩ := by
      intro res hs hu
      unfold LoadModel
      simp only [hf, hs]
      cases res with
      | aborted => rfl
      | undefined => exact absurd rfl hu
      | finished d =>
        have hM : d.meshIndices = [] :=
          scanObjAux_noUsemtl env matDir texDir _ objFile ObjData.empty d hfile hs
        simp only [hM]
        have ho : env.order [] = [] := List.perm_nil.1 (env.order_perm _)
        rw [ho]
        rfl
    constructor
    · intro m hm
      cases hs : scanObj env matDir texDir objFile with
      | undefined =>
        unfold LoadModel at hm
        simp only [hf, hs] at hm
        cases hm
      | aborted =>
        rw [hres _ hs (by simp)] at hm
        simp only [Option.some.injEq] at hm
        rw [← hm]
      | finished d =>
        rw [hres _ hs (by simp)] at hm
        simp only [Option.some.injEq] at hm
        rw [← hm]
    · intro hu
      exact hres _ rfl hu

set_option maxRecDepth 100000 in
/-- Witness for claim C19: the files `faceFirstObj` and `faceRemovedObj`, in
both of which the loop stands after three passes before what follows the
position, texture coordinate and normal records; and the file `noGroupObj`,
which has a face and no `usemtl`. -/
theorem faces_need_material_witness :
    LoadModel envFaces samplePath [] [] = LoadModel envFaces plainPath [] [] ∧
    LoadModel envFaces samplePath [] [] = some ⟨[⟨[⟨0, 0, 0, 0, 0, 0, 0, 1⟩], [0, 0, 0]⟩]⟩ ∧
    LoadModel (envWith noGroupObj) samplePath [] [] = some ⟨[]⟩ :=
  ⟨(faces_need_material envFaces samplePath plainPath [] [] faceFirstObj faceRemovedObj
      (by decide)).1 3 3 ⟨[⟨0, 0, 0⟩], [⟨0, 0, 1⟩], [⟨0, 0⟩], [], []⟩
      ['\n'] [' '] [' '] [' '] (String.toList "1/1/1") (String.toList "1/1/1")
      (String.toList "1/1/1") (String.toList "\nusemtl a\nf 1/1/1 1/1/1 1/1/1\n")
      (by decide) (by decide) (by decide) (by decide) (by decide) (by decide) (by decide)
      (by decide) (by decide) (by decide) (by decide) (by decide) (by decide) (by decide),
   by decide,
   ((faces_need_material (envWith noGroupObj) samplePath samplePath [] [] noGroupObj noGroupObj
      (by decide)).2 (by decide)).2 (by decide)⟩

/-- Claim C20.  In the scan of a material file: after a token that
contains `newmtl` and the name `materialName`, the inner loop runs with this
current name; at a further token that contains `newmtl` the inner loop goes
on with the same current name; at a token that contains `map_Kd` (and not
`newmtl`) followed by a file name it records the texture for the current
name, changes the entry of no other name and ends; when the current name has
no entry after the inner loop, the loop has run into the end of the file and
has recorded nothing; and an entry, once recorded, is kept to the end of the
scan. -/
theorem material_scan_keeps_current_name (texDir materialName : Str)
    (materials : List (Str × Material)) :
    (∀ ws tok sp rest : List Char, isBlank ws = true → isToken tok = true →
      contains tok kwNewmtl = true → isBlank sp = true → sp ≠ [] →
      isToken materialName = true → endsToken rest = true →
      scanMtl texDir (ws ++ (tok ++ (sp ++ (materialName ++ rest)))) materials
        = scanMtl texDir (mtlInner texDir materialName rest materials).2
            (mtlInner texDir materialName rest materials).1) ∧
    (∀ ws tok rest : List Char, isBlank ws = true → isToken tok = true →
      endsToken rest = true → contains tok kwNewmtl = true →
      mtlInner texDir materialName (ws ++ (tok ++ rest)) materials
        = mtlInner texDir materialName rest materials) ∧
    (∀ (ws tok sp fn rest : List Char) (other : Str), isBlank ws = true → isToken tok = true →
      contains tok kwNewmtl = false → contains tok kwMapKd = true → isBlank sp = true →
      sp ≠ [] → isToken fn = true → endsToken rest = true →
      mtlInner texDir materialName (ws ++ (tok ++ (sp ++ (fn ++ rest)))) materials
        = (insert materials materialName (Material.mk (texDir ++ fn)), rest) ∧
      (other ≠ materialName →
        find other (insert materials materialName (Material.mk (texDir ++ fn)))
          = find other materials)) ∧
    (∀ r : List Char, find materialName (mtlInner texDir materialName r materials).1 = none →
      mtlInner texDir materialName r materials = (materials, [])) ∧
    (∀ (name : Str) (x : Material) (mtfile : List Char), find name materials = some x →
      find name (scanMtl texDir mtfile materials) = some x) := by
  refine ⟨?_, ?_, ?_, ?_, ?_⟩
  · intro ws tok sp rest hws htok hnew hsp hsp2 hname hrest
    exact scanMtl_newmtl texDir ws tok sp materialName rest materials hws htok hnew hsp hsp2
      hname hrest
  · intro ws tok rest hws htok hrest hnew
    exact mtlInner_newmtl texDir materialName ws tok rest materials hws htok hrest hnew
  · intro ws tok sp fn rest other hws htok hnew hkd hsp hsp2 hfn hrest
    refine ⟨?_, fun hne => find_insert_other _ _ _ _ hne⟩
    unfold mtlInner mtlInnerAux
    rw [readToken_append ws tok _ hws htok (endsToken_blank sp _ hsp hsp2)]
    simp only [hnew, hkd, Bool.false_eq_true, if_false, if_true, readInto]
    rw [readToken_append sp fn rest hsp hfn hrest]
  · intro r hnone
    rcases mtlInnerAux_result texDir materialName (r.length + 1) r materials
      (Nat.lt_succ_self _) with h | ⟨fn, r2, h⟩
    · exact h
    · unfold mtlInner at hnone
      rw [h] at hnone
      exact absurd hnone (find_insert_self _ _ _)
  · intro name x mtfile h
    exact scanMtlAux_keep texDir _ mtfile materials name x h

set_option maxRecDepth 100000 in
/-- Witness for claim C20: the file `crossMtl`, in which the entry
is recorded for `A` and `B` gets none, and the file `twiceMtl`, in which the first texture of
`A` is kept. -/
theorem material_scan_keeps_current_name_witness :
    (mtlInner (String.toList "res/") ['A'] (String.toList "\nnewmtl B\nmap_Kd f.png\n") []
      = mtlInner (String.toList "res/") ['A'] (String.toList " B\nmap_Kd f.png\n") []) ∧
    (mtlInner (String.toList "res/") ['A'] (String.toList "\nmap_Kd f.png\n") []
        = (insert [] ['A'] (Material.mk (String.toList "res/" ++ String.toList "f.png")), ['\n']) ∧
      (['B'] ≠ ['A'] →
        find ['B'] (insert [] ['A'] (Material.mk (String.toList "res/" ++ String.toList "f.png")))
          = find ['B'] ([] : List (Str × Material)))) ∧
    scanMtl (String.toList "res/") crossMtl [] = [(['A'], ⟨String.toList "res/f.png"⟩)] ∧
    find ['B'] (scanMtl (String.toList "res/") crossMtl []) = none ∧
    find ['A'] (scanMtl (String.toList "res/") (String.toList "newmtl A\nmap_Kd two.png\n")
        [(['A'], ⟨String.toList "res/one.png"⟩)]) = some ⟨String.toList "res/one.png"⟩ ∧
    scanMtl (String.toList "res/") twiceMtl [] = [(['A'], ⟨String.toList "res/one.png"⟩)] :=
  ⟨(material_scan_keeps_current_name (String.toList "res/") ['A'] []).2.1 ['\n']
      (String.toList "newmtl") (String.toList " B\nmap_Kd f.png\n")
      (by decide) (by decide) (by decide) (by decide),
   (material_scan_keeps_current_name (String.toList "res/") ['A'] []).2.2.1 ['\n']
      (String.toList "map_Kd") [' '] (String.toList "f.png") ['\n'] ['B']
      (by decide) (by decide) (by decide) (by decide) (by decide) (by decide) (by decide)
      (by decide),
   by decide,
   by decide,
   (material_scan_keeps_current_name (String.toList "res/") ['A']
      [(['A'], ⟨String.toList "res/one.png"⟩)]).2.2.2.2 ['A'] ⟨String.toList "res/one.png"⟩
      (String.toList "newmtl A\nmap_Kd two.png\n") (by decide),
   by decide⟩

end ModelLoader
